import Mathlib

/-!
# drone-sawit: the drone flight planner

A shallow embedding of `Server.GetEstateIdDronePlan` (handler/endpoints.go) and of the
repository types it reads (repository/types.go), of the handlers `PostEstate` and
`PostEstateIdTree` over the repository calls they make, and of the query text built by
`setFilterEstateTree` and `FindAllMapEstateTree` (repository/implementations.go), followed by
theorems about them.

A Go `int` holds 64 bits in two's complement.  The planner is embedded twice.  The loops
`innerLoop64`, `outerLoop64` and `dronePlanRun64` follow the program: every operation on an
`int` is wrapped to 64 bits (`wrap64`), `y%2` is Go's truncated remainder, and the vertical
move `int(math.Abs(float64(targetHeight - currentHeight)))` is a parameter `fabs`, with
`float64Abs` the conversion that rounds to the nearest float64.  The loops `innerLoop`,
`outerLoop` and `dronePlanRun` are the same statements read on unbounded integers with the
exact absolute value `absInt`; they coincide with the program on the plots and heights the
handlers admit (`dronePlanRun64_eq`: sides from 1 to 50000, heights from 0 to 30) and are the
reference against which the step log and the closed formulas are proved.  The two `for`
loops are modelled with fuel: a run that has not left a loop when the fuel is used up yields
`none`.
-/

namespace DroneSawit

/-! ## Data model (repository/types.go, generated response) -/

/-- Key of the tree map: `repository.CoordinatePoint`. -/
structure CoordinatePoint where
  X : Int
  Y : Int
deriving DecidableEq, Repr

/-- Record `repository.EstateTree` (the time stamps of `BaseModel` are left out). -/
structure EstateTree where
  ID : String
  EstateID : String
  X : Int
  Y : Int
  Height : Int
deriving DecidableEq, Repr

/-- Record `repository.Estate` (the time stamps of `BaseModel` are left out). -/
structure Estate where
  ID : String
  Width : Int
  Length : Int
deriving DecidableEq, Repr

/-- Go's `map[CoordinatePoint]EstateTree`: a function from coordinates to an optional tree. -/
abbrev TreeMap := CoordinatePoint → Option EstateTree

/-- Zero value of `EstateTree`, what indexing a Go map gives for an absent key. -/
def zeroTree : EstateTree := ⟨"", "", 0, 0, 0⟩

/-- Go's `estateTree[p]`. -/
def lookupTree (m : TreeMap) (p : CoordinatePoint) : EstateTree :=
  (m p).getD zeroTree

/-- Map literal: the entries of a list, keyed by coordinate. -/
def mapOfList (l : List (CoordinatePoint × EstateTree)) : TreeMap :=
  fun p => (l.find? (fun e => decide (e.1 = p))).map Prod.snd

/-- Tree of the given height at the given cell, as the tests build them. -/
def treeAt (x y h : Int) : CoordinatePoint × EstateTree :=
  (⟨x, y⟩, ⟨"", "", x, y, h⟩)

/-- Field `Rest` of `generated.EstateDronePlanResponse`. -/
structure RestPoint where
  X : Int
  Y : Int
deriving DecidableEq, Repr

/-- Response `generated.EstateDronePlanResponse`: `Rest` is a nullable pointer. -/
structure EstateDronePlanResponse where
  Distance : Int
  Rest : Option RestPoint
deriving DecidableEq, Repr

/-- The handler's `setResponseMaxDistance`. -/
def setResponseMaxDistance (distance x y : Int) : EstateDronePlanResponse :=
  { Distance := distance, Rest := some ⟨x, y⟩ }

/-! ## The planner loops (handler/endpoints.go, lines 156-194) -/

/-- Exact absolute value of an integer.  It is what `int(math.Abs(float64(d)))` yields
while `d` is within the range a float64 represents exactly (`float64Abs_exact`); beyond
that range the program rounds, see `float64Abs`. -/
def absInt (d : Int) : Int := if d < 0 then -d else d

/-- Value a 64-bit two's-complement `int` holds after an operation whose exact result is
`z`. -/
def wrap64 (z : Int) : Int :=
  (z + 9223372036854775808) % 18446744073709551616 - 9223372036854775808

/-- Number of low bits a natural number loses when it is stored with the 53 significant bits
of a float64: 0 below `2^53`, and one more for each further doubling. -/
def float64Shift : Nat → Nat → Nat
  | 0, _ => 0
  | fuel + 1, n => if n < 9007199254740992 then 0 else float64Shift fuel (n / 2) + 1

/-- Nearest float64 to a natural number of at most 64 bits, ties to the even significand
(the rounding of Go's conversion `float64(n)`). -/
def float64Round (n : Nat) : Nat :=
  let e := float64Shift 11 n
  let q := n / 2 ^ e
  let r := n % 2 ^ e
  if 2 ^ e < 2 * r ∨ (2 * r = 2 ^ e ∧ q % 2 = 1) then (q + 1) * 2 ^ e else q * 2 ^ e

/-- Go's `int(math.Abs(float64(d)))` for a 64-bit `d`: the magnitude rounded to the nearest
float64 and converted back.  Where the float64 is `2^63` itself the conversion back is left
to the platform by the language; the value is wrapped here, as amd64 does. -/
def float64Abs (d : Int) : Int := wrap64 (float64Round d.natAbs)

/-- Guard `params.MaxDistance != nil && totalDistance > *params.MaxDistance`. -/
def overBudget (maxDistance : Option Int) (totalDistance : Int) : Bool :=
  match maxDistance with
  | none => false
  | some b => decide (totalDistance > b)

/-- The `return` statement through which a run leaves the planner. -/
inductive Exit where
  | checkA
  | checkB
  | checkC
  | final
deriving DecidableEq, Repr

/-- What a loop hands on: either the handler has returned, or the accumulators
`totalDistance`, `currentHeight` with which execution continues. -/
inductive Flow where
  | ret (e : Exit) (r : EstateDronePlanResponse)
  | next (totalDistance currentHeight : Int)
deriving DecidableEq, Repr

/-- Inner loop `for x := xStart; x != xEnd+xStep; x += xStep`, entered at `x`, read on
unbounded integers; `innerLoop64` is the loop on 64-bit integers. -/
def innerLoop (m : TreeMap) (maxDistance : Option Int) (xEnd xStep y : Int) :
    Nat → Int → Int → Int → Option Flow
  | 0, _, _, _ => none
  | fuel + 1, x, totalDistance, currentHeight =>
    if x ≠ xEnd + xStep then
      let tree := lookupTree m ⟨x, y⟩
      let targetHeight := tree.Height + 1
      let totalDistance := totalDistance + absInt (targetHeight - currentHeight)
      let currentHeight := targetHeight
      if overBudget maxDistance totalDistance then
        some (Flow.ret Exit.checkA (setResponseMaxDistance totalDistance x y))
      else if x ≠ xEnd then
        let totalDistance := totalDistance + 10
        if overBudget maxDistance totalDistance then
          some (Flow.ret Exit.checkB (setResponseMaxDistance totalDistance x y))
        else innerLoop m maxDistance xEnd xStep y fuel (x + xStep) totalDistance currentHeight
      else innerLoop m maxDistance xEnd xStep y fuel (x + xStep) totalDistance currentHeight
    else some (Flow.next totalDistance currentHeight)

/-- Outer loop `for y := 1; y <= estate.Length; y++`, entered at `y`, read on unbounded
integers; each inner loop gets `fuelX`.  The loop variable is at least 1, where Go's `y%2`
and `y % 2` here agree.  `outerLoop64` is the loop on 64-bit integers. -/
def outerLoop (estate : Estate) (m : TreeMap) (maxDistance : Option Int) (fuelX : Nat) :
    Nat → Int → Int → Int → Option Flow
  | 0, _, _, _ => none
  | fuel + 1, y, totalDistance, currentHeight =>
    if y ≤ estate.Length then
      let xStart : Int := if y % 2 = 1 then 1 else estate.Width
      let xEnd : Int := if y % 2 = 1 then estate.Width else 1
      let xStep : Int := if y % 2 = 1 then 1 else -1
      match innerLoop m maxDistance xEnd xStep y fuelX xStart totalDistance currentHeight with
      | none => none
      | some (Flow.ret e r) => some (Flow.ret e r)
      | some (Flow.next totalDistance currentHeight) =>
        if y ≠ estate.Length then
          let totalDistance := totalDistance + 10
          if overBudget maxDistance totalDistance then
            some (Flow.ret Exit.checkC (setResponseMaxDistance totalDistance xStart (y + 1)))
          else outerLoop estate m maxDistance fuelX fuel (y + 1) totalDistance currentHeight
        else outerLoop estate m maxDistance fuelX fuel (y + 1) totalDistance currentHeight
    else some (Flow.next totalDistance currentHeight)

/-- Body of `GetEstateIdDronePlan` after the estate and the tree map have been fetched,
with the `return` statement it leaves through, read on unbounded integers.  The program
itself is `dronePlanRun64`; the two agree on the plots and heights the handlers admit
(`dronePlanRun64_eq`). -/
def dronePlanRun (fuel : Nat) (estate : Estate) (m : TreeMap) (maxDistance : Option Int) :
    Option (Exit × EstateDronePlanResponse) :=
  match outerLoop estate m maxDistance fuel fuel 1 0 0 with
  | none => none
  | some (Flow.ret e r) => some (e, r)
  | some (Flow.next totalDistance currentHeight) =>
    let totalDistance := totalDistance + currentHeight
    match maxDistance with
    | some _ => some (Exit.final, setResponseMaxDistance totalDistance estate.Width estate.Length)
    | none => some (Exit.final, { Distance := totalDistance, Rest := none })

/-- The handler `GetEstateIdDronePlan` from the fetched estate and tree map to the body of
its 200 response, read on unbounded integers (`GetEstateIdDronePlan64` on 64-bit ones). -/
def GetEstateIdDronePlan (fuel : Nat) (estate : Estate) (m : TreeMap)
    (maxDistance : Option Int) : Option EstateDronePlanResponse :=
  (dronePlanRun fuel estate m maxDistance).map Prod.snd

/-- Tree map of the first planner test (5 x 1). -/
def testMap54 : TreeMap :=
  mapOfList [treeAt 2 1 5, treeAt 3 1 3, treeAt 4 1 4]

/-- Tree map of the second and third planner tests (6 x 3). -/
def testMap312 : TreeMap :=
  mapOfList [treeAt 3 1 10, treeAt 3 2 30, treeAt 4 2 14, treeAt 6 2 24, treeAt 5 3 6]

/-! ## The log of a traversal

The steps the loops charge, in the order they charge them, each with the loop variables
at that point and its cost.  A budget only decides where in this log a run stops. -/

/-- The three statements that add to `totalDistance` inside the loops. -/
inductive StepKind where
  | vertical
  | horizontal
  | rowTransition
deriving DecidableEq, Repr

/-- One charged step: the statement, the cell `(x, y)` the scan is at, and the cost. -/
structure Step where
  kind : StepKind
  x : Int
  y : Int
  cost : Int
deriving DecidableEq, Repr

/-- Clearance `tree.Height + 1` over the cell `(x, y)`. -/
def targetHeight (m : TreeMap) (x y : Int) : Int :=
  (lookupTree m ⟨x, y⟩).Height + 1

/-- Values `x, x + s, x + 2 s, ...` (`k` of them) the inner loop variable takes. -/
def countFrom (x s : Int) : Nat → List Int
  | 0 => []
  | k + 1 => x :: countFrom (x + s) s k

/-- Columns of row `y` in the order the inner loop visits them. -/
def rowXs (width y : Int) : List Int :=
  if y % 2 = 1 then countFrom 1 1 width.toNat else countFrom width (-1) width.toNat

/-- Steps charged while the inner loop visits the columns `xs` of row `y`, entered at
height `cur`. -/
def rowSteps (m : TreeMap) (y : Int) : List Int → Int → List Step
  | [], _ => []
  | [x], cur => [⟨StepKind.vertical, x, y, absInt (targetHeight m x y - cur)⟩]
  | x :: x2 :: xs, cur =>
    ⟨StepKind.vertical, x, y, absInt (targetHeight m x y - cur)⟩ ::
      ⟨StepKind.horizontal, x, y, 10⟩ :: rowSteps m y (x2 :: xs) (targetHeight m x y)

/-- Value of `currentHeight` after the inner loop has visited the columns `xs` of row `y`. -/
def rowHeight (m : TreeMap) (y : Int) : List Int → Int → Int
  | [], cur => cur
  | x :: xs, _ => rowHeight m y xs (targetHeight m x y)

/-- Step charged after row `y`, if it is not the last row; it is logged at the cell the
row ended in. -/
def transitionStep (estate : Estate) (y : Int) : List Step :=
  if y ≠ estate.Length then
    [⟨StepKind.rowTransition, if y % 2 = 1 then estate.Width else 1, y, 10⟩]
  else []

/-- Steps charged by `n` rounds of the outer loop from row `y`, entered at height `cur`. -/
def stepsFrom (estate : Estate) (m : TreeMap) : Nat → Int → Int → List Step
  | 0, _, _ => []
  | n + 1, y, cur =>
    rowSteps m y (rowXs estate.Width y) cur ++ transitionStep estate y ++
      stepsFrom estate m n (y + 1) (rowHeight m y (rowXs estate.Width y) cur)

/-- Value of `currentHeight` after `n` rounds of the outer loop from row `y`. -/
def heightFrom (estate : Estate) (m : TreeMap) : Nat → Int → Int → Int
  | 0, _, cur => cur
  | n + 1, y, cur => heightFrom estate m n (y + 1) (rowHeight m y (rowXs estate.Width y) cur)

/-- All steps of a full traversal, before the final descent. -/
def planSteps (estate : Estate) (m : TreeMap) : List Step :=
  stepsFrom estate m estate.Length.toNat 1 0

/-- Value of `currentHeight` when the loops are left: the final descent. -/
def finalHeight (estate : Estate) (m : TreeMap) : Int :=
  heightFrom estate m estate.Length.toNat 1 0

/-- Sum of the costs of a list of steps. -/
def costSum (ss : List Step) : Int := (ss.map Step.cost).sum

/-- Accumulated total after the first `k` steps of a log. -/
def accumulated (ss : List Step) (k : Nat) : Int := costSum (ss.take k)

/-- First step of a log, started at total `t`, after which the budget check fires, with
the total after it. -/
def firstOver (maxDistance : Option Int) : List Step → Int → Option (Step × Int)
  | [], _ => none
  | s :: ss, t =>
    if overBudget maxDistance (t + s.cost) then some (s, t + s.cost)
    else firstOver maxDistance ss (t + s.cost)

/-- Budget check that follows each kind of step. -/
def exitOf : StepKind → Exit
  | StepKind.vertical => Exit.checkA
  | StepKind.horizontal => Exit.checkB
  | StepKind.rowTransition => Exit.checkC

/-- Coordinate the budget check after a step passes to `setResponseMaxDistance`:
`(x, y)` at checks A and B, `(xStart, y+1)` at check C, `xStart` being the variable of
the round of the outer loop that is ending. -/
def restOf (estate : Estate) (s : Step) : RestPoint :=
  match s.kind with
  | StepKind.rowTransition => ⟨if s.y % 2 = 1 then 1 else estate.Width, s.y + 1⟩
  | _ => ⟨s.x, s.y⟩

/-- Outcome of a loop that charges the steps `ss` from total `t` and ends at height `h`. -/
def flowOf (estate : Estate) (maxDistance : Option Int) (ss : List Step) (t h : Int) : Flow :=
  match firstOver maxDistance ss t with
  | some (s, d) =>
    Flow.ret (exitOf s.kind) (setResponseMaxDistance d (restOf estate s).X (restOf estate s).Y)
  | none => Flow.next (t + costSum ss) h

/-- Outcome of a run read off the log: the first step after which the budget check fires
decides the early return; without one the final descent is added. -/
def planOutcome (estate : Estate) (m : TreeMap) (maxDistance : Option Int) :
    Exit × EstateDronePlanResponse :=
  match firstOver maxDistance (planSteps estate m) 0 with
  | some (s, d) =>
    (exitOf s.kind, setResponseMaxDistance d (restOf estate s).X (restOf estate s).Y)
  | none =>
    match maxDistance with
    | some _ =>
      (Exit.final, setResponseMaxDistance (costSum (planSteps estate m) + finalHeight estate m)
        estate.Width estate.Length)
    | none =>
      (Exit.final, { Distance := costSum (planSteps estate m) + finalHeight estate m, Rest := none })

/-! ## The serpentine order and the distance the claims state -/

/-- Cells of row `y` in serpentine order: `x = 1..width` when `y` is odd, `x = width..1`
when `y` is even. -/
def serpentineRow (width : Nat) (y : Int) : List CoordinatePoint :=
  let xs := (List.range width).map (fun (i : Nat) => (i : Int) + 1)
  (if y % 2 = 1 then xs else xs.reverse).map (fun x => ⟨x, y⟩)

/-- Grid cells `c_1 .. c_n` in serpentine order: rows `y = 1..length`. -/
def serpentine (width length : Nat) : List CoordinatePoint :=
  ((List.range length).map (fun (j : Nat) => serpentineRow width ((j : Int) + 1))).flatten

/-- Clearances `T_i = height(c_i) + 1` along the serpentine order, height `0` for a cell
absent from the map. -/
def clearances (estate : Estate) (m : TreeMap) : List Int :=
  (serpentine estate.Width.toNat estate.Length.toNat).map
    (fun c => ((m c).map EstateTree.Height).getD 0 + 1)

/-- Sum of `10 + |T_i - T_(i-1)|` over the list, `prev` being the value before its head. -/
def hopsFrom : Int → List Int → Int
  | _, [] => 0
  | prev, t :: r => 10 + ((t - prev).natAbs : Int) + hopsFrom t r

/-- Distance `T_1 + sum over i = 2..n of (10 + |T_i - T_(i-1)|) + T_n`. -/
def claimedDistance (ts : List Int) : Int :=
  ts.headD 0 + hopsFrom (ts.headD 0) ts.tail + ts.getLastD 0

/-- Distance `|T_1| + sum over i = 2..n of (10 + |T_i - T_(i-1)|) + T_n`. -/
def serpentineDistance (ts : List Int) : Int :=
  ((ts.headD 0).natAbs : Int) + hopsFrom (ts.headD 0) ts.tail + ts.getLastD 0

/-- Cells of the `n` rows from row `y` on, in serpentine order. -/
def cellsFrom (width : Nat) (n : Nat) (y : Int) : List CoordinatePoint :=
  ((List.range n).map (fun (j : Nat) => serpentineRow width (y + (j : Int)))).flatten

/-- Go's `m[p] = t`: the map with the entry for `p` set to `t`. -/
def insertTree (m : TreeMap) (p : CoordinatePoint) (t : EstateTree) : TreeMap :=
  fun q => if q = p then some t else m q

/-! ## The loops with the map look-ups recorded

The same two loops, each `estateTree[CoordinatePoint{X: x, Y: y}]` appending its key to a
list; dropping the list gives `innerLoop`, `outerLoop` and `dronePlanRun` back. -/

/-- Inner loop that also records the keys it looks up. -/
def innerLoopLog (m : TreeMap) (maxDistance : Option Int) (xEnd xStep y : Int) :
    Nat → Int → Int → Int → List CoordinatePoint → Option (Flow × List CoordinatePoint)
  | 0, _, _, _, _ => none
  | fuel + 1, x, totalDistance, currentHeight, visited =>
    if x ≠ xEnd + xStep then
      let visited := visited ++ [(⟨x, y⟩ : CoordinatePoint)]
      let tree := lookupTree m ⟨x, y⟩
      let targetHeight := tree.Height + 1
      let totalDistance := totalDistance + absInt (targetHeight - currentHeight)
      let currentHeight := targetHeight
      if overBudget maxDistance totalDistance then
        some (Flow.ret Exit.checkA (setResponseMaxDistance totalDistance x y), visited)
      else if x ≠ xEnd then
        let totalDistance := totalDistance + 10
        if overBudget maxDistance totalDistance then
          some (Flow.ret Exit.checkB (setResponseMaxDistance totalDistance x y), visited)
        else
          innerLoopLog m maxDistance xEnd xStep y fuel (x + xStep) totalDistance currentHeight
            visited
      else
        innerLoopLog m maxDistance xEnd xStep y fuel (x + xStep) totalDistance currentHeight
          visited
    else some (Flow.next totalDistance currentHeight, visited)

/-- Outer loop that also records the keys looked up. -/
def outerLoopLog (estate : Estate) (m : TreeMap) (maxDistance : Option Int) (fuelX : Nat) :
    Nat → Int → Int → Int → List CoordinatePoint → Option (Flow × List CoordinatePoint)
  | 0, _, _, _, _ => none
  | fuel + 1, y, totalDistance, currentHeight, visited =>
    if y ≤ estate.Length then
      let xStart : Int := if y % 2 = 1 then 1 else estate.Width
      let xEnd : Int := if y % 2 = 1 then estate.Width else 1
      let xStep : Int := if y % 2 = 1 then 1 else -1
      match innerLoopLog m maxDistance xEnd xStep y fuelX xStart totalDistance currentHeight
          visited with
      | none => none
      | some (Flow.ret e r, visited) => some (Flow.ret e r, visited)
      | some (Flow.next totalDistance currentHeight, visited) =>
        if y ≠ estate.Length then
          let totalDistance := totalDistance + 10
          if overBudget maxDistance totalDistance then
            some (Flow.ret Exit.checkC (setResponseMaxDistance totalDistance xStart (y + 1)),
              visited)
          else
            outerLoopLog estate m maxDistance fuelX fuel (y + 1) totalDistance currentHeight
              visited
        else
          outerLoopLog estate m maxDistance fuelX fuel (y + 1) totalDistance currentHeight
            visited
    else some (Flow.next totalDistance currentHeight, visited)

/-- Planner body with the list of keys it has looked up when it returns. -/
def dronePlanLog (fuel : Nat) (estate : Estate) (m : TreeMap) (maxDistance : Option Int) :
    Option ((Exit × EstateDronePlanResponse) × List CoordinatePoint) :=
  match outerLoopLog estate m maxDistance fuel fuel 1 0 0 [] with
  | none => none
  | some (Flow.ret e r, visited) => some ((e, r), visited)
  | some (Flow.next totalDistance currentHeight, visited) =>
    let totalDistance := totalDistance + currentHeight
    match maxDistance with
    | some _ =>
      some ((Exit.final, setResponseMaxDistance totalDistance estate.Width estate.Length),
        visited)
    | none => some ((Exit.final, { Distance := totalDistance, Rest := none }), visited)

/-! ## Repository filters and the queries built from them (repository/types.go,
repository/implementations.go) -/

/-- Record `repository.Filter`; `SortOrder` is its field `Sort`. -/
structure Filter where
  Limit : Int := 0
  Page : Int := 0
  Offset : Int := 0
  Search : String := ""
  OrderBy : String := ""
  SortOrder : String := ""
  ShowAll : Bool := false
deriving DecidableEq, Repr

/-- Method `Filter.CalculateOffset`: stores and returns `(f.Page - 1) * f.Limit`, a
difference and a product of 64-bit `int`s. -/
def Filter.CalculateOffset (f : Filter) : Filter × Int :=
  ({ f with Offset := wrap64 (wrap64 (f.Page - 1) * f.Limit) },
    wrap64 (wrap64 (f.Page - 1) * f.Limit))

/-- Record `repository.FilterEstate`. -/
structure FilterEstate extends Filter where
  ID : String := ""
deriving DecidableEq, Repr

/-- Record `repository.FilterEstateTree`. -/
structure FilterEstateTree extends Filter where
  ID : String := ""
  EstateID : String := ""
  X : Int := 0
  Y : Int := 0
deriving DecidableEq, Repr

/-- Value handed to the database as a query parameter (`interface{}`): the filters pass
strings and ints. -/
inductive SqlArg where
  | str (s : String)
  | int (n : Int)
deriving DecidableEq, Repr

/-- Constant `GetEstateTreeQuery`. -/
def GetEstateTreeQuery : String :=
  "SELECT id, estate_id, created_at, updated_at, deleted_at, x, y, height FROM estate_trees"

/-- Constant `EstateTreeCountQuery`. -/
def EstateTreeCountQuery : String := "SELECT COUNT(1) FROM estate_trees"

/-- Go's `strconv.Itoa` on a slice length. -/
def Itoa (n : Nat) : String := toString n

/-- Method `Repository.setFilterEstateTree`: the WHERE clause and its parameters. -/
def setFilterEstateTree (baseQuery : String) (filter : FilterEstateTree) :
    String × List SqlArg :=
  let conds : List String := []
  let paramValue : List SqlArg := []
  let (conds, paramValue) :=
    if filter.ID ≠ "" then
      (conds ++ ["id = $" ++ Itoa (paramValue.length + 1)], paramValue ++ [SqlArg.str filter.ID])
    else (conds, paramValue)
  let (conds, paramValue) :=
    if filter.EstateID ≠ "" then
      (conds ++ ["estate_id = $" ++ Itoa (paramValue.length + 1)],
        paramValue ++ [SqlArg.str filter.EstateID])
    else (conds, paramValue)
  let (conds, paramValue) :=
    if filter.X ≠ 0 then
      (conds ++ ["x = $" ++ Itoa (paramValue.length + 1)], paramValue ++ [SqlArg.int filter.X])
    else (conds, paramValue)
  let (conds, paramValue) :=
    if filter.Y ≠ 0 then
      (conds ++ ["y = $" ++ Itoa (paramValue.length + 1)], paramValue ++ [SqlArg.int filter.Y])
    else (conds, paramValue)
  let conds := conds ++ ["deleted_at IS NULL"]
  let clauseWhere := String.intercalate " AND " conds
  let baseQuery := if clauseWhere ≠ "" then baseQuery ++ " WHERE " ++ clauseWhere else baseQuery
  (baseQuery, paramValue)

/-- Query and parameters `Repository.FindAllMapEstateTree` passes to the database. -/
def FindAllMapEstateTreeQuery (filter : FilterEstateTree) : String × List SqlArg :=
  let (finalQuery, paramValue) := setFilterEstateTree GetEstateTreeQuery filter
  let finalQuery :=
    if filter.OrderBy ≠ "" then finalQuery ++ " ORDER BY " ++ filter.OrderBy ++ " " ++ filter.SortOrder
    else finalQuery
  if filter.Limit > 0 ∨ filter.ShowAll = false then
    let limit := "LIMIT $" ++ Itoa (paramValue.length + 1) ++ " OFFSET $" ++
      Itoa (paramValue.length + 2)
    (finalQuery ++ " " ++ limit,
      paramValue ++ [SqlArg.int filter.Limit, SqlArg.int filter.toFilter.CalculateOffset.2])
  else (finalQuery, paramValue)

/-- Filter the drone-plan handler passes to `FindAllMapEstateTree`. -/
def dronePlanFilter (estateID : String) : FilterEstateTree :=
  { Page := 1, ShowAll := true, EstateID := estateID }

/-- Filter fields that are set (non-empty, non-zero), in the order id, estate_id, x, y, each
with its column name and its value. -/
def activeFields (filter : FilterEstateTree) : List (String × SqlArg) :=
  (if filter.ID ≠ "" then [("id", SqlArg.str filter.ID)] else []) ++
    (if filter.EstateID ≠ "" then [("estate_id", SqlArg.str filter.EstateID)] else []) ++
    (if filter.X ≠ 0 then [("x", SqlArg.int filter.X)] else []) ++
    (if filter.Y ≠ 0 then [("y", SqlArg.int filter.Y)] else [])

/-- Conditions `name = $k` for the fields of a list, the first numbered `k`. -/
def placeholderConditions : Nat → List (String × SqlArg) → List String
  | _, [] => []
  | k, (name, _) :: rest => (name ++ " = $" ++ toString k) :: placeholderConditions (k + 1) rest

/-- Query text `base WHERE c_1 AND ... AND c_n AND deleted_at IS NULL` over the set fields. -/
def describedQuery (baseQuery : String) (filter : FilterEstateTree) : String :=
  baseQuery ++ " WHERE " ++
    String.intercalate " AND "
      (placeholderConditions 1 (activeFields filter) ++ ["deleted_at IS NULL"])

/-! ## The handlers and the repository they call (handler/endpoints.go)

A handler is a function of the bound request, the identifier `uuid.NewString()` hands out
and the answers of the repository; it yields the reply and the repository calls it made, in
order. -/

/-- Request `generated.EstateRequest`, with the fields `PostEstate` reads. -/
structure EstateRequest where
  Width : Int
  Length : Int
deriving DecidableEq, Repr

/-- Request `generated.EstateTreeRequest`, with the fields `PostEstateIdTree` reads. -/
structure EstateTreeRequest where
  X : Int
  Y : Int
  Height : Int
deriving DecidableEq, Repr

/-- Body of a reply: `generated.ErrorResponse`, a response carrying the new `Id`, or the
drone plan. -/
inductive ReplyBody where
  | error (message : String)
  | created (id : String)
  | plan (r : EstateDronePlanResponse)
deriving DecidableEq, Repr

/-- Reply `c.JSON(status, body)`. -/
structure Reply where
  status : Nat
  body : ReplyBody
deriving DecidableEq, Repr

/-- Interface `repository.RepositoryInterface`, the methods the three handlers use: a
failing call answers with its error. -/
structure RepositoryInterface where
  CreateEstate : Estate → Option String
  FindEstate : FilterEstate → Except String Estate
  CreateEstateTree : EstateTree → Option String
  FindAllMapEstateTree : FilterEstateTree → Except String TreeMap
  FindEstateTree : FilterEstateTree → Except String EstateTree

/-- A call a handler makes on the repository, with its argument. -/
inductive RepoCall where
  | CreateEstate (data : Estate)
  | FindEstate (filter : FilterEstate)
  | CreateEstateTree (data : EstateTree)
  | FindAllMapEstateTree (filter : FilterEstateTree)
  | FindEstateTree (filter : FilterEstateTree)
deriving DecidableEq, Repr

/-- Handler `Server.PostEstate`; `bind` is the outcome of `c.Bind(&req)`. -/
def PostEstate (repo : RepositoryInterface) (bind : Except String EstateRequest)
    (newID : String) : Reply × List RepoCall :=
  match bind with
  | Except.error _ => (⟨400, ReplyBody.error "invalid request body"⟩, [])
  | Except.ok req =>
    if req.Width ≤ 0 ∨ req.Length ≤ 0 ∨ req.Width > 50000 ∨ req.Length > 50000 then
      (⟨400, ReplyBody.error "width and length must be between 1 and 50000"⟩, [])
    else
      let estate : Estate := ⟨newID, req.Width, req.Length⟩
      match repo.CreateEstate estate with
      | some _ =>
        (⟨400, ReplyBody.error "failed to create estate"⟩, [RepoCall.CreateEstate estate])
      | none => (⟨201, ReplyBody.created estate.ID⟩, [RepoCall.CreateEstate estate])

/-- Handler `Server.PostEstateIdTree`; `bind` is the outcome of `c.Bind(&req)`. -/
def PostEstateIdTree (repo : RepositoryInterface) (bind : Except String EstateTreeRequest)
    (newID : String) (estateID : String) : Reply × List RepoCall :=
  match bind with
  | Except.error err => (⟨400, ReplyBody.error err⟩, [])
  | Except.ok req =>
    if req.X < 1 ∨ req.Y < 1 ∨ req.Height < 1 ∨ req.Height > 30 then
      (⟨400, ReplyBody.error
        "x and y must be greatest equal 1, height must be between 1 and 30"⟩, [])
    else
      let filterEstate : FilterEstate := { ID := estateID }
      match repo.FindEstate filterEstate with
      | Except.error _ =>
        (⟨404, ReplyBody.error ("estate " ++ estateID ++ " not found")⟩,
          [RepoCall.FindEstate filterEstate])
      | Except.ok estate =>
        if estate.Length < req.X ∨ estate.Width < req.Y then
          (⟨400, ReplyBody.error "coordinate out of bound"⟩, [RepoCall.FindEstate filterEstate])
        else
          let filterTree : FilterEstateTree := { EstateID := estateID, X := req.X, Y := req.Y }
          match repo.FindEstateTree filterTree with
          | Except.ok _ =>
            (⟨400, ReplyBody.error "plot already has tree"⟩,
              [RepoCall.FindEstate filterEstate, RepoCall.FindEstateTree filterTree])
          | Except.error _ =>
            let data : EstateTree := ⟨newID, estateID, req.X, req.Y, req.Height⟩
            match repo.CreateEstateTree data with
            | some _ =>
              (⟨400, ReplyBody.error "failed to create estate tree"⟩,
                [RepoCall.FindEstate filterEstate, RepoCall.FindEstateTree filterTree,
                  RepoCall.CreateEstateTree data])
            | none =>
              (⟨201, ReplyBody.created data.ID⟩,
                [RepoCall.FindEstate filterEstate, RepoCall.FindEstateTree filterTree,
                  RepoCall.CreateEstateTree data])

/-- Handler `Server.GetEstateIdDronePlan` as a whole: the two repository calls, then the
planner body `GetEstateIdDronePlan`. -/
def GetEstateIdDronePlanHandler (fuel : Nat) (repo : RepositoryInterface) (estateID : String)
    (maxDistance : Option Int) : Option (Reply × List RepoCall) :=
  let filterEstate : FilterEstate := { ID := estateID }
  match repo.FindEstate filterEstate with
  | Except.error _ =>
    some (⟨404, ReplyBody.error ("estate " ++ estateID ++ " not found")⟩,
      [RepoCall.FindEstate filterEstate])
  | Except.ok estate =>
    match repo.FindAllMapEstateTree (dronePlanFilter estateID) with
    | Except.error err =>
      some (⟨400, ReplyBody.error err⟩,
        [RepoCall.FindEstate filterEstate, RepoCall.FindAllMapEstateTree (dronePlanFilter estateID)])
    | Except.ok estateTree =>
      (GetEstateIdDronePlan fuel estate estateTree maxDistance).map fun r =>
        (⟨200, ReplyBody.plan r⟩,
          [RepoCall.FindEstate filterEstate,
            RepoCall.FindAllMapEstateTree (dronePlanFilter estateID)])

/-- Repository of the tree-handler tests: the estate found has the given width and length,
no tree is found at the requested cell and every write succeeds. -/
def testRepository (width length : Int) : RepositoryInterface where
  CreateEstate := fun _ => none
  FindEstate := fun _ => Except.ok ⟨"estate", width, length⟩
  CreateEstateTree := fun _ => none
  FindAllMapEstateTree := fun _ => Except.ok (mapOfList [])
  FindEstateTree := fun _ => Except.error "not found"

/-! ## Bounds on the distance -/

/-- Cell inside the grid of an estate: `1 <= x <= width` and `1 <= y <= length`. -/
def inGrid (estate : Estate) (c : CoordinatePoint) : Prop :=
  1 ≤ c.X ∧ c.X ≤ estate.Width ∧ 1 ≤ c.Y ∧ c.Y ≤ estate.Length

/-- Maximum height over the cells of the grid, 0 if there is none. -/
def maxHeight (estate : Estate) (m : TreeMap) : Int :=
  ((serpentine estate.Width.toNat estate.Length.toNat).map
    (fun c => (lookupTree m c).Height)).foldr max 0

/-! ## The planner loops on 64-bit integers

The loops of the program: every operation on a Go `int` is wrapped to 64 bits, and `y%2` is
Go's truncated remainder.  The conversion through float64, `int(math.Abs(float64(d)))`, is a
parameter `fabs`: the standard library is not part of the sources.  `float64Abs` is that
conversion with the rounding of IEEE 754. -/

/-- Inner loop on 64-bit integers. -/
def innerLoop64 (fabs : Int → Int) (m : TreeMap) (maxDistance : Option Int)
    (xEnd xStep y : Int) : Nat → Int → Int → Int → Option Flow
  | 0, _, _, _ => none
  | fuel + 1, x, totalDistance, currentHeight =>
    if x ≠ wrap64 (xEnd + xStep) then
      let tree := lookupTree m ⟨x, y⟩
      let targetHeight := wrap64 (tree.Height + 1)
      let totalDistance := wrap64 (totalDistance + fabs (wrap64 (targetHeight - currentHeight)))
      let currentHeight := targetHeight
      if overBudget maxDistance totalDistance then
        some (Flow.ret Exit.checkA (setResponseMaxDistance totalDistance x y))
      else if x ≠ xEnd then
        let totalDistance := wrap64 (totalDistance + 10)
        if overBudget maxDistance totalDistance then
          some (Flow.ret Exit.checkB (setResponseMaxDistance totalDistance x y))
        else
          innerLoop64 fabs m maxDistance xEnd xStep y fuel (wrap64 (x + xStep)) totalDistance
            currentHeight
      else
        innerLoop64 fabs m maxDistance xEnd xStep y fuel (wrap64 (x + xStep)) totalDistance
          currentHeight
    else some (Flow.next totalDistance currentHeight)

/-- Outer loop on 64-bit integers. -/
def outerLoop64 (fabs : Int → Int) (estate : Estate) (m : TreeMap) (maxDistance : Option Int)
    (fuelX : Nat) : Nat → Int → Int → Int → Option Flow
  | 0, _, _, _ => none
  | fuel + 1, y, totalDistance, currentHeight =>
    if y ≤ estate.Length then
      let xStart : Int := if Int.tmod y 2 = 1 then 1 else estate.Width
      let xEnd : Int := if Int.tmod y 2 = 1 then estate.Width else 1
      let xStep : Int := if Int.tmod y 2 = 1 then 1 else -1
      match innerLoop64 fabs m maxDistance xEnd xStep y fuelX xStart totalDistance
          currentHeight with
      | none => none
      | some (Flow.ret e r) => some (Flow.ret e r)
      | some (Flow.next totalDistance currentHeight) =>
        if y ≠ estate.Length then
          let totalDistance := wrap64 (totalDistance + 10)
          if overBudget maxDistance totalDistance then
            some (Flow.ret Exit.checkC
              (setResponseMaxDistance totalDistance xStart (wrap64 (y + 1))))
          else
            outerLoop64 fabs estate m maxDistance fuelX fuel (wrap64 (y + 1)) totalDistance
              currentHeight
        else
          outerLoop64 fabs estate m maxDistance fuelX fuel (wrap64 (y + 1)) totalDistance
            currentHeight
    else some (Flow.next totalDistance currentHeight)

/-- Planner body on 64-bit integers. -/
def dronePlanRun64 (fabs : Int → Int) (fuel : Nat) (estate : Estate) (m : TreeMap)
    (maxDistance : Option Int) : Option (Exit × EstateDronePlanResponse) :=
  match outerLoop64 fabs estate m maxDistance fuel fuel 1 0 0 with
  | none => none
  | some (Flow.ret e r) => some (e, r)
  | some (Flow.next totalDistance currentHeight) =>
    let totalDistance := wrap64 (totalDistance + currentHeight)
    match maxDistance with
    | some _ => some (Exit.final, setResponseMaxDistance totalDistance estate.Width estate.Length)
    | none => some (Exit.final, { Distance := totalDistance, Rest := none })

/-- The handler `GetEstateIdDronePlan` on 64-bit integers, from the fetched estate and tree
map to the body of its 200 response. -/
def GetEstateIdDronePlan64 (fabs : Int → Int) (fuel : Nat) (estate : Estate) (m : TreeMap)
    (maxDistance : Option Int) : Option EstateDronePlanResponse :=
  (dronePlanRun64 fabs fuel estate m maxDistance).map Prod.snd

/-- Tree map with one tree, of height `2^53`, at (1, 1). -/
def testMapTall : TreeMap :=
  mapOfList [treeAt 1 1 9007199254740992]

/-- Tree map with one tree, of height `2^62`, at (1, 1). -/
def testMapHuge : TreeMap :=
  mapOfList [treeAt 1 1 4611686018427387904]

/-! ## The rows a query returns (repository/implementations.go, lines 85-105) -/

/-- What the database hands back for a query that it accepts: the rows in the order
`rows.Next()` yields them, each as `rows.Scan` reads it (a tree or an error), and the error
`rows.Err()` reports once the rows are exhausted. -/
structure QueryRows where
  scanned : List (Except String EstateTree)
  err : Option String

/-- Loop `for rows.Next()` of `FindAllMapEstateTree`: each tree read is stored under its
coordinate, a failed `Scan` returns its error. -/
def scanRows : List (Except String EstateTree) → TreeMap → Except String TreeMap
  | [], result => Except.ok result
  | Except.error e :: _, _ => Except.error e
  | Except.ok estateTree :: rest, result =>
    scanRows rest (insertTree result ⟨estateTree.X, estateTree.Y⟩ estateTree)

/-- Method `Repository.FindAllMapEstateTree`; `db` is `r.Db.QueryContext`, the answer of the
database to a query text and its parameters. -/
def FindAllMapEstateTree (db : String → List SqlArg → Except String QueryRows)
    (filter : FilterEstateTree) : Except String TreeMap :=
  match db (FindAllMapEstateTreeQuery filter).1 (FindAllMapEstateTreeQuery filter).2 with
  | Except.error e => Except.error e
  | Except.ok rows =>
    match scanRows rows.scanned (fun _ => none) with
    | Except.error e => Except.error e
    | Except.ok result =>
      match rows.err with
      | some e => Except.error e
      | none => Except.ok result

/-- Query and parameters of `FindAllMapEstateTree` as its description words them: the WHERE
query over the set fields, then ` ORDER BY ` with the column and direction when `OrderBy` is
set, then, exactly when `Limit > 0` or `ShowAll` is false, ` LIMIT $(n+1) OFFSET $(n+2)`
with the two parameters `Limit` and `offset` after the `n` parameters of the WHERE
clause. -/
def describedFindAllQuery (filter : FilterEstateTree) (offset : Int) : String × List SqlArg :=
  let n := (activeFields filter).length
  let ordered :=
    if filter.OrderBy = "" then describedQuery GetEstateTreeQuery filter
    else describedQuery GetEstateTreeQuery filter ++ " ORDER BY " ++ filter.OrderBy ++ " " ++
      filter.SortOrder
  if filter.Limit > 0 ∨ filter.ShowAll = false then
    (ordered ++ " LIMIT $" ++ toString (n + 1) ++ " OFFSET $" ++ toString (n + 2),
      (activeFields filter).map Prod.snd ++ [SqlArg.int filter.Limit, SqlArg.int offset])
  else (ordered, (activeFields filter).map Prod.snd)

/-! ## The loops follow the log -/

theorem absInt_nonneg (d : Int) : 0 ≤ absInt d := by
  unfold absInt
  split <;> omega

theorem costSum_nil : costSum [] = 0 := rfl

theorem costSum_cons (s : Step) (ss : List Step) : costSum (s :: ss) = s.cost + costSum ss := by
  simp [costSum]

theorem costSum_append (as bs : List Step) : costSum (as ++ bs) = costSum as + costSum bs := by
  simp [costSum]

theorem firstOver_append (b : Option Int) (as bs : List Step) (t : Int) :
    firstOver b (as ++ bs) t =
      match firstOver b as t with
      | some r => some r
      | none => firstOver b bs (t + costSum as) := by
  induction as generalizing t with
  | nil => simp [firstOver, costSum_nil]
  | cons a as ih =>
    by_cases h : overBudget b (t + a.cost) = true
    · simp [firstOver, h]
    · simp [firstOver, h, ih, costSum_cons, add_assoc]

theorem innerLoop_eq (estate : Estate) (m : TreeMap) (b : Option Int) (xEnd s y : Int)
    (hs : s = 1 ∨ s = -1) :
    ∀ (k fuel : Nat) (x t cur : Int), k < fuel → xEnd + s = x + k * s →
      innerLoop m b xEnd s y fuel x t cur =
        some (flowOf estate b (rowSteps m y (countFrom x s k) cur) t
          (rowHeight m y (countFrom x s k) cur)) := by
  intro k
  induction k with
  | zero =>
    intro fuel x t cur hf hx
    obtain ⟨f, rfl⟩ : ∃ f, fuel = f + 1 := ⟨fuel - 1, by omega⟩
    have hx2 : x = xEnd + s := by simpa using hx.symm
    simp [innerLoop, hx2, countFrom, rowSteps, rowHeight, flowOf, firstOver, costSum_nil]
  | succ k ih =>
    intro fuel x t cur hf hx
    obtain ⟨f, rfl⟩ : ∃ f, fuel = f + 1 := ⟨fuel - 1, by omega⟩
    have hkf : k < f := by omega
    have hne : x ≠ xEnd + s := by
      rcases hs with rfl | rfl <;> push_cast at hx <;> omega
    have hnext : xEnd + s = (x + s) + k * s := by
      push_cast at hx
      rw [hx]; ring
    have hrec := ih f (x + s) 
    cases k with
    | zero =>
      have hxe : x = xEnd := by
        rcases hs with rfl | rfl <;> push_cast at hx <;> omega
      subst hxe
      by_cases hA : overBudget b (t + absInt (targetHeight m x y - cur)) = true
      · simp [innerLoop, hne, countFrom, rowSteps, flowOf, firstOver, targetHeight, restOf, exitOf] at hA ⊢
        simp [hA]
      · have := hrec (t + absInt (targetHeight m x y - cur)) (targetHeight m x y) hkf hnext
        simp [innerLoop, hne, countFrom, rowSteps, rowHeight, flowOf, firstOver, targetHeight,
          costSum_cons, costSum_nil] at hA this ⊢
        simp [hA, this]
    | succ k =>
      have hxe : x ≠ xEnd := by
        rcases hs with rfl | rfl <;> push_cast at hx <;> omega
      by_cases hA : overBudget b (t + absInt (targetHeight m x y - cur)) = true
      · simp [innerLoop, hne, countFrom, rowSteps, flowOf, firstOver, targetHeight, restOf, exitOf] at hA ⊢
        simp [hA]
      · by_cases hB : overBudget b (t + absInt (targetHeight m x y - cur) + 10) = true
        · simp [innerLoop, hne, hxe, countFrom, rowSteps, flowOf, firstOver, targetHeight, restOf,
            exitOf] at hA hB ⊢
          simp [hA, hB]
        · have := hrec (t + absInt (targetHeight m x y - cur) + 10) (targetHeight m x y) hkf hnext
          simp [innerLoop, hne, hxe, countFrom, rowSteps, rowHeight, flowOf, firstOver, targetHeight,
            costSum_cons, costSum_nil] at hA hB this ⊢
          simp only [add_assoc] at hA hB this ⊢
          simp [hA, hB, this]

theorem flowOf_append (estate : Estate) (b : Option Int) (as bs : List Step) (t h : Int) :
    flowOf estate b (as ++ bs) t h =
      match firstOver b as t with
      | some (s, d) =>
        Flow.ret (exitOf s.kind) (setResponseMaxDistance d (restOf estate s).X (restOf estate s).Y)
      | none => flowOf estate b bs (t + costSum as) h := by
  unfold flowOf
  rw [firstOver_append]
  cases firstOver b as t with
  | some r => rfl
  | none => simp [costSum_append, add_assoc]

theorem innerLoop_row (estate : Estate) (m : TreeMap) (b : Option Int) (y : Int) (fuel : Nat)
    (t cur : Int) (hw : 0 ≤ estate.Width) (hf : estate.Width < fuel) :
    innerLoop m b (if y % 2 = 1 then estate.Width else 1) (if y % 2 = 1 then 1 else -1) y fuel
        (if y % 2 = 1 then 1 else estate.Width) t cur =
      some (flowOf estate b (rowSteps m y (rowXs estate.Width y) cur) t
        (rowHeight m y (rowXs estate.Width y) cur)) := by
  unfold rowXs
  by_cases hy : y % 2 = 1
  · simp only [hy, if_true]
    apply innerLoop_eq estate m b _ _ _ (Or.inl rfl)
    · omega
    · have := Int.toNat_of_nonneg hw
      omega
  · simp only [hy, if_false]
    apply innerLoop_eq estate m b _ _ _ (Or.inr rfl)
    · omega
    · have := Int.toNat_of_nonneg hw
      omega

theorem outerLoop_eq (estate : Estate) (m : TreeMap) (b : Option Int) (fuelX : Nat)
    (hw : 0 ≤ estate.Width) (hfx : estate.Width < fuelX) :
    ∀ (n fuel : Nat) (y t cur : Int), n < fuel → estate.Length + 1 = y + n →
      outerLoop estate m b fuelX fuel y t cur =
        some (flowOf estate b (stepsFrom estate m n y cur) t (heightFrom estate m n y cur)) := by
  intro n
  induction n with
  | zero =>
    intro fuel y t cur hf hy
    obtain ⟨f, rfl⟩ : ∃ f, fuel = f + 1 := ⟨fuel - 1, by omega⟩
    have hgt : ¬ y ≤ estate.Length := by push_cast at hy; omega
    simp [outerLoop, hgt, stepsFrom, heightFrom, flowOf, firstOver, costSum_nil]
  | succ n ih =>
    intro fuel y t cur hf hy
    obtain ⟨f, rfl⟩ : ∃ f, fuel = f + 1 := ⟨fuel - 1, by omega⟩
    have hle : y ≤ estate.Length := by push_cast at hy; omega
    have hrec := ih f (y + 1) 
    have hnext : estate.Length + 1 = y + 1 + n := by push_cast at hy; omega
    simp only [outerLoop, hle, if_true, innerLoop_row estate m b y fuelX t cur hw hfx, stepsFrom,
      heightFrom, List.append_assoc]
    rw [flowOf_append]
    unfold flowOf
    cases hrow : firstOver b (rowSteps m y (rowXs estate.Width y) cur) t with
    | some r => rfl
    | none =>
      simp only []
      by_cases hlast : y = estate.Length
      · have := hrec (t + costSum (rowSteps m y (rowXs estate.Width y) cur))
          (rowHeight m y (rowXs estate.Width y) cur) (by omega) hnext
        simp [hlast, transitionStep] at this ⊢
        simp [this, flowOf]
      · by_cases hC : overBudget b (t + costSum (rowSteps m y (rowXs estate.Width y) cur) + 10) = true
        · simp only [add_assoc] at hC
          simp [hlast, transitionStep, firstOver, hC, exitOf, restOf, add_assoc]
        · have := hrec (t + costSum (rowSteps m y (rowXs estate.Width y) cur) + 10)
            (rowHeight m y (rowXs estate.Width y) cur) (by omega) hnext
          simp only [add_assoc] at hC this
          simp [hlast, transitionStep, firstOver, hC, this, flowOf, costSum_cons, add_assoc]

theorem dronePlanRun_eq (fuel : Nat) (estate : Estate) (m : TreeMap) (b : Option Int)
    (hw : 0 ≤ estate.Width) (hl : 0 ≤ estate.Length)
    (hfw : estate.Width < fuel) (hfl : estate.Length < fuel) :
    dronePlanRun fuel estate m b = some (planOutcome estate m b) := by
  have h := outerLoop_eq estate m b fuel hw hfw estate.Length.toNat fuel 1 0 0
    (by have := Int.toNat_of_nonneg hl; omega) (by have := Int.toNat_of_nonneg hl; omega)
  unfold dronePlanRun planOutcome
  rw [h]
  unfold flowOf planSteps finalHeight
  cases firstOver b (stepsFrom estate m estate.Length.toNat 1 0) 0 with
  | some r => rfl
  | none => cases b <;> simp

/-! ## Facts about the log -/

theorem accumulated_zero (ss : List Step) : accumulated ss 0 = 0 := by
  simp [accumulated, costSum_nil]

theorem accumulated_cons_succ (s : Step) (ss : List Step) (j : Nat) :
    accumulated (s :: ss) (j + 1) = s.cost + accumulated ss j := by
  simp [accumulated, costSum_cons]

theorem accumulated_length (ss : List Step) : accumulated ss ss.length = costSum ss := by
  simp [accumulated]

theorem firstOver_none_budget (ss : List Step) (t : Int) : firstOver none ss t = none := by
  induction ss generalizing t with
  | nil => rfl
  | cons s ss ih => simp [firstOver, overBudget, ih]

theorem firstOver_some_of_index (b : Int) (ss : List Step) :
    ∀ (t : Int) (k : Nat) (s : Step), ss[k]? = some s → b < t + accumulated ss (k + 1) →
      (∀ j, 1 ≤ j → j ≤ k → t + accumulated ss j ≤ b) →
      firstOver (some b) ss t = some (s, t + accumulated ss (k + 1)) := by
  induction ss with
  | nil => intro t k s hs; simp at hs
  | cons s0 ss ih =>
    intro t k s hs hover hfirst
    cases k with
    | zero =>
      simp at hs
      subst hs
      simp [accumulated_cons_succ, accumulated_zero] at hover
      simp [firstOver, overBudget, accumulated_cons_succ, accumulated_zero, hover]
    | succ k =>
      simp at hs
      have h1 := hfirst 1 (le_refl 1) (by omega)
      simp [accumulated_cons_succ, accumulated_zero] at h1
      have hrec := ih (t + s0.cost) k s hs
        (by rw [accumulated_cons_succ] at hover; omega)
        (by
          intro j hj1 hjk
          have := hfirst (j + 1) (by omega) (by omega)
          rw [accumulated_cons_succ] at this
          omega)
      have hno : ¬ (b < t + s0.cost) := by omega
      simp [firstOver, overBudget, hno, hrec, accumulated_cons_succ, add_assoc]

theorem firstOver_some_index (b : Int) (ss : List Step) :
    ∀ (t : Int) (s : Step) (d : Int), firstOver (some b) ss t = some (s, d) →
      ∃ k, ss[k]? = some s ∧ d = t + accumulated ss (k + 1) ∧ b < d ∧
        ∀ j, 1 ≤ j → j ≤ k → t + accumulated ss j ≤ b := by
  induction ss with
  | nil => intro t s d h; simp [firstOver] at h
  | cons s0 ss ih =>
    intro t s d h
    by_cases hover : b < t + s0.cost
    · simp [firstOver, overBudget, hover] at h
      obtain ⟨rfl, rfl⟩ := h
      refine ⟨0, by simp, by simp [accumulated_cons_succ, accumulated_zero], hover, ?_⟩
      intro j h1 h0
      omega
    · simp [firstOver, overBudget, hover] at h
      obtain ⟨k, hk, hd, hbd, hfirst⟩ := ih (t + s0.cost) s d h
      refine ⟨k + 1, by simpa using hk, by rw [accumulated_cons_succ]; omega, hbd, ?_⟩
      intro j h1 hjk
      obtain ⟨j, rfl⟩ : ∃ i, j = i + 1 := ⟨j - 1, by omega⟩
      rw [accumulated_cons_succ]
      by_cases hj0 : j = 0
      · subst hj0
        simp [accumulated_zero]
        omega
      · have := hfirst j (by omega) (by omega)
        omega

theorem firstOver_none_iff (b : Int) (ss : List Step) :
    ∀ (t : Int), firstOver (some b) ss t = none ↔
      ∀ j, 1 ≤ j → j ≤ ss.length → t + accumulated ss j ≤ b := by
  induction ss with
  | nil =>
    intro t
    simp [firstOver]
    intro j h1 h0
    omega
  | cons s0 ss ih =>
    intro t
    constructor
    · intro h j h1 hj
      by_cases hover : b < t + s0.cost
      · simp [firstOver, overBudget, hover] at h
      · simp [firstOver, overBudget, hover] at h
        obtain ⟨j, rfl⟩ : ∃ i, j = i + 1 := ⟨j - 1, by omega⟩
        rw [accumulated_cons_succ]
        by_cases hj0 : j = 0
        · subst hj0
          simp [accumulated_zero]
          omega
        · have := (ih (t + s0.cost)).1 h j (by omega) (by simpa using hj)
          omega
    · intro h
      have h1 := h 1 (le_refl 1) (by simp)
      simp [accumulated_cons_succ, accumulated_zero] at h1
      have hno : ¬ (b < t + s0.cost) := by omega
      simp only [firstOver, overBudget, hno, decide_False, Bool.false_eq_true, if_false, gt_iff_lt]
      apply (ih (t + s0.cost)).2
      intro j hj1 hjl
      have := h (j + 1) (by omega) (by simpa using hjl)
      rw [accumulated_cons_succ] at this
      omega

theorem rowSteps_cost_nonneg (m : TreeMap) (y : Int) :
    ∀ (xs : List Int) (cur : Int) (s : Step), s ∈ rowSteps m y xs cur → 0 ≤ s.cost := by
  intro xs
  induction xs with
  | nil => intro cur s h; simp [rowSteps] at h
  | cons x xs ih =>
    intro cur s h
    cases xs with
    | nil =>
      simp [rowSteps] at h
      subst h
      exact absInt_nonneg _
    | cons x2 xs =>
      simp only [rowSteps, List.mem_cons] at h
      rcases h with rfl | rfl | h
      · exact absInt_nonneg _
      · show (0 : Int) ≤ 10
        omega
      · exact ih _ s h

theorem stepsFrom_cost_nonneg (estate : Estate) (m : TreeMap) :
    ∀ (n : Nat) (y cur : Int) (s : Step), s ∈ stepsFrom estate m n y cur → 0 ≤ s.cost := by
  intro n
  induction n with
  | zero => intro y cur s h; simp [stepsFrom] at h
  | succ n ih =>
    intro y cur s h
    simp only [stepsFrom, List.mem_append] at h
    rcases h with (h | h) | h
    · exact rowSteps_cost_nonneg m y _ _ s h
    · unfold transitionStep at h
      split at h
      · simp at h
        subst h
        show (0 : Int) ≤ 10
        omega
      · simp at h
    · exact ih _ _ s h

theorem planSteps_cost_nonneg (estate : Estate) (m : TreeMap) (s : Step)
    (h : s ∈ planSteps estate m) : 0 ≤ s.cost :=
  stepsFrom_cost_nonneg estate m _ _ _ s h

theorem costSum_nonneg (ss : List Step) (h : ∀ s ∈ ss, 0 ≤ s.cost) : 0 ≤ costSum ss := by
  induction ss with
  | nil => simp [costSum_nil]
  | cons s ss ih =>
    rw [costSum_cons]
    have h1 := h s (by simp)
    have h2 := ih (fun s2 hs2 => h s2 (by simp [hs2]))
    omega

theorem firstOver_ge_start (b : Int) (ss : List Step) (hc : ∀ s ∈ ss, 0 ≤ s.cost) :
    ∀ (t : Int) (s : Step) (d : Int), firstOver (some b) ss t = some (s, d) → t ≤ d := by
  induction ss with
  | nil => intro t s d h; simp [firstOver] at h
  | cons s0 ss ih =>
    intro t s d h
    have h0 := hc s0 (by simp)
    by_cases hover : b < t + s0.cost
    · simp [firstOver, overBudget, hover] at h
      omega
    · simp [firstOver, overBudget, hover] at h
      have := ih (fun s2 hs2 => hc s2 (by simp [hs2])) _ s d h
      omega

theorem firstOver_le_total (b : Int) (ss : List Step) (hc : ∀ s ∈ ss, 0 ≤ s.cost) :
    ∀ (t : Int) (s : Step) (d : Int), firstOver (some b) ss t = some (s, d) →
      d ≤ t + costSum ss := by
  induction ss with
  | nil => intro t s d h; simp [firstOver] at h
  | cons s0 ss ih =>
    intro t s d h
    have h0 := hc s0 (by simp)
    have hrest := costSum_nonneg ss (fun s2 hs2 => hc s2 (by simp [hs2]))
    rw [costSum_cons]
    by_cases hover : b < t + s0.cost
    · simp [firstOver, overBudget, hover] at h
      omega
    · simp [firstOver, overBudget, hover] at h
      have := ih (fun s2 hs2 => hc s2 (by simp [hs2])) _ s d h
      omega

theorem firstOver_mono (b1 b2 : Int) (hb : b1 ≤ b2) (ss : List Step)
    (hc : ∀ s ∈ ss, 0 ≤ s.cost) :
    ∀ (t : Int) (s2 : Step) (d2 : Int), firstOver (some b2) ss t = some (s2, d2) →
      ∃ s1 d1, firstOver (some b1) ss t = some (s1, d1) ∧ d1 ≤ d2 := by
  induction ss with
  | nil => intro t s d h; simp [firstOver] at h
  | cons s0 ss ih =>
    intro t s2 d2 h
    have hc2 : ∀ s ∈ ss, 0 ≤ s.cost := fun s hs => hc s (by simp [hs])
    by_cases hover2 : b2 < t + s0.cost
    · have hover1 : b1 < t + s0.cost := by omega
      simp [firstOver, overBudget, hover2] at h
      exact ⟨s0, t + s0.cost, by simp [firstOver, overBudget, hover1], by omega⟩
    · simp [firstOver, overBudget, hover2] at h
      by_cases hover1 : b1 < t + s0.cost
      · have := firstOver_ge_start b2 ss hc2 _ s2 d2 h
        exact ⟨s0, t + s0.cost, by simp [firstOver, overBudget, hover1], this⟩
      · obtain ⟨s1, d1, h1, hd⟩ := ih hc2 _ s2 d2 h
        exact ⟨s1, d1, by simp [firstOver, overBudget, hover1, h1], hd⟩

theorem rowHeight_nonneg (m : TreeMap) (hm : ∀ p, 0 ≤ (lookupTree m p).Height) (y : Int) :
    ∀ (xs : List Int) (cur : Int), 0 ≤ cur → 0 ≤ rowHeight m y xs cur := by
  intro xs
  induction xs with
  | nil => intro cur h; simpa [rowHeight] using h
  | cons x xs ih =>
    intro cur _
    simp only [rowHeight]
    apply ih
    have := hm ⟨x, y⟩
    unfold targetHeight
    omega

theorem heightFrom_nonneg (estate : Estate) (m : TreeMap)
    (hm : ∀ p, 0 ≤ (lookupTree m p).Height) :
    ∀ (n : Nat) (y cur : Int), 0 ≤ cur → 0 ≤ heightFrom estate m n y cur := by
  intro n
  induction n with
  | zero => intro y cur h; simpa [heightFrom] using h
  | succ n ih =>
    intro y cur h
    simp only [heightFrom]
    exact ih _ _ (rowHeight_nonneg m hm y _ cur h)

theorem finalHeight_nonneg (estate : Estate) (m : TreeMap)
    (hm : ∀ p, 0 ≤ (lookupTree m p).Height) : 0 ≤ finalHeight estate m :=
  heightFrom_nonneg estate m hm _ _ _ (le_refl 0)

theorem GetEstateIdDronePlan_eq (fuel : Nat) (estate : Estate) (m : TreeMap) (b : Option Int)
    (hw : 1 ≤ estate.Width) (hl : 1 ≤ estate.Length)
    (hfw : estate.Width < fuel) (hfl : estate.Length < fuel) :
    GetEstateIdDronePlan fuel estate m b = some (planOutcome estate m b).2 := by
  unfold GetEstateIdDronePlan
  rw [dronePlanRun_eq fuel estate m b (by omega) (by omega) hfw hfl]
  rfl

theorem absInt_eq_natAbs (d : Int) : absInt d = (d.natAbs : Int) := by
  unfold absInt
  split <;> omega

theorem lookupTree_height (m : TreeMap) (c : CoordinatePoint) :
    (lookupTree m c).Height = ((m c).map EstateTree.Height).getD 0 := by
  unfold lookupTree
  cases m c <;> rfl

theorem hopsFrom_append (as bs : List Int) :
    ∀ prev : Int, hopsFrom prev (as ++ bs) = hopsFrom prev as + hopsFrom (as.getLastD prev) bs := by
  induction as with
  | nil => intro prev; simp [hopsFrom, List.getLastD]
  | cons a as ih =>
    intro prev
    show hopsFrom prev (a :: (as ++ bs)) = _
    rw [hopsFrom, hopsFrom, ih, List.getLastD_cons]
    omega

theorem getLastD_append_left (as bs : List Int) (d : Int) :
    (as ++ bs).getLastD d = bs.getLastD (as.getLastD d) := by
  induction as generalizing d with
  | nil => rfl
  | cons a as ih => simp only [List.cons_append, List.getLastD_cons, ih]

theorem costSum_rowSteps (m : TreeMap) (y : Int) :
    ∀ (xs : List Int) (cur : Int), xs ≠ [] →
      costSum (rowSteps m y xs cur) + 10 = hopsFrom cur (xs.map (fun x => targetHeight m x y)) := by
  intro xs
  induction xs with
  | nil => intro cur h; exact absurd rfl h
  | cons x xs ih =>
    intro cur _
    cases xs with
    | nil =>
      simp [rowSteps, costSum_cons, costSum_nil, hopsFrom, absInt_eq_natAbs]
      omega
    | cons x2 xs =>
      have := ih (targetHeight m x y) (by simp)
      simp only [rowSteps, costSum_cons, List.map_cons, hopsFrom, absInt_eq_natAbs] at this ⊢
      omega

theorem rowHeight_eq (m : TreeMap) (y : Int) :
    ∀ (xs : List Int) (cur : Int),
      rowHeight m y xs cur = (xs.map (fun x => targetHeight m x y)).getLastD cur := by
  intro xs
  induction xs with
  | nil => intro cur; rfl
  | cons x xs ih => intro cur; simp only [rowHeight, ih, List.map_cons, List.getLastD_cons]

theorem countFrom_up (x : Int) :
    ∀ k : Nat, countFrom x 1 k = (List.range k).map (fun (i : Nat) => (i : Int) + x) := by
  intro k
  induction k generalizing x with
  | zero => rfl
  | succ k ih =>
    rw [countFrom, ih, List.range_succ_eq_map]
    simp only [List.map_cons, List.map_map]
    congr 1
    · simp
    · apply List.map_congr_left
      intro i _
      simp only [Function.comp, Nat.succ_eq_add_one]
      push_cast
      omega

theorem countFrom_down (x : Int) :
    ∀ k : Nat, countFrom x (-1) k =
      ((List.range k).map (fun (i : Nat) => (i : Int) + (x - k + 1))).reverse := by
  intro k
  induction k generalizing x with
  | zero => rfl
  | succ k ih =>
    rw [countFrom, ih, List.range_succ]
    simp only [List.map_append, List.map_cons, List.map_nil, List.reverse_append,
      List.reverse_cons, List.reverse_nil, List.nil_append, List.cons_append]
    congr 1
    · push_cast
      omega
    · congr 1
      apply List.map_congr_left
      intro i _
      push_cast
      omega

theorem rowXs_cells (width y : Int) (hw : 0 ≤ width) :
    (rowXs width y).map (fun x => (⟨x, y⟩ : CoordinatePoint)) = serpentineRow width.toNat y := by
  have hk := Int.toNat_of_nonneg hw
  unfold rowXs serpentineRow
  by_cases hy : y % 2 = 1
  · simp only [hy, if_true, countFrom_up]
  · simp only [hy, if_false, countFrom_down]
    congr 2
    apply List.map_congr_left
    intro i _
    omega

theorem rowXs_ne_nil (width y : Int) (hw : 1 ≤ width) : rowXs width y ≠ [] := by
  obtain ⟨k, hk⟩ : ∃ k, width.toNat = k + 1 := ⟨width.toNat - 1, by omega⟩
  unfold rowXs
  split <;> simp [hk, countFrom]

theorem rowXs_targets (m : TreeMap) (width y : Int) (hw : 0 ≤ width) :
    (rowXs width y).map (fun x => targetHeight m x y) =
      (serpentineRow width.toNat y).map (fun c => ((m c).map EstateTree.Height).getD 0 + 1) := by
  rw [← rowXs_cells width y hw, List.map_map]
  apply List.map_congr_left
  intro x _
  simp [targetHeight, lookupTree_height]

theorem cellsFrom_succ (width n : Nat) (y : Int) :
    cellsFrom width (n + 1) y = serpentineRow width y ++ cellsFrom width n (y + 1) := by
  unfold cellsFrom
  rw [List.range_succ_eq_map]
  simp only [List.map_cons, List.map_map, List.flatten_cons, Nat.cast_zero, add_zero]
  congr 2
  apply List.map_congr_left
  intro j _
  simp only [Function.comp, Nat.succ_eq_add_one]
  congr 1
  push_cast
  omega

theorem serpentine_eq_cellsFrom (width length : Nat) :
    serpentine width length = cellsFrom width length 1 := by
  unfold serpentine cellsFrom
  congr 2
  funext j
  rw [add_comm]

theorem heightFrom_eq (estate : Estate) (m : TreeMap) (hw : 0 ≤ estate.Width) :
    ∀ (n : Nat) (y cur : Int),
      heightFrom estate m n y cur =
        ((cellsFrom estate.Width.toNat n y).map
          (fun c => ((m c).map EstateTree.Height).getD 0 + 1)).getLastD cur := by
  intro n
  induction n with
  | zero => intro y cur; rfl
  | succ n ih =>
    intro y cur
    rw [heightFrom, ih, cellsFrom_succ, List.map_append, getLastD_append_left, rowHeight_eq,
      rowXs_targets m _ y hw]

theorem stepsFrom_hops (estate : Estate) (m : TreeMap) (hw : 1 ≤ estate.Width) :
    ∀ (n : Nat) (y cur : Int), estate.Length + 1 = y + ((n + 1 : Nat) : Int) →
      costSum (stepsFrom estate m (n + 1) y cur) + 10 =
        hopsFrom cur ((cellsFrom estate.Width.toNat (n + 1) y).map
          (fun c => ((m c).map EstateTree.Height).getD 0 + 1)) := by
  intro n
  induction n with
  | zero =>
    intro y cur hy
    have hlast : y = estate.Length := by push_cast at hy; omega
    have hrow := costSum_rowSteps m y (rowXs estate.Width y) cur (rowXs_ne_nil _ _ hw)
    rw [rowXs_targets m _ y (by omega)] at hrow
    simp only [stepsFrom, transitionStep, hlast, ne_eq, not_true_eq_false, if_false,
      List.append_nil, cellsFrom_succ] at hrow ⊢
    simpa [cellsFrom] using hrow
  | succ n ih =>
    intro y cur hy
    have hlast : y ≠ estate.Length := by push_cast at hy; omega
    have hrow := costSum_rowSteps m y (rowXs estate.Width y) cur (rowXs_ne_nil _ _ hw)
    rw [rowXs_targets m _ y (by omega)] at hrow
    have hrec := ih (y + 1) (rowHeight m y (rowXs estate.Width y) cur)
      (by push_cast at hy ⊢; omega)
    rw [rowHeight_eq, rowXs_targets m _ y (by omega)] at hrec
    rw [cellsFrom_succ _ (n + 1), List.map_append, hopsFrom_append, ← hrow, ← hrec]
    rw [stepsFrom]
    simp only [transitionStep, hlast, ne_eq, not_false_eq_true, if_true, costSum_append,
      costSum_cons, costSum_nil, rowHeight_eq, rowXs_targets m _ y (show 0 ≤ estate.Width by omega)]
    omega

theorem planDistance_eq (estate : Estate) (m : TreeMap) (hw : 1 ≤ estate.Width)
    (hl : 1 ≤ estate.Length) :
    costSum (planSteps estate m) + finalHeight estate m = serpentineDistance (clearances estate m) := by
  obtain ⟨n, hn⟩ : ∃ n, estate.Length.toNat = n + 1 := ⟨estate.Length.toNat - 1, by omega⟩
  have hsteps := stepsFrom_hops estate m hw n 1 0 (by omega)
  have hheight := heightFrom_eq estate m (by omega) (n + 1) 1 0
  have hpos := costSum_nonneg (planSteps estate m) (planSteps_cost_nonneg estate m)
  unfold planSteps finalHeight clearances serpentineDistance at *
  rw [serpentine_eq_cellsFrom, hn] at *
  rw [hheight]
  generalize (cellsFrom estate.Width.toNat (n + 1) 1).map
    (fun c => ((m c).map EstateTree.Height).getD 0 + 1) = ts at *
  cases ts with
  | nil => simp [hopsFrom] at hsteps; omega
  | cons t r =>
    simp only [hopsFrom, List.headD_cons, List.tail_cons, sub_zero] at hsteps ⊢
    omega

/-! ## The planner without a budget -/

theorem planOutcome_none (estate : Estate) (m : TreeMap) :
    planOutcome estate m none =
      (Exit.final, { Distance := costSum (planSteps estate m) + finalHeight estate m, Rest := none }) := by
  unfold planOutcome
  rw [firstOver_none_budget]

/-- On unbounded integers the loops without a budget return, with no resting coordinate,
the distance `|T_1| + sum over i = 2..n of (10 + |T_i - T_(i-1)|) + T_n` over the clearances
in serpentine order; when `T_1 >= 0` this is `T_1 + sum + T_n`. -/
theorem dronePlan_serpentine_distance (fuel : Nat) (estate : Estate) (m : TreeMap)
    (hw : 1 ≤ estate.Width) (hl : 1 ≤ estate.Length)
    (hfw : estate.Width < fuel) (hfl : estate.Length < fuel) :
    GetEstateIdDronePlan fuel estate m none =
        some { Distance := serpentineDistance (clearances estate m), Rest := none } ∧
      (0 ≤ (clearances estate m).headD 0 →
        GetEstateIdDronePlan fuel estate m none =
          some { Distance := claimedDistance (clearances estate m), Rest := none }) := by
  have h : GetEstateIdDronePlan fuel estate m none =
      some { Distance := serpentineDistance (clearances estate m), Rest := none } := by
    rw [GetEstateIdDronePlan_eq fuel estate m none hw hl hfw hfl, planOutcome_none,
      planDistance_eq estate m hw hl]
  refine ⟨h, fun h0 => ?_⟩
  rw [h]
  unfold serpentineDistance claimedDistance
  rw [Int.natAbs_of_nonneg h0]

/-- Claim C2: on the 6 x 3 test plot with trees (3,1)=10, (3,2)=30, (4,2)=14, (6,2)=24, (5,3)=6
and no budget the planner returns distance 312 and no resting coordinate. -/
theorem dronePlan_test_312 (id : String) (fuel : Nat) (hf : 6 < fuel) :
    GetEstateIdDronePlan fuel ⟨id, 6, 3⟩ testMap312 none = some { Distance := 312, Rest := none } := by
  rw [GetEstateIdDronePlan_eq fuel ⟨id, 6, 3⟩ testMap312 none (by simp) (by simp)
    (by simp only; omega) (by simp only; omega), planOutcome_none]
  rfl

/-- Witness of C2: fuel 7 is enough. -/
theorem dronePlan_test_312_witness :
    6 < 7 ∧ GetEstateIdDronePlan 7 ⟨"", 6, 3⟩ testMap312 none = some { Distance := 312, Rest := none } :=
  ⟨by decide, dronePlan_test_312 "" 7 (by decide)⟩

/-! ## The planner with a budget -/

/-- Claim C3: for every plot (width, length >= 1), height map and budget `b`, a non-negative
integer, the planner returns, and if it stops early (at check A, B or C) the returned distance is the
accumulated total right after the first step whose accumulated total exceeds `b`: it
exceeds `b`, and no accumulated total before that step does. -/
theorem dronePlan_early_stop_distance (fuel : Nat) (estate : Estate) (m : TreeMap) (b : Int)
    (hw : 1 ≤ estate.Width) (hl : 1 ≤ estate.Length)
    (hfw : estate.Width < fuel) (hfl : estate.Length < fuel) (hb : 0 ≤ b) :
    ∃ e r, dronePlanRun fuel estate m (some b) = some (e, r) ∧
      (e ≠ Exit.final →
        ∃ k s, (planSteps estate m)[k]? = some s ∧ e = exitOf s.kind ∧
          r.Distance = accumulated (planSteps estate m) (k + 1) ∧
          (∀ j, j ≤ k → accumulated (planSteps estate m) j ≤ b) ∧
          b < r.Distance) := by
  refine ⟨(planOutcome estate m (some b)).1, (planOutcome estate m (some b)).2,
    dronePlanRun_eq fuel estate m (some b) (by omega) (by omega) hfw hfl, ?_⟩
  unfold planOutcome
  cases hfo : firstOver (some b) (planSteps estate m) 0 with
  | none => intro h; exact absurd rfl h
  | some p =>
    obtain ⟨s, d⟩ := p
    intro _
    obtain ⟨k, hk, hd, hbd, hfirst⟩ := firstOver_some_index b _ 0 s d hfo
    refine ⟨k, s, hk, rfl, ?_, ?_, ?_⟩
    · simp only [setResponseMaxDistance]
      omega
    · intro j hj
      by_cases hj0 : j = 0
      · subst hj0
        rw [accumulated_zero]
        exact hb
      · have := hfirst j (by omega) hj
        omega
    · simp only [setResponseMaxDistance]
      exact hbd

/-- Witness of C3: the 6 x 3 test plot with budget 80 stops at check C with distance 81,
the total after the first step that exceeds 80. -/
theorem dronePlan_early_stop_distance_witness :
    dronePlanRun 7 ⟨"", 6, 3⟩ testMap312 (some 80) =
        some (Exit.checkC, { Distance := 81, Rest := some ⟨1, 2⟩ }) ∧
      ∃ k s, (planSteps ⟨"", 6, 3⟩ testMap312)[k]? = some s ∧ Exit.checkC = exitOf s.kind ∧
        81 = accumulated (planSteps ⟨"", 6, 3⟩ testMap312) (k + 1) ∧
        (∀ j, j ≤ k → accumulated (planSteps ⟨"", 6, 3⟩ testMap312) j ≤ 80) ∧
        (80 : Int) < 81 := by
  have hrun : dronePlanRun 7 ⟨"", 6, 3⟩ testMap312 (some 80) =
      some (Exit.checkC, { Distance := 81, Rest := some ⟨1, 2⟩ }) := by decide
  obtain ⟨e, r, he, h⟩ := dronePlan_early_stop_distance 7 ⟨"", 6, 3⟩ testMap312 80 (by decide)
    (by decide) (by decide) (by decide) (by decide)
  rw [hrun] at he
  simp only [Option.some.injEq, Prod.mk.injEq] at he
  obtain ⟨rfl, rfl⟩ := he
  exact ⟨hrun, h (by decide)⟩

/-- Claim C4: for every plot, height map and budget `b`, if the first accumulated total exceeding
`b` arises from the vertical move into cell `(x, y)` or from the horizontal step charged
on leaving cell `(x, y)`, the planner reports that total with resting coordinate `(x, y)`. -/
theorem dronePlan_rest_current_cell (fuel : Nat) (estate : Estate) (m : TreeMap) (b : Int)
    (hw : 1 ≤ estate.Width) (hl : 1 ≤ estate.Length)
    (hfw : estate.Width < fuel) (hfl : estate.Length < fuel)
    (k : Nat) (s : Step) (hs : (planSteps estate m)[k]? = some s)
    (hover : b < accumulated (planSteps estate m) (k + 1))
    (hfirst : ∀ j, 1 ≤ j → j ≤ k → accumulated (planSteps estate m) j ≤ b)
    (hkind : s.kind = StepKind.vertical ∨ s.kind = StepKind.horizontal) :
    GetEstateIdDronePlan fuel estate m (some b) =
      some { Distance := accumulated (planSteps estate m) (k + 1), Rest := some ⟨s.x, s.y⟩ } := by
  rw [GetEstateIdDronePlan_eq fuel estate m (some b) hw hl hfw hfl]
  have hfo := firstOver_some_of_index b (planSteps estate m) 0 k s hs (by omega)
    (fun j h1 hj => by have := hfirst j h1 hj; omega)
  unfold planOutcome
  rw [hfo]
  rcases hkind with h | h <;> simp [setResponseMaxDistance, restOf, h]

/-- Witness of C4: the 6 x 3 test plot with budget 15, where the horizontal step leaving
cell (2, 1) is the first to exceed the budget. -/
theorem dronePlan_rest_current_cell_witness :
    (planSteps ⟨"", 6, 3⟩ testMap312)[3]? = some ⟨StepKind.horizontal, 2, 1, 10⟩ ∧
      GetEstateIdDronePlan 7 ⟨"", 6, 3⟩ testMap312 (some 15) =
        some { Distance := accumulated (planSteps ⟨"", 6, 3⟩ testMap312) (3 + 1),
               Rest := some ⟨2, 1⟩ } ∧
      accumulated (planSteps ⟨"", 6, 3⟩ testMap312) (3 + 1) = 21 :=
  ⟨by decide,
    dronePlan_rest_current_cell 7 ⟨"", 6, 3⟩ testMap312 15 (by decide) (by decide) (by decide)
      (by decide) 3 ⟨StepKind.horizontal, 2, 1, 10⟩ (by decide) (by decide)
      (fun j h1 h3 => by interval_cases j <;> decide) (Or.inr rfl),
    by decide⟩

/-- Claim C5, the code at the failing input: on the 6 x 3 test plot with budget 80 the first total
over the budget is the row transition after row 1, which the scan ends at cell (6, 1); the
planner stops at check C and reports (1, 2), while row 2 is entered at (6, 2). -/
theorem dronePlan_row_transition_rest :
    firstOver (some 80) (planSteps ⟨"", 6, 3⟩ testMap312) 0 =
        some (⟨StepKind.rowTransition, 6, 1, 10⟩, 81) ∧
      dronePlanRun 7 ⟨"", 6, 3⟩ testMap312 (some 80) =
        some (Exit.checkC, { Distance := 81, Rest := some ⟨1, 2⟩ }) ∧
      (serpentineRow 6 2).head? = some ⟨6, 2⟩ := by
  decide

theorem planOutcome_not_over (estate : Estate) (m : TreeMap) (b : Int)
    (h : firstOver (some b) (planSteps estate m) 0 = none) :
    planOutcome estate m (some b) =
      (Exit.final, setResponseMaxDistance (costSum (planSteps estate m) + finalHeight estate m)
        estate.Width estate.Length) := by
  unfold planOutcome
  rw [h]

theorem planOutcome_over (estate : Estate) (m : TreeMap) (b : Int) (s : Step) (d : Int)
    (h : firstOver (some b) (planSteps estate m) 0 = some (s, d)) :
    planOutcome estate m (some b) =
      (exitOf s.kind, setResponseMaxDistance d (restOf estate s).X (restOf estate s).Y) := by
  unfold planOutcome
  rw [h]

theorem accumulated_le_costSum (ss : List Step) (hc : ∀ s ∈ ss, 0 ≤ s.cost) :
    ∀ j : Nat, accumulated ss j ≤ costSum ss := by
  induction ss with
  | nil => intro j; simp [accumulated]
  | cons s ss ih =>
    intro j
    cases j with
    | zero =>
      rw [accumulated_zero]
      exact costSum_nonneg _ hc
    | succ j =>
      rw [accumulated_cons_succ, costSum_cons]
      have := ih (fun s2 hs2 => hc s2 (by simp [hs2])) j
      omega

/-- On unbounded integers: when no accumulated total before the final descent exceeds `b`,
the loops return the distance they return without a budget, with resting coordinate
(width, length); when the final descent is non-negative this is so for every `b` at least
the no-budget distance. -/
theorem dronePlan_budget_not_exceeded (fuel : Nat) (estate : Estate) (m : TreeMap) (b : Int)
    (hw : 1 ≤ estate.Width) (hl : 1 ≤ estate.Length)
    (hfw : estate.Width < fuel) (hfl : estate.Length < fuel) :
    ((∀ j, 1 ≤ j → j ≤ (planSteps estate m).length → accumulated (planSteps estate m) j ≤ b) →
        ∃ d, GetEstateIdDronePlan fuel estate m none = some { Distance := d, Rest := none } ∧
          GetEstateIdDronePlan fuel estate m (some b) =
            some { Distance := d, Rest := some ⟨estate.Width, estate.Length⟩ }) ∧
      (0 ≤ finalHeight estate m →
        ∀ d, GetEstateIdDronePlan fuel estate m none = some { Distance := d, Rest := none } →
          d ≤ b →
          GetEstateIdDronePlan fuel estate m (some b) =
            some { Distance := d, Rest := some ⟨estate.Width, estate.Length⟩ }) := by
  have hmain : (∀ j, 1 ≤ j → j ≤ (planSteps estate m).length →
      accumulated (planSteps estate m) j ≤ b) →
      GetEstateIdDronePlan fuel estate m (some b) =
        some { Distance := costSum (planSteps estate m) + finalHeight estate m,
               Rest := some ⟨estate.Width, estate.Length⟩ } := by
    intro h
    have hfo := (firstOver_none_iff b (planSteps estate m) 0).2
      (fun j h1 hj => by have := h j h1 hj; omega)
    rw [GetEstateIdDronePlan_eq fuel estate m (some b) hw hl hfw hfl,
      planOutcome_not_over estate m b hfo]
    rfl
  have hnone : GetEstateIdDronePlan fuel estate m none =
      some { Distance := costSum (planSteps estate m) + finalHeight estate m, Rest := none } := by
    rw [GetEstateIdDronePlan_eq fuel estate m none hw hl hfw hfl, planOutcome_none]
  refine ⟨fun h => ⟨_, hnone, hmain h⟩, fun h2 d hd hdb => ?_⟩
  rw [hnone] at hd
  have hdd : costSum (planSteps estate m) + finalHeight estate m = d := by
    simpa using hd
  rw [← hdd]
  apply hmain
  intro j _ _
  have h1 := accumulated_le_costSum (planSteps estate m) (planSteps_cost_nonneg estate m) j
  omega


theorem overBudget_isSome (b : Option Int) (t : Int) (h : overBudget b t = true) :
    b.isSome = true := by
  cases b with
  | none => simp [overBudget] at h
  | some _ => rfl

theorem innerLoop_ret_budget (m : TreeMap) (b : Option Int) (xEnd s y : Int) :
    ∀ (fuel : Nat) (x t cur : Int) (e : Exit) (r : EstateDronePlanResponse),
      innerLoop m b xEnd s y fuel x t cur = some (Flow.ret e r) →
        b.isSome = true ∧ r.Rest.isSome = true := by
  intro fuel
  induction fuel with
  | zero => intro x t cur e r h; simp [innerLoop] at h
  | succ f ih =>
    intro x t cur e r h
    simp only [innerLoop] at h
    split_ifs at h with h1 h2 h3 h4
    · simp only [Option.some.injEq, Flow.ret.injEq] at h
      exact ⟨overBudget_isSome b _ h2, by rw [← h.2]; rfl⟩
    · simp only [Option.some.injEq, Flow.ret.injEq] at h
      exact ⟨overBudget_isSome b _ h4, by rw [← h.2]; rfl⟩
    · exact ih _ _ _ e r h
    · exact ih _ _ _ e r h
    · simp at h

theorem outerLoop_ret_budget (estate : Estate) (m : TreeMap) (b : Option Int) (fuelX : Nat) :
    ∀ (fuel : Nat) (y t cur : Int) (e : Exit) (r : EstateDronePlanResponse),
      outerLoop estate m b fuelX fuel y t cur = some (Flow.ret e r) →
        b.isSome = true ∧ r.Rest.isSome = true := by
  intro fuel
  induction fuel with
  | zero => intro y t cur e r h; simp [outerLoop] at h
  | succ f ih =>
    intro y t cur e r h
    by_cases h1 : y ≤ estate.Length
    · simp only [outerLoop, h1, if_true] at h
      cases hin : innerLoop m b (if y % 2 = 1 then estate.Width else 1)
          (if y % 2 = 1 then 1 else -1) y fuelX (if y % 2 = 1 then 1 else estate.Width) t cur with
      | none => simp [hin] at h
      | some fl =>
        cases fl with
        | ret e2 r2 =>
          simp only [hin, Option.some.injEq, Flow.ret.injEq] at h
          have := innerLoop_ret_budget m b _ _ _ _ _ _ _ e2 r2 hin
          rw [← h.2]
          exact this
        | next t2 c2 =>
          simp only [hin] at h
          by_cases h2 : y = estate.Length
          · simp only [h2, ne_eq, not_true_eq_false, if_false] at h
            exact ih _ _ _ e r h
          · simp only [ne_eq, h2, not_false_eq_true, if_true] at h
            by_cases h3 : overBudget b (t2 + 10) = true
            · simp only [h3, if_true, Option.some.injEq, Flow.ret.injEq] at h
              exact ⟨overBudget_isSome b _ h3, by rw [← h.2]; rfl⟩
            · simp only [h3, if_false] at h
              exact ih _ _ _ e r h
    · simp [outerLoop, h1] at h

/-- Claim C8: whenever the planner answers, its result carries a resting coordinate if and only
if a budget was supplied, however large the budget; and on every plot (width, length >= 1)
it does answer. -/
theorem dronePlan_rest_iff_budget (fuel : Nat) (estate : Estate) (m : TreeMap)
    (b : Option Int) :
    (∀ r, GetEstateIdDronePlan fuel estate m b = some r →
        (r.Rest.isSome = true ↔ b.isSome = true)) ∧
      (1 ≤ estate.Width → 1 ≤ estate.Length → estate.Width < fuel → estate.Length < fuel →
        ∃ r, GetEstateIdDronePlan fuel estate m b = some r) := by
  refine ⟨fun r h => ?_, fun hw hl hfw hfl =>
    ⟨_, GetEstateIdDronePlan_eq fuel estate m b hw hl hfw hfl⟩⟩
  unfold GetEstateIdDronePlan dronePlanRun at h
  split at h
  · simp at h
  · rename_i e2 r2 hout
    simp only [Option.map_some', Option.some.injEq] at h
    have := outerLoop_ret_budget estate m b fuel fuel _ _ _ e2 r2 hout
    rw [← h]
    simp [this.1, this.2]
  · cases b with
    | none =>
      simp only [Option.map_some', Option.some.injEq] at h
      rw [← h]
      simp
    | some v =>
      simp only [Option.map_some', Option.some.injEq] at h
      rw [← h]
      simp [setResponseMaxDistance]

/-- Witness of C8: the 6 x 3 test plot with budgets 100, 80, 1000 and 15, and with none. -/
theorem dronePlan_rest_iff_budget_witness :
    (∃ r, GetEstateIdDronePlan 7 ⟨"", 6, 3⟩ testMap312 (some 100) = some r ∧
        (r.Rest.isSome = true ↔ ((some 100 : Option Int)).isSome = true)) ∧
      (∃ r, GetEstateIdDronePlan 7 ⟨"", 6, 3⟩ testMap312 (some 80) = some r ∧
        (r.Rest.isSome = true ↔ ((some 80 : Option Int)).isSome = true)) ∧
      (∃ r, GetEstateIdDronePlan 7 ⟨"", 6, 3⟩ testMap312 (some 1000) = some r ∧
        (r.Rest.isSome = true ↔ ((some 1000 : Option Int)).isSome = true)) ∧
      (∃ r, GetEstateIdDronePlan 7 ⟨"", 6, 3⟩ testMap312 (some 15) = some r ∧
        (r.Rest.isSome = true ↔ ((some 15 : Option Int)).isSome = true)) ∧
      (∃ r, GetEstateIdDronePlan 7 ⟨"", 6, 3⟩ testMap312 none = some r ∧
        (r.Rest.isSome = true ↔ ((none : Option Int)).isSome = true)) := by
  refine ⟨?_, ?_, ?_, ?_, ?_⟩
  · obtain ⟨r, hr⟩ := (dronePlan_rest_iff_budget 7 ⟨"", 6, 3⟩ testMap312 (some 100)).2 (by decide)
      (by decide) (by decide) (by decide)
    exact ⟨r, hr, (dronePlan_rest_iff_budget 7 ⟨"", 6, 3⟩ testMap312 (some 100)).1 r hr⟩
  · obtain ⟨r, hr⟩ := (dronePlan_rest_iff_budget 7 ⟨"", 6, 3⟩ testMap312 (some 80)).2 (by decide)
      (by decide) (by decide) (by decide)
    exact ⟨r, hr, (dronePlan_rest_iff_budget 7 ⟨"", 6, 3⟩ testMap312 (some 80)).1 r hr⟩
  · obtain ⟨r, hr⟩ := (dronePlan_rest_iff_budget 7 ⟨"", 6, 3⟩ testMap312 (some 1000)).2 (by decide)
      (by decide) (by decide) (by decide)
    exact ⟨r, hr, (dronePlan_rest_iff_budget 7 ⟨"", 6, 3⟩ testMap312 (some 1000)).1 r hr⟩
  · obtain ⟨r, hr⟩ := (dronePlan_rest_iff_budget 7 ⟨"", 6, 3⟩ testMap312 (some 15)).2 (by decide)
      (by decide) (by decide) (by decide)
    exact ⟨r, hr, (dronePlan_rest_iff_budget 7 ⟨"", 6, 3⟩ testMap312 (some 15)).1 r hr⟩
  · obtain ⟨r, hr⟩ := (dronePlan_rest_iff_budget 7 ⟨"", 6, 3⟩ testMap312 none).2 (by decide)
      (by decide) (by decide) (by decide)
    exact ⟨r, hr, (dronePlan_rest_iff_budget 7 ⟨"", 6, 3⟩ testMap312 none).1 r hr⟩

theorem lookupTree_mapOfList_nonneg (l : List (CoordinatePoint × EstateTree))
    (h : ∀ e ∈ l, 0 ≤ e.2.Height) (p : CoordinatePoint) :
    0 ≤ (lookupTree (mapOfList l) p).Height := by
  unfold lookupTree mapOfList
  cases hf : l.find? (fun e => decide (e.1 = p)) with
  | none => simp [zeroTree]
  | some e =>
    simp only [Option.map_some', Option.getD_some]
    exact h e (List.mem_of_find?_eq_some hf)

/-- On unbounded integers, with a non-negative final descent: the distance returned with a
budget is at most the distance returned without one. -/
theorem dronePlan_budget_le_full (fuel : Nat) (estate : Estate) (m : TreeMap) (b : Int)
    (hw : 1 ≤ estate.Width) (hl : 1 ≤ estate.Length)
    (hfw : estate.Width < fuel) (hfl : estate.Length < fuel)
    (hh : 0 ≤ finalHeight estate m) :
    ∃ r0 rb, GetEstateIdDronePlan fuel estate m none = some r0 ∧
      GetEstateIdDronePlan fuel estate m (some b) = some rb ∧ rb.Distance ≤ r0.Distance := by
  refine ⟨_, _, GetEstateIdDronePlan_eq fuel estate m none hw hl hfw hfl,
    GetEstateIdDronePlan_eq fuel estate m (some b) hw hl hfw hfl, ?_⟩
  rw [planOutcome_none]
  cases hfo : firstOver (some b) (planSteps estate m) 0 with
  | none =>
    rw [planOutcome_not_over estate m b hfo]
    exact le_refl _
  | some p =>
    obtain ⟨s, d⟩ := p
    rw [planOutcome_over estate m b s d hfo]
    have := firstOver_le_total b _ (planSteps_cost_nonneg estate m) 0 s d hfo
    simp only [setResponseMaxDistance]
    omega

/-- On unbounded integers, with a non-negative final descent: for budgets `b1 <= b2` the
distance returned with budget `b1` is at most the distance returned with budget `b2`. -/
theorem dronePlan_budget_mono (fuel : Nat) (estate : Estate) (m : TreeMap) (b1 b2 : Int)
    (hw : 1 ≤ estate.Width) (hl : 1 ≤ estate.Length)
    (hfw : estate.Width < fuel) (hfl : estate.Length < fuel)
    (hh : 0 ≤ finalHeight estate m) (hb : b1 ≤ b2) :
    ∃ r1 r2, GetEstateIdDronePlan fuel estate m (some b1) = some r1 ∧
      GetEstateIdDronePlan fuel estate m (some b2) = some r2 ∧ r1.Distance ≤ r2.Distance := by
  refine ⟨_, _, GetEstateIdDronePlan_eq fuel estate m (some b1) hw hl hfw hfl,
    GetEstateIdDronePlan_eq fuel estate m (some b2) hw hl hfw hfl, ?_⟩
  have hc := planSteps_cost_nonneg estate m
  cases hfo2 : firstOver (some b2) (planSteps estate m) 0 with
  | some p =>
    obtain ⟨s2, d2⟩ := p
    obtain ⟨s1, d1, hfo1, hd⟩ := firstOver_mono b1 b2 hb _ hc 0 s2 d2 hfo2
    rw [planOutcome_over estate m b1 s1 d1 hfo1, planOutcome_over estate m b2 s2 d2 hfo2]
    exact hd
  | none =>
    rw [planOutcome_not_over estate m b2 hfo2]
    cases hfo1 : firstOver (some b1) (planSteps estate m) 0 with
    | none =>
      rw [planOutcome_not_over estate m b1 hfo1]
    | some p =>
      obtain ⟨s1, d1⟩ := p
      rw [planOutcome_over estate m b1 s1 d1 hfo1]
      have := firstOver_le_total b1 _ hc 0 s1 d1 hfo1
      simp only [setResponseMaxDistance]
      omega

/-! ## Default height, budget zero, resting coordinate inside the plot -/

theorem innerLoop_congr (m m2 : TreeMap)
    (h : ∀ p, (lookupTree m p).Height = (lookupTree m2 p).Height) (b : Option Int)
    (xEnd s y : Int) :
    ∀ (fuel : Nat) (x t cur : Int),
      innerLoop m b xEnd s y fuel x t cur = innerLoop m2 b xEnd s y fuel x t cur := by
  intro fuel
  induction fuel with
  | zero => intro x t cur; rfl
  | succ f ih =>
    intro x t cur
    simp only [innerLoop, h, ih]

theorem outerLoop_congr (estate : Estate) (m m2 : TreeMap)
    (h : ∀ p, (lookupTree m p).Height = (lookupTree m2 p).Height) (b : Option Int)
    (fuelX : Nat) :
    ∀ (fuel : Nat) (y t cur : Int),
      outerLoop estate m b fuelX fuel y t cur = outerLoop estate m2 b fuelX fuel y t cur := by
  intro fuel
  induction fuel with
  | zero => intro y t cur; rfl
  | succ f ih =>
    intro y t cur
    simp only [outerLoop, innerLoop_congr m m2 h, ih]

theorem dronePlanRun_congr (fuel : Nat) (estate : Estate) (m m2 : TreeMap)
    (h : ∀ p, (lookupTree m p).Height = (lookupTree m2 p).Height) (b : Option Int) :
    dronePlanRun fuel estate m b = dronePlanRun fuel estate m2 b := by
  simp only [dronePlanRun, outerLoop_congr estate m m2 h]

/-- Claim C11: for every plot, budget argument, height map `m` and coordinate absent from
`m`, the planner gives the same result on `m` as on `m` extended with an entry of height 0
at that coordinate; on a plot with width, length >= 1 that result exists. -/
theorem dronePlan_default_height (fuel : Nat) (estate : Estate) (m : TreeMap)
    (b : Option Int) (p : CoordinatePoint) (t : EstateTree)
    (habs : m p = none) (ht : t.Height = 0) :
    GetEstateIdDronePlan fuel estate (insertTree m p t) b = GetEstateIdDronePlan fuel estate m b ∧
      (1 ≤ estate.Width → 1 ≤ estate.Length → estate.Width < fuel → estate.Length < fuel →
        ∃ r, GetEstateIdDronePlan fuel estate m b = some r) := by
  refine ⟨?_, fun hw hl hfw hfl => ⟨_, GetEstateIdDronePlan_eq fuel estate m b hw hl hfw hfl⟩⟩
  unfold GetEstateIdDronePlan
  rw [dronePlanRun_congr fuel estate (insertTree m p t) m]
  intro q
  unfold lookupTree insertTree
  by_cases hq : q = p
  · subst hq
    simp [habs, ht, zeroTree]
  · simp [hq]

/-- Witness of C11: the 6 x 3 test map has no entry at (1, 1); adding one of height 0
changes nothing, with budget 100 the answer stays distance 105 at (6, 2). -/
theorem dronePlan_default_height_witness :
    GetEstateIdDronePlan 7 ⟨"", 6, 3⟩ (insertTree testMap312 ⟨1, 1⟩ ⟨"t", "e", 1, 1, 0⟩)
        (some 100) = GetEstateIdDronePlan 7 ⟨"", 6, 3⟩ testMap312 (some 100) ∧
      GetEstateIdDronePlan 7 ⟨"", 6, 3⟩ testMap312 (some 100) =
        some { Distance := 105, Rest := some ⟨6, 2⟩ } :=
  ⟨(dronePlan_default_height 7 ⟨"", 6, 3⟩ testMap312 (some 100) ⟨1, 1⟩ ⟨"t", "e", 1, 1, 0⟩
    (by decide) (by decide)).1, by decide⟩

/-- On unbounded integers, with a non-negative height at (1, 1): the loops called with
budget 0 stop at check A in the first cell and return distance `height(1,1) + 1` with
resting coordinate (1, 1). -/
theorem dronePlan_budget_zero (fuel : Nat) (estate : Estate) (m : TreeMap)
    (hw : 1 ≤ estate.Width) (hl : 1 ≤ estate.Length) (hf : 0 < fuel)
    (h0 : 0 ≤ (lookupTree m ⟨1, 1⟩).Height) :
    dronePlanRun fuel estate m (some 0) =
        some (Exit.checkA,
          { Distance := (lookupTree m ⟨1, 1⟩).Height + 1, Rest := some ⟨1, 1⟩ }) ∧
      GetEstateIdDronePlan fuel estate m (some 0) =
        some { Distance := (lookupTree m ⟨1, 1⟩).Height + 1, Rest := some ⟨1, 1⟩ } := by
  obtain ⟨f, rfl⟩ : ∃ f, fuel = f + 1 := ⟨fuel - 1, by omega⟩
  have hx : (1 : Int) ≠ estate.Width + 1 := by omega
  have habs : absInt ((lookupTree m ⟨1, 1⟩).Height + 1) = (lookupTree m ⟨1, 1⟩).Height + 1 := by
    unfold absInt
    split <;> omega
  have hover : overBudget (some 0) ((lookupTree m ⟨1, 1⟩).Height + 1) = true := by
    simp only [overBudget, decide_eq_true_eq]
    omega
  have hrun : dronePlanRun (f + 1) estate m (some 0) =
      some (Exit.checkA,
        { Distance := (lookupTree m ⟨1, 1⟩).Height + 1, Rest := some ⟨1, 1⟩ }) := by
    simp [dronePlanRun, outerLoop, innerLoop, hl, hx, habs, hover, setResponseMaxDistance]
  exact ⟨hrun, by simp [GetEstateIdDronePlan, hrun]⟩

theorem mem_countFrom_up (v : Int) :
    ∀ (k : Nat) (x : Int), v ∈ countFrom x 1 k → x ≤ v ∧ v < x + k := by
  intro k
  induction k with
  | zero => intro x h; simp [countFrom] at h
  | succ k ih =>
    intro x h
    simp only [countFrom, List.mem_cons] at h
    rcases h with rfl | h
    · constructor <;> push_cast <;> omega
    · have := ih _ h
      constructor <;> push_cast <;> omega

theorem mem_countFrom_down (v : Int) :
    ∀ (k : Nat) (x : Int), v ∈ countFrom x (-1) k → x - k < v ∧ v ≤ x := by
  intro k
  induction k with
  | zero => intro x h; simp [countFrom] at h
  | succ k ih =>
    intro x h
    simp only [countFrom, List.mem_cons] at h
    rcases h with rfl | h
    · constructor <;> push_cast <;> omega
    · have := ih _ h
      constructor <;> push_cast <;> omega

theorem mem_rowXs (width y v : Int) (hw : 0 ≤ width) (h : v ∈ rowXs width y) :
    1 ≤ v ∧ v ≤ width := by
  have hk := Int.toNat_of_nonneg hw
  unfold rowXs at h
  split at h
  · have := mem_countFrom_up v _ _ h
    omega
  · have := mem_countFrom_down v _ _ h
    omega

theorem mem_rowSteps (m : TreeMap) (y : Int) :
    ∀ (xs : List Int) (cur : Int) (s : Step), s ∈ rowSteps m y xs cur →
      s.x ∈ xs ∧ s.y = y ∧ s.kind ≠ StepKind.rowTransition := by
  intro xs
  induction xs with
  | nil => intro cur s h; simp [rowSteps] at h
  | cons x xs ih =>
    intro cur s h
    cases xs with
    | nil =>
      simp [rowSteps] at h
      subst h
      simp
    | cons x2 xs =>
      simp only [rowSteps, List.mem_cons] at h
      rcases h with rfl | rfl | h
      · simp
      · simp
      · have := ih _ s h
        exact ⟨List.mem_cons_of_mem _ this.1, this.2⟩

theorem mem_stepsFrom (estate : Estate) (m : TreeMap) (hw : 1 ≤ estate.Width) :
    ∀ (n : Nat) (y cur : Int) (s : Step), estate.Length + 1 = y + n →
      s ∈ stepsFrom estate m n y cur →
        1 ≤ s.x ∧ s.x ≤ estate.Width ∧ y ≤ s.y ∧ s.y ≤ estate.Length ∧
          (s.kind = StepKind.rowTransition → s.y < estate.Length) := by
  intro n
  induction n with
  | zero => intro y cur s _ h; simp [stepsFrom] at h
  | succ n ih =>
    intro y cur s hy h
    push_cast at hy
    simp only [stepsFrom, List.mem_append] at h
    rcases h with (h | h) | h
    · obtain ⟨hx, hsy, hk⟩ := mem_rowSteps m y _ _ s h
      have := mem_rowXs estate.Width y s.x (by omega) hx
      exact ⟨this.1, this.2, by omega, by omega, fun hk2 => absurd hk2 hk⟩
    · unfold transitionStep at h
      split at h
      · rename_i hne
        simp only [List.mem_singleton] at h
        subst h
        refine ⟨?_, ?_, le_refl _, by simp only; omega, fun _ => by simp only; omega⟩
        · simp only
          split <;> omega
        · simp only
          split <;> omega
      · simp at h
    · have := ih (y + 1) _ s (by omega) h
      exact ⟨this.1, this.2.1, by omega, this.2.2.2.1, this.2.2.2.2⟩

theorem firstOver_mem (b : Option Int) (ss : List Step) :
    ∀ (t : Int) (s : Step) (d : Int), firstOver b ss t = some (s, d) → s ∈ ss := by
  induction ss with
  | nil => intro t s d h; simp [firstOver] at h
  | cons s0 ss ih =>
    intro t s d h
    simp only [firstOver] at h
    split at h
    · simp only [Option.some.injEq, Prod.mk.injEq] at h
      simp [h.1]
    · exact List.mem_cons_of_mem _ (ih _ s d h)

/-- Claim C20: for every plot (width, length >= 1), height map and supplied budget, the
planner returns a resting coordinate inside the plot, `1 <= restX <= width` and
`1 <= restY <= length`, whichever return it leaves through. -/
theorem dronePlan_rest_in_plot (fuel : Nat) (estate : Estate) (m : TreeMap) (b : Int)
    (hw : 1 ≤ estate.Width) (hl : 1 ≤ estate.Length)
    (hfw : estate.Width < fuel) (hfl : estate.Length < fuel) :
    ∃ e d rest, dronePlanRun fuel estate m (some b) = some (e, { Distance := d, Rest := some rest }) ∧
      1 ≤ rest.X ∧ rest.X ≤ estate.Width ∧ 1 ≤ rest.Y ∧ rest.Y ≤ estate.Length := by
  rw [dronePlanRun_eq fuel estate m (some b) (by omega) (by omega) hfw hfl]
  cases hfo : firstOver (some b) (planSteps estate m) 0 with
  | none =>
    rw [planOutcome_not_over estate m b hfo]
    exact ⟨_, _, ⟨estate.Width, estate.Length⟩, rfl, hw, le_refl _, hl, le_refl _⟩
  | some p =>
    obtain ⟨s, d⟩ := p
    rw [planOutcome_over estate m b s d hfo]
    have hmem := firstOver_mem _ _ _ s d hfo
    have hb := mem_stepsFrom estate m hw estate.Length.toNat 1 0 s
      (by have := Int.toNat_of_nonneg (show 0 ≤ estate.Length by omega); omega) hmem
    refine ⟨_, _, restOf estate s, rfl, ?_⟩
    unfold restOf
    cases hk : s.kind with
    | vertical => simp only; omega
    | horizontal => simp only; omega
    | rowTransition =>
      have := hb.2.2.2.2 hk
      simp only
      refine ⟨?_, ?_, by omega, by omega⟩
      · split <;> omega
      · split <;> omega

/-- Witness of C20: the 6 x 3 test plot with budget 80, which stops at check C. -/
theorem dronePlan_rest_in_plot_witness :
    ∃ e d rest, dronePlanRun 7 ⟨"", 6, 3⟩ testMap312 (some 80) =
        some (e, { Distance := d, Rest := some rest }) ∧
      1 ≤ rest.X ∧ rest.X ≤ 6 ∧ 1 ≤ rest.Y ∧ rest.Y ≤ 3 :=
  dronePlan_rest_in_plot 7 ⟨"", 6, 3⟩ testMap312 80 (by decide) (by decide) (by decide)
    (by decide)

/-! ## Visit order and totality -/

theorem innerLoopLog_erase (m : TreeMap) (b : Option Int) (xEnd s y : Int) :
    ∀ (fuel : Nat) (x t cur : Int) (vis : List CoordinatePoint),
      (innerLoopLog m b xEnd s y fuel x t cur vis).map Prod.fst =
        innerLoop m b xEnd s y fuel x t cur := by
  intro fuel
  induction fuel with
  | zero => intro x t cur vis; rfl
  | succ f ih =>
    intro x t cur vis
    simp only [innerLoopLog, innerLoop]
    split_ifs <;> simp [ih]

theorem outerLoopLog_erase (estate : Estate) (m : TreeMap) (b : Option Int) (fuelX : Nat) :
    ∀ (fuel : Nat) (y t cur : Int) (vis : List CoordinatePoint),
      (outerLoopLog estate m b fuelX fuel y t cur vis).map Prod.fst =
        outerLoop estate m b fuelX fuel y t cur := by
  intro fuel
  induction fuel with
  | zero => intro y t cur vis; rfl
  | succ f ih =>
    intro y t cur vis
    simp only [outerLoopLog, outerLoop]
    by_cases h1 : y ≤ estate.Length
    · simp only [h1, if_true]
      rw [← innerLoopLog_erase m b _ _ y fuelX _ t cur vis]
      cases innerLoopLog m b (if y % 2 = 1 then estate.Width else 1)
          (if y % 2 = 1 then 1 else -1) y fuelX (if y % 2 = 1 then 1 else estate.Width) t cur
          vis with
      | none => rfl
      | some p =>
        obtain ⟨fl, vis2⟩ := p
        cases fl with
        | ret e r => rfl
        | next t2 c2 =>
          simp only [Option.map_some']
          split_ifs <;> simp [ih]
    · simp [h1]

theorem dronePlanLog_erase (fuel : Nat) (estate : Estate) (m : TreeMap) (b : Option Int) :
    (dronePlanLog fuel estate m b).map Prod.fst = dronePlanRun fuel estate m b := by
  unfold dronePlanLog dronePlanRun
  rw [← outerLoopLog_erase estate m b fuel fuel 1 0 0 []]
  cases outerLoopLog estate m b fuel fuel 1 0 0 [] with
  | none => rfl
  | some p =>
    obtain ⟨fl, vis⟩ := p
    cases fl with
    | ret e r => rfl
    | next t2 c2 => cases b <;> rfl

theorem innerLoopLog_spec (m : TreeMap) (b : Option Int) (xEnd s y : Int)
    (hs : s = 1 ∨ s = -1) :
    ∀ (k fuel : Nat) (x t cur : Int) (vis : List CoordinatePoint), k < fuel →
      xEnd + s = x + k * s →
      ∃ fl lg, innerLoopLog m b xEnd s y fuel x t cur vis = some (fl, lg) ∧
        lg <+: vis ++ (countFrom x s k).map (fun v => (⟨v, y⟩ : CoordinatePoint)) ∧
        (∀ t2 c2, fl = Flow.next t2 c2 →
          lg = vis ++ (countFrom x s k).map (fun v => (⟨v, y⟩ : CoordinatePoint))) := by
  intro k
  induction k with
  | zero =>
    intro fuel x t cur vis hf hx
    obtain ⟨f, rfl⟩ : ∃ f, fuel = f + 1 := ⟨fuel - 1, by omega⟩
    have hx2 : x = xEnd + s := by simpa using hx.symm
    refine ⟨Flow.next t cur, vis, by simp [innerLoopLog, hx2], by simp [countFrom], ?_⟩
    intro _ _ _
    simp [countFrom]
  | succ k ih =>
    intro fuel x t cur vis hf hx
    obtain ⟨f, rfl⟩ : ∃ f, fuel = f + 1 := ⟨fuel - 1, by omega⟩
    have hne : x ≠ xEnd + s := by
      rcases hs with rfl | rfl <;> push_cast at hx <;> omega
    have hnext : xEnd + s = (x + s) + k * s := by
      push_cast at hx
      rw [hx]; ring
    have hcells : vis ++ (countFrom x s (k + 1)).map (fun v => (⟨v, y⟩ : CoordinatePoint)) =
        (vis ++ [(⟨x, y⟩ : CoordinatePoint)]) ++
          (countFrom (x + s) s k).map (fun v => (⟨v, y⟩ : CoordinatePoint)) := by
      simp [countFrom]
    rw [hcells]
    have hstop : (vis ++ [(⟨x, y⟩ : CoordinatePoint)]) <+:
        (vis ++ [(⟨x, y⟩ : CoordinatePoint)]) ++
          (countFrom (x + s) s k).map (fun v => (⟨v, y⟩ : CoordinatePoint)) :=
      List.prefix_append _ _
    simp only [innerLoopLog, hne, ne_eq, not_false_eq_true, if_true]
    by_cases hA : overBudget b (t + absInt ((lookupTree m ⟨x, y⟩).Height + 1 - cur)) = true
    · simp only [hA, if_true]
      exact ⟨_, _, rfl, hstop, fun _ _ h => by simp at h⟩
    · simp only [hA, if_false]
      by_cases hE : x = xEnd
      · simp only [hE, not_true_eq_false, if_false]
        rw [hE] at hnext
        exact ih f (xEnd + s) _ _ _ (by omega) hnext
      · simp only [hE, not_false_eq_true, if_true]
        by_cases hB : overBudget b
            (t + absInt ((lookupTree m ⟨x, y⟩).Height + 1 - cur) + 10) = true
        · simp only [hB, if_true]
          exact ⟨_, _, rfl, hstop, fun _ _ h => by simp at h⟩
        · simp only [hB, if_false]
          exact ih f (x + s) _ _ _ (by omega) hnext

theorem innerLoopLog_row (estate : Estate) (m : TreeMap) (b : Option Int) (y : Int)
    (fuel : Nat) (t cur : Int) (vis : List CoordinatePoint) (hw : 0 ≤ estate.Width)
    (hf : estate.Width < fuel) :
    ∃ fl lg, innerLoopLog m b (if y % 2 = 1 then estate.Width else 1)
        (if y % 2 = 1 then 1 else -1) y fuel (if y % 2 = 1 then 1 else estate.Width) t cur vis =
          some (fl, lg) ∧
      lg <+: vis ++ serpentineRow estate.Width.toNat y ∧
      (∀ t2 c2, fl = Flow.next t2 c2 → lg = vis ++ serpentineRow estate.Width.toNat y) := by
  have hk := Int.toNat_of_nonneg hw
  rw [← rowXs_cells estate.Width y hw]
  unfold rowXs
  by_cases hy : y % 2 = 1
  · simp only [hy, if_true]
    exact innerLoopLog_spec m b _ _ y (Or.inl rfl) estate.Width.toNat fuel 1 t cur vis
      (by omega) (by omega)
  · simp only [hy, if_false]
    exact innerLoopLog_spec m b _ _ y (Or.inr rfl) estate.Width.toNat fuel estate.Width t cur vis
      (by omega) (by omega)

theorem outerLoopLog_spec (estate : Estate) (m : TreeMap) (b : Option Int) (fuelX : Nat)
    (hw : 0 ≤ estate.Width) (hfx : estate.Width < fuelX) :
    ∀ (n fuel : Nat) (y t cur : Int) (vis : List CoordinatePoint), n < fuel →
      estate.Length + 1 = y + n →
      ∃ fl lg, outerLoopLog estate m b fuelX fuel y t cur vis = some (fl, lg) ∧
        lg <+: vis ++ cellsFrom estate.Width.toNat n y ∧
        (∀ t2 c2, fl = Flow.next t2 c2 → lg = vis ++ cellsFrom estate.Width.toNat n y) := by
  intro n
  induction n with
  | zero =>
    intro fuel y t cur vis hf hy
    obtain ⟨f, rfl⟩ : ∃ f, fuel = f + 1 := ⟨fuel - 1, by omega⟩
    have hgt : ¬ y ≤ estate.Length := by push_cast at hy; omega
    refine ⟨Flow.next t cur, vis, by simp [outerLoopLog, hgt], by simp [cellsFrom], ?_⟩
    intro _ _ _
    simp [cellsFrom]
  | succ n ih =>
    intro fuel y t cur vis hf hy
    obtain ⟨f, rfl⟩ : ∃ f, fuel = f + 1 := ⟨fuel - 1, by omega⟩
    have hle : y ≤ estate.Length := by push_cast at hy; omega
    have hnext : estate.Length + 1 = y + 1 + n := by push_cast at hy; omega
    obtain ⟨fl, lg, hin, hpre, hfull⟩ := innerLoopLog_row estate m b y fuelX t cur vis hw hfx
    rw [cellsFrom_succ, ← List.append_assoc]
    simp only [outerLoopLog, hle, if_true, hin]
    cases fl with
    | ret e r =>
      exact ⟨_, _, rfl, hpre.trans (List.prefix_append _ _), fun _ _ h => by simp at h⟩
    | next t2 c2 =>
      rw [hfull t2 c2 rfl]
      simp only []
      by_cases hlast : y = estate.Length
      · simp only [hlast, ne_eq, not_true_eq_false, if_false]
        rw [hlast] at hnext
        exact ih f (estate.Length + 1) _ _ _ (by omega) hnext
      · simp only [ne_eq, hlast, not_false_eq_true, if_true]
        by_cases hC : overBudget b (t2 + 10) = true
        · simp only [hC, if_true]
          exact ⟨_, _, rfl, List.prefix_append _ _, fun _ _ h => by simp at h⟩
        · simp only [hC, if_false]
          exact ih f (y + 1) _ _ _ (by omega) hnext

theorem dronePlanLog_spec (fuel : Nat) (estate : Estate) (m : TreeMap) (b : Option Int)
    (hw : 0 ≤ estate.Width) (hl : 0 ≤ estate.Length)
    (hfw : estate.Width < fuel) (hfl : estate.Length < fuel) :
    ∃ r lg, dronePlanLog fuel estate m b = some (r, lg) ∧
      lg <+: serpentine estate.Width.toNat estate.Length.toNat ∧
      (r.1 = Exit.final → lg = serpentine estate.Width.toNat estate.Length.toNat) := by
  have hk := Int.toNat_of_nonneg hl
  obtain ⟨fl, lg, hout, hpre, hfull⟩ := outerLoopLog_spec estate m b fuel hw hfw
    estate.Length.toNat fuel 1 0 0 [] (by omega) (by omega)
  rw [List.nil_append] at hpre
  simp only [List.nil_append] at hfull
  rw [serpentine_eq_cellsFrom]
  unfold dronePlanLog
  rw [hout]
  cases fl with
  | ret e r =>
    refine ⟨(e, r), lg, rfl, hpre, ?_⟩
    intro he
    simp only at he
    have hret := outerLoopLog_erase estate m b fuel fuel 1 0 0 []
    rw [hout] at hret
    have hbud := outerLoop_ret_budget estate m b fuel fuel 1 0 0 e r hret.symm
    subst he
    have hrun := dronePlanRun_eq fuel estate m b hw hl hfw hfl
    unfold dronePlanRun at hrun
    rw [← hret] at hrun
    simp only [Option.map_some', Option.some.injEq] at hrun
    unfold planOutcome at hrun
    cases hfo : firstOver b (planSteps estate m) 0 with
    | some p =>
      rw [hfo] at hrun
      simp only [Prod.mk.injEq] at hrun
      have := hrun.1
      cases hk2 : p.1.kind <;> simp [hk2, exitOf] at this
    | none =>
      have hnone := (outerLoop_eq estate m b fuel hw hfw estate.Length.toNat fuel 1 0 0
        (by omega) (by omega))
      rw [← hret] at hnone
      simp only [Option.map_some', Option.some.injEq] at hnone
      unfold flowOf at hnone
      rw [show stepsFrom estate m estate.Length.toNat 1 0 = planSteps estate m from rfl, hfo]
        at hnone
      simp at hnone
  | next t2 c2 =>
    cases b with
    | none => exact ⟨_, lg, rfl, hpre, fun _ => hfull t2 c2 rfl⟩
    | some v => exact ⟨_, lg, rfl, hpre, fun _ => hfull t2 c2 rfl⟩

theorem length_serpentineRow (w : Nat) (y : Int) : (serpentineRow w y).length = w := by
  unfold serpentineRow
  split <;> simp

theorem length_cellsFrom (w : Nat) : ∀ (n : Nat) (y : Int), (cellsFrom w n y).length = n * w := by
  intro n
  induction n with
  | zero => intro y; simp [cellsFrom]
  | succ n ih =>
    intro y
    rw [cellsFrom_succ, List.length_append, length_serpentineRow, ih]
    ring

theorem mem_serpentineRow (w : Nat) (y : Int) (c : CoordinatePoint) :
    c ∈ serpentineRow w y ↔ c.Y = y ∧ 1 ≤ c.X ∧ c.X ≤ w := by
  have hxs : ∀ a : Int, (a ∈ if y % 2 = 1 then (List.range w).map (fun (i : Nat) => (i : Int) + 1)
      else ((List.range w).map (fun (i : Nat) => (i : Int) + 1)).reverse) ↔ 1 ≤ a ∧ a ≤ w := by
    intro a
    have hmem : a ∈ (List.range w).map (fun (i : Nat) => (i : Int) + 1) ↔ 1 ≤ a ∧ a ≤ w := by
      simp only [List.mem_map, List.mem_range]
      constructor
      · rintro ⟨i, hi, rfl⟩
        omega
      · rintro ⟨h1, h2⟩
        exact ⟨(a - 1).toNat, by omega, by omega⟩
    split
    · exact hmem
    · rw [List.mem_reverse]
      exact hmem
  unfold serpentineRow
  simp only [List.mem_map]
  constructor
  · rintro ⟨a, ha, rfl⟩
    exact ⟨rfl, (hxs a).1 ha⟩
  · rintro ⟨hy, hx⟩
    refine ⟨c.X, (hxs c.X).2 hx, ?_⟩
    cases c
    simp only at hy
    simp [hy]

theorem nodup_serpentineRow (w : Nat) (y : Int) : (serpentineRow w y).Nodup := by
  have hxs : ((List.range w).map (fun (i : Nat) => (i : Int) + 1)).Nodup := by
    apply List.Nodup.map _ (List.nodup_range w)
    intro a b h
    simp only at h
    omega
  have hinj : Function.Injective (fun x : Int => (⟨x, y⟩ : CoordinatePoint)) := by
    intro a b h
    simpa using h
  unfold serpentineRow
  split
  · exact List.Nodup.map hinj hxs
  · exact List.Nodup.map hinj (List.nodup_reverse.2 hxs)

theorem mem_cellsFrom (w : Nat) (c : CoordinatePoint) :
    ∀ (n : Nat) (y : Int), c ∈ cellsFrom w n y ↔
      (y ≤ c.Y ∧ c.Y < y + n ∧ 1 ≤ c.X ∧ c.X ≤ w) := by
  intro n
  induction n with
  | zero =>
    intro y
    simp only [cellsFrom, List.range_zero, List.map_nil, List.flatten_nil, List.not_mem_nil,
      false_iff]
    push_cast
    omega
  | succ n ih =>
    intro y
    rw [cellsFrom_succ, List.mem_append, mem_serpentineRow, ih]
    push_cast
    constructor
    · rintro (h | h) <;> omega
    · intro h
      by_cases hy : c.Y = y
      · exact Or.inl ⟨hy, h.2.2⟩
      · exact Or.inr (by omega)

theorem nodup_cellsFrom (w : Nat) : ∀ (n : Nat) (y : Int), (cellsFrom w n y).Nodup := by
  intro n
  induction n with
  | zero => intro y; simp [cellsFrom]
  | succ n ih =>
    intro y
    rw [cellsFrom_succ, List.nodup_append]
    refine ⟨nodup_serpentineRow w y, ih (y + 1), ?_⟩
    intro c h1 h2
    have a1 := (mem_serpentineRow w y c).1 h1
    have a2 := (mem_cellsFrom w c n (y + 1)).1 h2
    omega

/-! ## The queries built from a filter -/

/-- Claim C18: for every filter and base query, `setFilterEstateTree` returns the base followed
by ` WHERE ` and the conditions joined by ` AND `: one condition `name = $k` for each of id,
estate_id, x, y that is set, in that order and numbered from 1, then `deleted_at IS NULL`;
the parameters are the values of those fields in the same order, as many as placeholders. -/
theorem setFilterEstateTree_described (baseQuery : String) (filter : FilterEstateTree) :
    setFilterEstateTree baseQuery filter =
        (describedQuery baseQuery filter, (activeFields filter).map Prod.snd) ∧
      (placeholderConditions 1 (activeFields filter)).length =
        (setFilterEstateTree baseQuery filter).2.length := by
  by_cases h1 : filter.ID = "" <;> by_cases h2 : filter.EstateID = "" <;>
    by_cases h3 : filter.X = 0 <;> by_cases h4 : filter.Y = 0 <;>
    simp [setFilterEstateTree, describedQuery, activeFields, placeholderConditions, h1, h2, h3,
      h4, Itoa] <;> intro h <;> exact absurd h (by decide)

/-! ## Request validation in the handlers -/

/-- Claim C15: for every bound estate request, `PostEstate` answers 400 with the message
"width and length must be between 1 and 50000" if and only if width or length lies outside
[1, 50000], and then calls nothing; otherwise its one repository call is `CreateEstate` with
the requested width and length, both at least 1. -/
theorem PostEstate_validation (repo : RepositoryInterface) (req : EstateRequest)
    (newID : String) :
    ((PostEstate repo (Except.ok req) newID).1 =
          ⟨400, ReplyBody.error "width and length must be between 1 and 50000"⟩ ↔
        (req.Width < 1 ∨ 50000 < req.Width ∨ req.Length < 1 ∨ 50000 < req.Length)) ∧
      ((req.Width < 1 ∨ 50000 < req.Width ∨ req.Length < 1 ∨ 50000 < req.Length) →
        (PostEstate repo (Except.ok req) newID).2 = []) ∧
      (¬ (req.Width < 1 ∨ 50000 < req.Width ∨ req.Length < 1 ∨ 50000 < req.Length) →
        (PostEstate repo (Except.ok req) newID).2 =
            [RepoCall.CreateEstate ⟨newID, req.Width, req.Length⟩] ∧
          1 ≤ req.Width ∧ 1 ≤ req.Length) := by
  by_cases hc : req.Width ≤ 0 ∨ req.Length ≤ 0 ∨ req.Width > 50000 ∨ req.Length > 50000
  · have hr : req.Width < 1 ∨ 50000 < req.Width ∨ req.Length < 1 ∨ 50000 < req.Length := by
      omega
    have hres : PostEstate repo (Except.ok req) newID =
        (⟨400, ReplyBody.error "width and length must be between 1 and 50000"⟩, []) := by
      simp only [PostEstate, hc, if_true]
    rw [hres]
    exact ⟨⟨fun _ => hr, fun _ => rfl⟩, fun _ => rfl, fun h => absurd hr h⟩
  · have hr : ¬ (req.Width < 1 ∨ 50000 < req.Width ∨ req.Length < 1 ∨ 50000 < req.Length) := by
      omega
    cases hce : repo.CreateEstate ⟨newID, req.Width, req.Length⟩ with
    | none =>
      have hres : PostEstate repo (Except.ok req) newID =
          (⟨201, ReplyBody.created newID⟩,
            [RepoCall.CreateEstate ⟨newID, req.Width, req.Length⟩]) := by
        simp only [PostEstate, hc, if_false, hce]
      rw [hres]
      refine ⟨⟨fun h => ?_, fun h => absurd h hr⟩, fun h => absurd h hr,
        fun _ => ⟨rfl, by omega, by omega⟩⟩
      simp at h
    | some err =>
      have hres : PostEstate repo (Except.ok req) newID =
          (⟨400, ReplyBody.error "failed to create estate"⟩,
            [RepoCall.CreateEstate ⟨newID, req.Width, req.Length⟩]) := by
        simp only [PostEstate, hc, if_false, hce]
      rw [hres]
      refine ⟨⟨fun h => ?_, fun h => absurd h hr⟩, fun h => absurd h hr,
        fun _ => ⟨rfl, by omega, by omega⟩⟩
      simp only [Reply.mk.injEq, ReplyBody.error.injEq, true_and] at h
      exact absurd h (by decide)

/-- Witness of C15: the request of the failing test (width -1, no length) is answered 400
without a call, and width 3, length 4 is stored as given. -/
theorem PostEstate_validation_witness :
    (PostEstate (testRepository 0 0) (Except.ok ⟨-1, 0⟩) "id").2 = [] ∧
      (PostEstate (testRepository 0 0) (Except.ok ⟨3, 4⟩) "id").2 =
        [RepoCall.CreateEstate ⟨"id", 3, 4⟩] ∧ (1 : Int) ≤ 3 ∧ (1 : Int) ≤ 4 :=
  ⟨(PostEstate_validation (testRepository 0 0) ⟨-1, 0⟩ "id").2.1 (by decide),
    (PostEstate_validation (testRepository 0 0) ⟨3, 4⟩ "id").2.2 (by decide)⟩

/-- Claim C16: for every bound tree request, `PostEstateIdTree` answers 400 with the message
"x and y must be greatest equal 1, height must be between 1 and 30" if and only if x < 1 or
y < 1 or height < 1 or height > 30, and then calls nothing; so every tree it passes to
`CreateEstateTree` has the requested height, which lies in [1, 30]. -/
theorem PostEstateIdTree_validation (repo : RepositoryInterface) (req : EstateTreeRequest)
    (newID estateID : String) :
    ((PostEstateIdTree repo (Except.ok req) newID estateID).1 =
          ⟨400, ReplyBody.error
            "x and y must be greatest equal 1, height must be between 1 and 30"⟩ ↔
        (req.X < 1 ∨ req.Y < 1 ∨ req.Height < 1 ∨ req.Height > 30)) ∧
      ((req.X < 1 ∨ req.Y < 1 ∨ req.Height < 1 ∨ req.Height > 30) →
        (PostEstateIdTree repo (Except.ok req) newID estateID).2 = []) ∧
      (∀ data, RepoCall.CreateEstateTree data ∈
          (PostEstateIdTree repo (Except.ok req) newID estateID).2 →
        data.Height = req.Height ∧ 1 ≤ data.Height ∧ data.Height ≤ 30) := by
  by_cases hc : req.X < 1 ∨ req.Y < 1 ∨ req.Height < 1 ∨ req.Height > 30
  · have hres : PostEstateIdTree repo (Except.ok req) newID estateID =
        (⟨400, ReplyBody.error
          "x and y must be greatest equal 1, height must be between 1 and 30"⟩, []) := by
      simp only [PostEstateIdTree, hc, if_true]
    rw [hres]
    exact ⟨⟨fun _ => hc, fun _ => rfl⟩, fun _ => rfl, fun data h => by simp at h⟩
  · have hstored : ∀ data : EstateTree,
        data = ⟨newID, estateID, req.X, req.Y, req.Height⟩ →
          data.Height = req.Height ∧ 1 ≤ data.Height ∧ data.Height ≤ 30 := by
      intro data hd
      subst hd
      exact ⟨rfl, by show 1 ≤ req.Height; omega, by show req.Height ≤ 30; omega⟩
    cases h1 : repo.FindEstate { ID := estateID } with
    | error e =>
      have hres : PostEstateIdTree repo (Except.ok req) newID estateID =
          (⟨404, ReplyBody.error ("estate " ++ estateID ++ " not found")⟩,
            [RepoCall.FindEstate { ID := estateID }]) := by
        simp only [PostEstateIdTree, hc, if_false, h1]
      rw [hres]
      exact ⟨⟨fun h => by simp at h, fun h => absurd h hc⟩, fun h => absurd h hc,
        fun data h => by simp at h⟩
    | ok estate =>
      by_cases hb : estate.Length < req.X ∨ estate.Width < req.Y
      · have hres : PostEstateIdTree repo (Except.ok req) newID estateID =
            (⟨400, ReplyBody.error "coordinate out of bound"⟩,
              [RepoCall.FindEstate { ID := estateID }]) := by
          simp only [PostEstateIdTree, hc, if_false, h1, hb, if_true]
        rw [hres]
        refine ⟨⟨fun h => ?_, fun h => absurd h hc⟩, fun h => absurd h hc,
          fun data h => by simp at h⟩
        simp only [Reply.mk.injEq, ReplyBody.error.injEq, true_and] at h
        exact absurd h (by decide)
      · cases h2 : repo.FindEstateTree { EstateID := estateID, X := req.X, Y := req.Y } with
        | ok t =>
          have hres : PostEstateIdTree repo (Except.ok req) newID estateID =
              (⟨400, ReplyBody.error "plot already has tree"⟩,
                [RepoCall.FindEstate { ID := estateID },
                  RepoCall.FindEstateTree { EstateID := estateID, X := req.X, Y := req.Y }]) := by
            simp only [PostEstateIdTree, hc, if_false, h1, hb, h2]
          rw [hres]
          refine ⟨⟨fun h => ?_, fun h => absurd h hc⟩, fun h => absurd h hc,
            fun data h => by simp at h⟩
          simp only [Reply.mk.injEq, ReplyBody.error.injEq, true_and] at h
          exact absurd h (by decide)
        | error e =>
          cases h3 : repo.CreateEstateTree ⟨newID, estateID, req.X, req.Y, req.Height⟩ with
          | some e2 =>
            have hres : PostEstateIdTree repo (Except.ok req) newID estateID =
                (⟨400, ReplyBody.error "failed to create estate tree"⟩,
                  [RepoCall.FindEstate { ID := estateID },
                    RepoCall.FindEstateTree { EstateID := estateID, X := req.X, Y := req.Y },
                    RepoCall.CreateEstateTree ⟨newID, estateID, req.X, req.Y, req.Height⟩]) := by
              simp only [PostEstateIdTree, hc, if_false, h1, hb, h2, h3]
            rw [hres]
            refine ⟨⟨fun h => ?_, fun h => absurd h hc⟩, fun h => absurd h hc,
              fun data h => hstored data (by simpa using h)⟩
            simp only [Reply.mk.injEq, ReplyBody.error.injEq, true_and] at h
            exact absurd h (by decide)
          | none =>
            have hres : PostEstateIdTree repo (Except.ok req) newID estateID =
                (⟨201, ReplyBody.created newID⟩,
                  [RepoCall.FindEstate { ID := estateID },
                    RepoCall.FindEstateTree { EstateID := estateID, X := req.X, Y := req.Y },
                    RepoCall.CreateEstateTree ⟨newID, estateID, req.X, req.Y, req.Height⟩]) := by
              simp only [PostEstateIdTree, hc, if_false, h1, hb, h2, h3]
            rw [hres]
            exact ⟨⟨fun h => by simp at h, fun h => absurd h hc⟩, fun h => absurd h hc,
              fun data h => hstored data (by simpa using h)⟩

/-- Witness of C16: the request of the failing test (height 50) is answered 400 without a
call. -/
theorem PostEstateIdTree_validation_witness :
    (PostEstateIdTree (testRepository 10 10) (Except.ok ⟨1, 1, 50⟩) "tree" "estate").1 =
        ⟨400, ReplyBody.error
          "x and y must be greatest equal 1, height must be between 1 and 30"⟩ ∧
      (PostEstateIdTree (testRepository 10 10) (Except.ok ⟨1, 1, 50⟩) "tree" "estate").2 = [] :=
  ⟨(PostEstateIdTree_validation (testRepository 10 10) ⟨1, 1, 50⟩ "tree" "estate").1.2
      (by decide),
    (PostEstateIdTree_validation (testRepository 10 10) ⟨1, 1, 50⟩ "tree" "estate").2.1
      (by decide)⟩

/-- Claim C14, the code at the failing input: in an estate of width 5 and length 10 the
request x = 7, y = 1, height 10 passes the bound check, which compares x with the length and
y with the width, and the tree is created although 7 exceeds the width and the scan of the
plot never visits (7, 1); on the 10 x 10 estate of the test x = 200 is rejected. -/
theorem PostEstateIdTree_bounds_swapped :
    PostEstateIdTree (testRepository 5 10) (Except.ok ⟨7, 1, 10⟩) "tree" "estate" =
        (⟨201, ReplyBody.created "tree"⟩,
          [RepoCall.FindEstate { ID := "estate" },
            RepoCall.FindEstateTree { EstateID := "estate", X := 7, Y := 1 },
            RepoCall.CreateEstateTree ⟨"tree", "estate", 7, 1, 10⟩]) ∧
      ¬ ((7 : Int) ≤ 5) ∧
      (⟨7, 1⟩ : CoordinatePoint) ∉ serpentine 5 10 ∧
      PostEstateIdTree (testRepository 10 10) (Except.ok ⟨200, 1, 30⟩) "tree" "estate" =
        (⟨400, ReplyBody.error "coordinate out of bound"⟩,
          [RepoCall.FindEstate { ID := "estate" }]) := by
  decide

/-- Claim C12: for every plot with width >= 1 and length >= 1, the coordinates the planner
looks up during a full traversal (without a budget, or with one whenever it leaves through
the final return) are exactly the serpentine sequence: rows y = 1..length in increasing
order, x = 1..width in odd rows and x = width..1 in even rows; that sequence has no
repetition and holds exactly the cells of the grid. -/
theorem dronePlan_visit_order (fuel : Nat) (estate : Estate) (m : TreeMap)
    (hw : 1 ≤ estate.Width) (hl : 1 ≤ estate.Length)
    (hfw : estate.Width < fuel) (hfl : estate.Length < fuel) :
    (∃ r, dronePlanLog fuel estate m none =
        some (r, serpentine estate.Width.toNat estate.Length.toNat)) ∧
      (∀ b r visited, dronePlanLog fuel estate m b = some (r, visited) → r.1 = Exit.final →
        visited = serpentine estate.Width.toNat estate.Length.toNat) ∧
      (serpentine estate.Width.toNat estate.Length.toNat).Nodup ∧
      (∀ c : CoordinatePoint, c ∈ serpentine estate.Width.toNat estate.Length.toNat ↔
        (1 ≤ c.X ∧ c.X ≤ estate.Width ∧ 1 ≤ c.Y ∧ c.Y ≤ estate.Length)) := by
  have hkw := Int.toNat_of_nonneg (show 0 ≤ estate.Width by omega)
  have hkl := Int.toNat_of_nonneg (show 0 ≤ estate.Length by omega)
  refine ⟨?_, ?_, ?_, ?_⟩
  · obtain ⟨r, lg, hlog, _, hfull⟩ := dronePlanLog_spec fuel estate m none (by omega) (by omega)
      hfw hfl
    have herase := dronePlanLog_erase fuel estate m none
    rw [hlog, dronePlanRun_eq fuel estate m none (by omega) (by omega) hfw hfl,
      planOutcome_none] at herase
    simp only [Option.map_some', Option.some.injEq] at herase
    refine ⟨r, ?_⟩
    rw [hlog, hfull (by rw [herase])]
  · intro b r visited hlog hfinal
    obtain ⟨r2, lg, hlog2, _, hfull⟩ := dronePlanLog_spec fuel estate m b (by omega) (by omega)
      hfw hfl
    rw [hlog] at hlog2
    simp only [Option.some.injEq, Prod.mk.injEq] at hlog2
    obtain ⟨rfl, rfl⟩ := hlog2
    exact hfull hfinal
  · rw [serpentine_eq_cellsFrom]
    exact nodup_cellsFrom _ _ _
  · intro c
    rw [serpentine_eq_cellsFrom, mem_cellsFrom]
    omega

/-- Witness of C12: the 6 x 3 test plot without a budget; the scan starts (1,1), (2,1) and,
after 18 look-ups, ends at (6, 3). -/
theorem dronePlan_visit_order_witness :
    (∃ r, dronePlanLog 7 ⟨"", 6, 3⟩ testMap312 none = some (r, serpentine 6 3)) ∧
      (serpentine 6 3).take 2 = [⟨1, 1⟩, ⟨2, 1⟩] ∧
      (serpentine 6 3).drop 5 = [⟨6, 1⟩, ⟨6, 2⟩, ⟨5, 2⟩, ⟨4, 2⟩, ⟨3, 2⟩, ⟨2, 2⟩, ⟨1, 2⟩,
        ⟨1, 3⟩, ⟨2, 3⟩, ⟨3, 3⟩, ⟨4, 3⟩, ⟨5, 3⟩, ⟨6, 3⟩] :=
  ⟨(dronePlan_visit_order 7 ⟨"", 6, 3⟩ testMap312 (by decide) (by decide) (by decide)
    (by decide)).1, by decide, by decide⟩

/-- Claim C13: for every width >= 1, length >= 1, height map and optional budget, the planner
leaves its loops with a result once the fuel exceeds width and length, after at most
width * length look-ups; and the handler, once the estate and the tree map have been
fetched, answers 200 with that result. -/
theorem dronePlan_total (fuel : Nat) (estate : Estate) (m : TreeMap) (b : Option Int)
    (hw : 1 ≤ estate.Width) (hl : 1 ≤ estate.Length)
    (hfw : estate.Width < fuel) (hfl : estate.Length < fuel) :
    ∃ r visited, dronePlanLog fuel estate m b = some (r, visited) ∧
      dronePlanRun fuel estate m b = some r ∧
      (visited.length : Int) ≤ estate.Width * estate.Length ∧
      (∀ (repo : RepositoryInterface) (estateID : String),
        repo.FindEstate { ID := estateID } = Except.ok estate →
        repo.FindAllMapEstateTree (dronePlanFilter estateID) = Except.ok m →
        GetEstateIdDronePlanHandler fuel repo estateID b =
          some (⟨200, ReplyBody.plan r.2⟩,
            [RepoCall.FindEstate { ID := estateID },
              RepoCall.FindAllMapEstateTree (dronePlanFilter estateID)])) := by
  have hkw := Int.toNat_of_nonneg (show 0 ≤ estate.Width by omega)
  have hkl := Int.toNat_of_nonneg (show 0 ≤ estate.Length by omega)
  obtain ⟨r, lg, hlog, hpre, _⟩ := dronePlanLog_spec fuel estate m b (by omega) (by omega)
    hfw hfl
  have herase := dronePlanLog_erase fuel estate m b
  rw [hlog] at herase
  simp only [Option.map_some'] at herase
  refine ⟨r, lg, hlog, herase.symm, ?_, ?_⟩
  · have hlen := hpre.length_le
    rw [serpentine_eq_cellsFrom, length_cellsFrom] at hlen
    have hcast : (lg.length : Int) ≤ (estate.Length.toNat : Int) * (estate.Width.toNat : Int) := by
      exact_mod_cast hlen
    rw [hkw, hkl] at hcast
    rw [mul_comm]
    exact hcast
  · intro repo estateID h1 h2
    simp only [GetEstateIdDronePlanHandler, h1, h2, GetEstateIdDronePlan, ← herase,
      Option.map_some']

/-- Witness of C13: the 6 x 3 test plot with budget 15 returns after at most 18 look-ups. -/
theorem dronePlan_total_witness :
    ∃ r visited, dronePlanLog 7 ⟨"", 6, 3⟩ testMap312 (some 15) = some (r, visited) ∧
      dronePlanRun 7 ⟨"", 6, 3⟩ testMap312 (some 15) = some r ∧
      (visited.length : Int) ≤ 6 * 3 := by
  obtain ⟨r, visited, h1, h2, h3, _⟩ := dronePlan_total 7 ⟨"", 6, 3⟩ testMap312 (some 15)
    (by decide) (by decide) (by decide) (by decide)
  exact ⟨r, visited, h1, h2, h3⟩

/-- Witness of C18: the filter of the test, estate id with x = 3 and y = 4. -/
theorem setFilterEstateTree_described_witness :
    setFilterEstateTree GetEstateTreeQuery { EstateID := "e1", X := 3, Y := 4 } =
      ("SELECT id, estate_id, created_at, updated_at, deleted_at, x, y, height FROM estate_trees WHERE estate_id = $1 AND x = $2 AND y = $3 AND deleted_at IS NULL",
        [SqlArg.str "e1", SqlArg.int 3, SqlArg.int 4]) := by
  rw [(setFilterEstateTree_described GetEstateTreeQuery { EstateID := "e1", X := 3, Y := 4 }).1]
  decide

/-! ## Bounds on the distance without a budget -/

theorem hopsFrom_lastD_ge_prev (ts : List Int) :
    ∀ prev : Int, 10 * (ts.length : Int) + prev ≤ hopsFrom prev ts + ts.getLastD prev := by
  induction ts with
  | nil => intro prev; simp [hopsFrom, List.getLastD]
  | cons t r ih =>
    intro prev
    have := ih t
    simp only [hopsFrom, List.getLastD_cons, List.length_cons]
    simp only [Nat.cast_add, Nat.cast_one]
    omega

theorem hopsFrom_lastD_ge_mem (ts : List Int) :
    ∀ (prev x : Int), x ∈ ts →
      10 * (ts.length : Int) + 2 * x - prev ≤ hopsFrom prev ts + ts.getLastD prev := by
  induction ts with
  | nil => intro prev x h; simp at h
  | cons t r ih =>
    intro prev x h
    simp only [hopsFrom, List.getLastD_cons, List.length_cons]
    simp only [Nat.cast_add, Nat.cast_one]
    rcases List.mem_cons.1 h with rfl | h
    · have := hopsFrom_lastD_ge_prev r x
      omega
    · have := ih t x h
      omega

theorem serpentineDistance_ge (ts : List Int) (x : Int) (hx : x ∈ ts) :
    10 * ((ts.length : Int) - 1) + 2 * x ≤ serpentineDistance ts := by
  cases ts with
  | nil => simp at hx
  | cons t r =>
    simp only [serpentineDistance, List.headD_cons, List.tail_cons, List.getLastD_cons,
      List.length_cons]
    simp only [Nat.cast_add, Nat.cast_one]
    rcases List.mem_cons.1 hx with rfl | h
    · have := hopsFrom_lastD_ge_prev r x
      omega
    · have := hopsFrom_lastD_ge_mem r t x h
      omega

theorem foldr_max_ge (hs : List Int) : ∀ h ∈ hs, h ≤ hs.foldr max 0 := by
  induction hs with
  | nil => intro h hh; simp at hh
  | cons a r ih =>
    intro h hh
    simp only [List.foldr_cons]
    rcases List.mem_cons.1 hh with rfl | hh
    · exact le_max_left _ _
    · exact le_trans (ih h hh) (le_max_right _ _)

theorem foldr_max_zero_or_mem (hs : List Int) : hs.foldr max 0 = 0 ∨ hs.foldr max 0 ∈ hs := by
  induction hs with
  | nil => exact Or.inl rfl
  | cons a r ih =>
    simp only [List.foldr_cons]
    rcases max_choice a (r.foldr max 0) with h | h
    · exact Or.inr (by rw [h]; exact List.mem_cons_self _ _)
    · rw [h]
      rcases ih with h0 | hmem
      · exact Or.inl h0
      · exact Or.inr (List.mem_cons_of_mem _ hmem)

theorem mem_serpentine (estate : Estate) (hw : 0 ≤ estate.Width) (hl : 0 ≤ estate.Length)
    (c : CoordinatePoint) :
    c ∈ serpentine estate.Width.toNat estate.Length.toNat ↔ inGrid estate c := by
  have hkw := Int.toNat_of_nonneg hw
  have hkl := Int.toNat_of_nonneg hl
  rw [serpentine_eq_cellsFrom, mem_cellsFrom]
  unfold inGrid
  omega

theorem length_clearances (estate : Estate) (m : TreeMap) (hw : 0 ≤ estate.Width)
    (hl : 0 ≤ estate.Length) :
    ((clearances estate m).length : Int) = estate.Width * estate.Length := by
  have hkw := Int.toNat_of_nonneg hw
  have hkl := Int.toNat_of_nonneg hl
  unfold clearances
  rw [List.length_map, serpentine_eq_cellsFrom, length_cellsFrom]
  push_cast
  rw [hkw, hkl, mul_comm]

theorem mem_clearances (estate : Estate) (m : TreeMap) (hw : 0 ≤ estate.Width)
    (hl : 0 ≤ estate.Length) (t : Int) :
    t ∈ clearances estate m ↔ ∃ c, inGrid estate c ∧ (lookupTree m c).Height + 1 = t := by
  unfold clearances
  simp only [List.mem_map, mem_serpentine estate hw hl, lookupTree_height]

theorem dronePlan_none_eq (fuel : Nat) (estate : Estate) (m : TreeMap)
    (hw : 1 ≤ estate.Width) (hl : 1 ≤ estate.Length)
    (hfw : estate.Width < fuel) (hfl : estate.Length < fuel) :
    GetEstateIdDronePlan fuel estate m none =
      some { Distance := serpentineDistance (clearances estate m), Rest := none } := by
  rw [GetEstateIdDronePlan_eq fuel estate m none hw hl hfw hfl, planOutcome_none,
    planDistance_eq estate m hw hl]

/-- On unbounded integers, with non-negative heights in the grid: the distance without a
budget is at least `10 * (width * length - 1) + 2 * (H + 1)`, `H` being the maximum height
over the cells of the grid. -/
theorem dronePlan_lower_bound (fuel : Nat) (estate : Estate) (m : TreeMap)
    (hw : 1 ≤ estate.Width) (hl : 1 ≤ estate.Length)
    (hfw : estate.Width < fuel) (hfl : estate.Length < fuel)
    (hm : ∀ c, inGrid estate c → 0 ≤ (lookupTree m c).Height) :
    ∃ d, GetEstateIdDronePlan fuel estate m none = some { Distance := d, Rest := none } ∧
      10 * (estate.Width * estate.Length - 1) + 2 * (maxHeight estate m + 1) ≤ d ∧
      (∀ c, inGrid estate c → (lookupTree m c).Height ≤ maxHeight estate m) := by
  have hw0 : 0 ≤ estate.Width := by omega
  have hl0 : 0 ≤ estate.Length := by omega
  refine ⟨_, dronePlan_none_eq fuel estate m hw hl hfw hfl, ?_, ?_⟩
  · have hlen := length_clearances estate m hw0 hl0
    have hfirst : inGrid estate ⟨1, 1⟩ := ⟨le_refl _, hw, le_refl _, hl⟩
    have key : ∀ h : Int, (∃ c, inGrid estate c ∧ (lookupTree m c).Height = h) →
        10 * (estate.Width * estate.Length - 1) + 2 * (h + 1) ≤
          serpentineDistance (clearances estate m) := by
      rintro h ⟨c, hc, rfl⟩
      have := serpentineDistance_ge (clearances estate m) ((lookupTree m c).Height + 1)
        ((mem_clearances estate m hw0 hl0 _).2 ⟨c, hc, rfl⟩)
      rw [hlen] at this
      exact this
    rcases foldr_max_zero_or_mem ((serpentine estate.Width.toNat estate.Length.toNat).map
      (fun c => (lookupTree m c).Height)) with h0 | hmem
    · have h1 := key _ ⟨⟨1, 1⟩, hfirst, rfl⟩
      have h2 := hm _ hfirst
      unfold maxHeight
      rw [h0]
      omega
    · apply key
      simp only [List.mem_map, mem_serpentine estate hw0 hl0] at hmem
      exact hmem
  · intro c hc
    apply foldr_max_ge
    simp only [List.mem_map, mem_serpentine estate hw0 hl0]
    exact ⟨c, hc, rfl⟩

theorem hopsFrom_all_one (ts : List Int) (h : ∀ t ∈ ts, t = 1) :
    hopsFrom 1 ts = 10 * (ts.length : Int) ∧ ts.getLastD 1 = 1 := by
  induction ts with
  | nil => simp [hopsFrom, List.getLastD]
  | cons t r ih =>
    have ht : t = 1 := h t (List.mem_cons_self _ _)
    subst ht
    have := ih (fun t ht => h t (List.mem_cons_of_mem _ ht))
    simp only [hopsFrom, List.getLastD_cons, List.length_cons, Nat.cast_add, Nat.cast_one,
      sub_self, Int.natAbs_zero, Nat.cast_zero]
    omega

/-- Claim C22: for every width >= 1 and length >= 1, on a plot that is bare (every cell of
the grid absent from the map or of height 0) the planner without a budget returns distance
`10 * width * length - 8`. -/
theorem dronePlan_bare_plot (fuel : Nat) (estate : Estate) (m : TreeMap)
    (hw : 1 ≤ estate.Width) (hl : 1 ≤ estate.Length)
    (hfw : estate.Width < fuel) (hfl : estate.Length < fuel)
    (hbare : ∀ c, inGrid estate c → (lookupTree m c).Height = 0) :
    GetEstateIdDronePlan fuel estate m none =
      some { Distance := 10 * estate.Width * estate.Length - 8, Rest := none } := by
  have hw0 : 0 ≤ estate.Width := by omega
  have hl0 : 0 ≤ estate.Length := by omega
  rw [dronePlan_none_eq fuel estate m hw hl hfw hfl]
  have hlen := length_clearances estate m hw0 hl0
  have hall : ∀ t ∈ clearances estate m, t = 1 := by
    intro t ht
    obtain ⟨c, hc, rfl⟩ := (mem_clearances estate m hw0 hl0 t).1 ht
    rw [hbare c hc]
    rfl
  have hpos : 1 ≤ estate.Width * estate.Length := one_le_mul_of_one_le_of_one_le hw hl
  cases hts : clearances estate m with
  | nil =>
    rw [hts] at hlen
    simp at hlen
    omega
  | cons t r =>
    rw [hts] at hlen hall
    have ht : t = 1 := hall t (List.mem_cons_self _ _)
    subst ht
    obtain ⟨h1, h2⟩ := hopsFrom_all_one r (fun t ht => hall t (List.mem_cons_of_mem _ ht))
    simp only [List.length_cons, Nat.cast_add, Nat.cast_one] at hlen
    have hd : serpentineDistance (1 :: r) = 10 * estate.Width * estate.Length - 8 := by
      simp only [serpentineDistance, List.headD_cons, List.tail_cons, List.getLastD_cons, h1, h2,
        mul_assoc]
      simp only [Int.natAbs_one, Nat.cast_one]
      omega
    rw [hd]

/-- Witness of C22: the bare 2 x 2 plot, distance 32. -/
theorem dronePlan_bare_plot_witness :
    GetEstateIdDronePlan 3 ⟨"", 2, 2⟩ (mapOfList []) none =
        some { Distance := 10 * 2 * 2 - 8, Rest := none } ∧ (10 * 2 * 2 - 8 : Int) = 32 :=
  ⟨dronePlan_bare_plot 3 ⟨"", 2, 2⟩ (mapOfList []) (by decide) (by decide) (by decide)
    (by decide) (fun _ _ => rfl), by decide⟩

/-! ## Entries outside the grid -/

theorem rowSteps_congr (m m2 : TreeMap) (y : Int) :
    ∀ (xs : List Int) (cur : Int),
      (∀ x ∈ xs, targetHeight m x y = targetHeight m2 x y) →
        rowSteps m y xs cur = rowSteps m2 y xs cur ∧
          rowHeight m y xs cur = rowHeight m2 y xs cur := by
  intro xs
  induction xs with
  | nil => intro cur _; exact ⟨rfl, rfl⟩
  | cons x xs ih =>
    intro cur h
    have hx := h x (List.mem_cons_self _ _)
    have hrest := ih (targetHeight m2 x y) (fun v hv => h v (List.mem_cons_of_mem _ hv))
    cases xs with
    | nil => simp [rowSteps, rowHeight, hx]
    | cons x2 xs =>
      refine ⟨?_, ?_⟩
      · simp only [rowSteps, hx]
        rw [hrest.1]
      · simp only [rowHeight, hx] at hrest ⊢
        exact hrest.2

theorem stepsFrom_congr (estate : Estate) (m m2 : TreeMap) (hw : 0 ≤ estate.Width)
    (hagree : ∀ c, inGrid estate c → (lookupTree m c).Height = (lookupTree m2 c).Height) :
    ∀ (n : Nat) (y cur : Int), 1 ≤ y → estate.Length + 1 = y + n →
      stepsFrom estate m n y cur = stepsFrom estate m2 n y cur ∧
        heightFrom estate m n y cur = heightFrom estate m2 n y cur := by
  intro n
  induction n with
  | zero => intro y cur _ _; exact ⟨rfl, rfl⟩
  | succ n ih =>
    intro y cur hy1 hy
    push_cast at hy
    have hrow := rowSteps_congr m m2 y (rowXs estate.Width y) cur (by
      intro x hx
      have hb := mem_rowXs estate.Width y x hw hx
      unfold targetHeight
      have hyl : y ≤ estate.Length := by omega
      rw [hagree ⟨x, y⟩ ⟨hb.1, hb.2, hy1, hyl⟩])
    have hrec := ih (y + 1) (rowHeight m2 y (rowXs estate.Width y) cur) (by omega) (by omega)
    simp only [stepsFrom, heightFrom, hrow.1, hrow.2, hrec.1, hrec.2, and_self]

theorem planOutcome_congr (estate : Estate) (m m2 : TreeMap) (b : Option Int)
    (hw : 0 ≤ estate.Width) (hl : 0 ≤ estate.Length)
    (hagree : ∀ c, inGrid estate c → (lookupTree m c).Height = (lookupTree m2 c).Height) :
    planOutcome estate m b = planOutcome estate m2 b := by
  have hk := Int.toNat_of_nonneg hl
  have h := stepsFrom_congr estate m m2 hw hagree estate.Length.toNat 1 0 (le_refl 1)
    (by omega)
  have hs : planSteps estate m = planSteps estate m2 := h.1
  have hh : finalHeight estate m = finalHeight estate m2 := h.2
  unfold planOutcome
  rw [hs, hh]

/-- Claim C23: for every plot (width, length >= 1) and budget argument, two height maps with
the same height at every coordinate of the grid give the same planner result, whatever they
hold outside the grid. -/
theorem dronePlan_out_of_grid_ignored (fuel : Nat) (estate : Estate) (m m2 : TreeMap)
    (b : Option Int) (hw : 1 ≤ estate.Width) (hl : 1 ≤ estate.Length)
    (hfw : estate.Width < fuel) (hfl : estate.Length < fuel)
    (hagree : ∀ c, inGrid estate c → (lookupTree m c).Height = (lookupTree m2 c).Height) :
    ∃ r, GetEstateIdDronePlan fuel estate m b = some r ∧
      GetEstateIdDronePlan fuel estate m2 b = some r := by
  refine ⟨_, GetEstateIdDronePlan_eq fuel estate m b hw hl hfw hfl, ?_⟩
  rw [GetEstateIdDronePlan_eq fuel estate m2 b hw hl hfw hfl,
    planOutcome_congr estate m m2 b (by omega) (by omega) hagree]

/-- Witness of C23: the 6 x 3 test map and the same map with a tree of height 100 at
(9, 9), outside the grid, with budget 100. -/
theorem dronePlan_out_of_grid_ignored_witness :
    ∃ r, GetEstateIdDronePlan 7 ⟨"", 6, 3⟩ testMap312 (some 100) = some r ∧
      GetEstateIdDronePlan 7 ⟨"", 6, 3⟩
        (insertTree testMap312 ⟨9, 9⟩ ⟨"", "", 9, 9, 100⟩) (some 100) = some r :=
  dronePlan_out_of_grid_ignored 7 ⟨"", 6, 3⟩ testMap312
    (insertTree testMap312 ⟨9, 9⟩ ⟨"", "", 9, 9, 100⟩) (some 100) (by decide) (by decide)
    (by decide) (by decide) (by
      intro c hc
      have hne : c ≠ ⟨9, 9⟩ := by
        rintro rfl
        have := hc.2.1
        simp at this
      simp [lookupTree, insertTree, hne])

/-! ## Upper bound for heights in [0, 30] -/

theorem getLastD_eq_or_mem (ts : List Int) :
    ∀ d : Int, ts.getLastD d = d ∨ ts.getLastD d ∈ ts := by
  induction ts with
  | nil => intro d; exact Or.inl rfl
  | cons t r ih =>
    intro d
    rw [List.getLastD_cons]
    rcases ih t with h | h
    · exact Or.inr (by rw [h]; exact List.mem_cons_self _ _)
    · exact Or.inr (List.mem_cons_of_mem _ h)

theorem hopsFrom_le (ts : List Int) (h : ∀ t ∈ ts, 1 ≤ t ∧ t ≤ 31) :
    ∀ prev : Int, 1 ≤ prev → prev ≤ 31 → hopsFrom prev ts ≤ 40 * (ts.length : Int) := by
  induction ts with
  | nil => intro prev _ _; simp [hopsFrom]
  | cons t r ih =>
    intro prev h1 h2
    have ht := h t (List.mem_cons_self _ _)
    have := ih (fun v hv => h v (List.mem_cons_of_mem _ hv)) t ht.1 ht.2
    simp only [hopsFrom, List.length_cons, Nat.cast_add, Nat.cast_one]
    omega

theorem serpentineDistance_le (ts : List Int) (h : ∀ t ∈ ts, 1 ≤ t ∧ t ≤ 31) (hne : ts ≠ []) :
    serpentineDistance ts ≤ 40 * (ts.length : Int) + 22 ∧ 1 ≤ ts.getLastD 0 := by
  cases ts with
  | nil => exact absurd rfl hne
  | cons t r =>
    have ht := h t (List.mem_cons_self _ _)
    have hr : ∀ v ∈ r, 1 ≤ v ∧ v ≤ 31 := fun v hv => h v (List.mem_cons_of_mem _ hv)
    have hhops := hopsFrom_le r hr t ht.1 ht.2
    have hlast : 1 ≤ r.getLastD t ∧ r.getLastD t ≤ 31 := by
      rcases getLastD_eq_or_mem r t with h0 | h0
      · rw [h0]; exact ht
      · exact hr _ h0
    simp only [serpentineDistance, List.headD_cons, List.tail_cons, List.getLastD_cons,
      List.length_cons, Nat.cast_add, Nat.cast_one]
    omega

theorem accumulated_nonneg (ss : List Step) (hc : ∀ s ∈ ss, 0 ≤ s.cost) (k : Nat) :
    0 ≤ accumulated ss k :=
  costSum_nonneg _ (fun s hs => hc s (List.mem_of_mem_take hs))

theorem finalHeight_eq (estate : Estate) (m : TreeMap) (hw : 0 ≤ estate.Width) :
    finalHeight estate m = (clearances estate m).getLastD 0 := by
  unfold finalHeight clearances
  rw [heightFrom_eq estate m hw, serpentine_eq_cellsFrom]

/-! ## No wrap-around for heights in [0, 30] and sides up to 50000 -/

theorem wrap64_id (z : Int) (h1 : -9223372036854775808 ≤ z) (h2 : z < 9223372036854775808) :
    wrap64 z = z := by
  unfold wrap64
  omega

theorem absInt_le (d c : Int) (h1 : -c ≤ d) (h2 : d ≤ c) : absInt d ≤ c := by
  unfold absInt
  split <;> omega

theorem innerLoop64_eq (fabs : Int → Int)
    (hfabs : ∀ d : Int, -31 ≤ d → d ≤ 31 → fabs d = absInt d)
    (m : TreeMap) (b : Option Int) (xEnd s y : Int) (hs : s = 1 ∨ s = -1)
    (hxe1 : 0 ≤ xEnd) (hxe2 : xEnd ≤ 50000) :
    ∀ (k fuel : Nat) (x t cur : Int), k < fuel → xEnd + s = x + k * s → k ≤ 50001 →
      0 ≤ t → t + 41 * (k : Int) ≤ 1000000000000 → 0 ≤ cur → cur ≤ 31 →
      (∀ v ∈ countFrom x s k,
        0 ≤ (lookupTree m ⟨v, y⟩).Height ∧ (lookupTree m ⟨v, y⟩).Height ≤ 30) →
      innerLoop64 fabs m b xEnd s y fuel x t cur = innerLoop m b xEnd s y fuel x t cur := by
  have he7 : wrap64 (xEnd + s) = xEnd + s := by
    apply wrap64_id <;> rcases hs with rfl | rfl <;> omega
  intro k
  induction k with
  | zero =>
    intro fuel x t cur hf hx _ _ _ _ _ _
    obtain ⟨f, rfl⟩ : ∃ f, fuel = f + 1 := ⟨fuel - 1, by omega⟩
    have hx2 : x = xEnd + s := by simpa using hx.symm
    simp [innerLoop64, innerLoop, he7, hx2]
  | succ k ih =>
    intro fuel x t cur hf hx hk ht0 htB hc0 hc31 hm
    obtain ⟨f, rfl⟩ : ∃ f, fuel = f + 1 := ⟨fuel - 1, by omega⟩
    push_cast at hx htB
    have hH := hm x (by simp [countFrom])
    have hnext : xEnd + s = (x + s) + k * s := by rw [hx]; ring
    have hmrest : ∀ v ∈ countFrom (x + s) s k,
        0 ≤ (lookupTree m ⟨v, y⟩).Height ∧ (lookupTree m ⟨v, y⟩).Height ≤ 30 :=
      fun v hv => hm v (by simp [countFrom, hv])
    have habs := absInt_le ((lookupTree m ⟨x, y⟩).Height + 1 - cur) 31 (by omega) (by omega)
    have habs0 := absInt_nonneg ((lookupTree m ⟨x, y⟩).Height + 1 - cur)
    have he1 : wrap64 ((lookupTree m ⟨x, y⟩).Height + 1) = (lookupTree m ⟨x, y⟩).Height + 1 := by
      apply wrap64_id <;> omega
    have he2 : wrap64 ((lookupTree m ⟨x, y⟩).Height + 1 - cur) =
        (lookupTree m ⟨x, y⟩).Height + 1 - cur := by
      apply wrap64_id <;> omega
    have he3 : fabs ((lookupTree m ⟨x, y⟩).Height + 1 - cur) =
        absInt ((lookupTree m ⟨x, y⟩).Height + 1 - cur) := hfabs _ (by omega) (by omega)
    have he4 : wrap64 (t + absInt ((lookupTree m ⟨x, y⟩).Height + 1 - cur)) =
        t + absInt ((lookupTree m ⟨x, y⟩).Height + 1 - cur) := by
      apply wrap64_id <;> omega
    have he5 : wrap64 (t + absInt ((lookupTree m ⟨x, y⟩).Height + 1 - cur) + 10) =
        t + absInt ((lookupTree m ⟨x, y⟩).Height + 1 - cur) + 10 := by
      apply wrap64_id <;> omega
    have he6 : wrap64 (x + s) = x + s := by
      apply wrap64_id <;> rcases hs with rfl | rfl <;> omega
    have ih1 := ih f (x + s) (t + absInt ((lookupTree m ⟨x, y⟩).Height + 1 - cur))
      ((lookupTree m ⟨x, y⟩).Height + 1) (by omega) hnext (by omega) (by omega) (by omega)
      (by omega) (by omega) hmrest
    have ih2 := ih f (x + s) (t + absInt ((lookupTree m ⟨x, y⟩).Height + 1 - cur) + 10)
      ((lookupTree m ⟨x, y⟩).Height + 1) (by omega) hnext (by omega) (by omega) (by omega)
      (by omega) (by omega) hmrest
    simp only [innerLoop64, innerLoop, he1, he2, he3, he4, he5, he6, he7, ih1, ih2]

theorem length_countFrom (s : Int) : ∀ (k : Nat) (x : Int), (countFrom x s k).length = k := by
  intro k
  induction k with
  | zero => intro x; rfl
  | succ k ih => intro x; simp [countFrom, ih]

theorem length_rowXs (width y : Int) : (rowXs width y).length = width.toNat := by
  unfold rowXs
  split <;> exact length_countFrom _ _ _

theorem hopsFrom_le_wide (ts : List Int) (h : ∀ t ∈ ts, 1 ≤ t ∧ t ≤ 31) :
    ∀ prev : Int, 0 ≤ prev → prev ≤ 31 → hopsFrom prev ts ≤ 41 * (ts.length : Int) := by
  induction ts with
  | nil => intro prev _ _; simp [hopsFrom]
  | cons t r ih =>
    intro prev h1 h2
    have ht := h t (List.mem_cons_self _ _)
    have := ih (fun v hv => h v (List.mem_cons_of_mem _ hv)) t (by omega) ht.2
    simp only [hopsFrom, List.length_cons, Nat.cast_add, Nat.cast_one]
    omega

theorem row_bounds (estate : Estate) (m : TreeMap) (y cur : Int)
    (hw : 1 ≤ estate.Width) (hy1 : 1 ≤ y) (hy2 : y ≤ estate.Length)
    (hm : ∀ c, inGrid estate c → 0 ≤ (lookupTree m c).Height ∧ (lookupTree m c).Height ≤ 30)
    (hc0 : 0 ≤ cur) (hc31 : cur ≤ 31) :
    0 ≤ costSum (rowSteps m y (rowXs estate.Width y) cur) ∧
      costSum (rowSteps m y (rowXs estate.Width y) cur) + 10 ≤ 41 * estate.Width ∧
      0 ≤ rowHeight m y (rowXs estate.Width y) cur ∧
      rowHeight m y (rowXs estate.Width y) cur ≤ 31 := by
  have hkw := Int.toNat_of_nonneg (show 0 ≤ estate.Width by omega)
  have htargets : ∀ t ∈ (rowXs estate.Width y).map (fun x => targetHeight m x y),
      1 ≤ t ∧ t ≤ 31 := by
    intro t ht
    obtain ⟨x, hx, rfl⟩ := List.mem_map.1 ht
    have hb := mem_rowXs estate.Width y x (by omega) hx
    have := hm ⟨x, y⟩ ⟨hb.1, hb.2, hy1, hy2⟩
    unfold targetHeight
    omega
  have hcost := costSum_rowSteps m y (rowXs estate.Width y) cur (rowXs_ne_nil _ _ hw)
  have hhops := hopsFrom_le_wide _ htargets cur hc0 hc31
  rw [List.length_map, length_rowXs, hkw] at hhops
  have hnn := costSum_nonneg _ (rowSteps_cost_nonneg m y (rowXs estate.Width y) cur)
  refine ⟨hnn, by omega, ?_, ?_⟩
  · rw [rowHeight_eq]
    rcases getLastD_eq_or_mem ((rowXs estate.Width y).map (fun x => targetHeight m x y)) cur
      with h | h
    · rw [h]; exact hc0
    · have := htargets _ h
      omega
  · rw [rowHeight_eq]
    rcases getLastD_eq_or_mem ((rowXs estate.Width y).map (fun x => targetHeight m x y)) cur
      with h | h
    · rw [h]; exact hc31
    · exact (htargets _ h).2

theorem innerLoop64_row (fabs : Int → Int)
    (hfabs : ∀ d : Int, -31 ≤ d → d ≤ 31 → fabs d = absInt d)
    (estate : Estate) (m : TreeMap) (b : Option Int) (y : Int) (fuel : Nat) (t cur : Int)
    (hw1 : 1 ≤ estate.Width) (hw2 : estate.Width ≤ 50000) (hf : estate.Width < fuel)
    (hy1 : 1 ≤ y) (hy2 : y ≤ estate.Length)
    (hm : ∀ c, inGrid estate c → 0 ≤ (lookupTree m c).Height ∧ (lookupTree m c).Height ≤ 30)
    (ht0 : 0 ≤ t) (htB : t + 41 * estate.Width ≤ 1000000000000)
    (hc0 : 0 ≤ cur) (hc31 : cur ≤ 31) :
    innerLoop64 fabs m b (if y % 2 = 1 then estate.Width else 1)
        (if y % 2 = 1 then 1 else -1) y fuel (if y % 2 = 1 then 1 else estate.Width) t cur =
      innerLoop m b (if y % 2 = 1 then estate.Width else 1)
        (if y % 2 = 1 then 1 else -1) y fuel (if y % 2 = 1 then 1 else estate.Width) t cur := by
  have hkw := Int.toNat_of_nonneg (show 0 ≤ estate.Width by omega)
  by_cases hy : y % 2 = 1
  · simp only [hy, if_true]
    apply innerLoop64_eq fabs hfabs m b _ _ y (Or.inl rfl) (by omega) hw2 estate.Width.toNat
      fuel 1 t cur (by omega) (by omega) (by omega) ht0 (by omega) hc0 hc31
    intro v hv
    have := mem_countFrom_up v _ _ hv
    have hv1 : 1 ≤ v := by omega
    have hv2 : v ≤ estate.Width := by omega
    exact hm ⟨v, y⟩ ⟨hv1, hv2, hy1, hy2⟩
  · simp only [hy, if_false]
    apply innerLoop64_eq fabs hfabs m b _ _ y (Or.inr rfl) (by omega) (by omega)
      estate.Width.toNat fuel estate.Width t cur (by omega) (by omega) (by omega) ht0
      (by omega) hc0 hc31
    intro v hv
    have := mem_countFrom_down v _ _ hv
    have hv1 : 1 ≤ v := by omega
    have hv2 : v ≤ estate.Width := by omega
    exact hm ⟨v, y⟩ ⟨hv1, hv2, hy1, hy2⟩

theorem outerLoop64_eq (fabs : Int → Int)
    (hfabs : ∀ d : Int, -31 ≤ d → d ≤ 31 → fabs d = absInt d)
    (estate : Estate) (m : TreeMap) (b : Option Int) (fuelX : Nat)
    (hw1 : 1 ≤ estate.Width) (hw2 : estate.Width ≤ 50000) (hfx : estate.Width < fuelX)
    (hl2 : estate.Length ≤ 50000)
    (hm : ∀ c, inGrid estate c → 0 ≤ (lookupTree m c).Height ∧ (lookupTree m c).Height ≤ 30) :
    ∀ (n fuel : Nat) (y t cur : Int), n < fuel → estate.Length + 1 = y + n → 1 ≤ y →
      0 ≤ t → t + (41 * estate.Width + 10) * (n : Int) ≤ 1000000000000 →
      0 ≤ cur → cur ≤ 31 →
      outerLoop64 fabs estate m b fuelX fuel y t cur =
        outerLoop estate m b fuelX fuel y t cur := by
  intro n
  induction n with
  | zero =>
    intro fuel y t cur hf hy _ _ _ _ _
    obtain ⟨f, rfl⟩ : ∃ f, fuel = f + 1 := ⟨fuel - 1, by omega⟩
    have hgt : ¬ y ≤ estate.Length := by push_cast at hy; omega
    simp [outerLoop64, outerLoop, hgt]
  | succ n ih =>
    intro fuel y t cur hf hy hy1 ht0 htB hc0 hc31
    obtain ⟨f, rfl⟩ : ∃ f, fuel = f + 1 := ⟨fuel - 1, by omega⟩
    have hle : y ≤ estate.Length := by push_cast at hy; omega
    have hnext : estate.Length + 1 = y + 1 + n := by push_cast at hy; omega
    have htm : Int.tmod y 2 = y % 2 := Int.tmod_eq_emod (by omega) (by decide)
    have hprod : (41 * estate.Width + 10) * ((n + 1 : Nat) : Int) =
        (41 * estate.Width + 10) * (n : Int) + (41 * estate.Width + 10) := by
      push_cast
      ring
    have hnn : 0 ≤ (41 * estate.Width + 10) * (n : Int) :=
      mul_nonneg (by omega) (Int.ofNat_nonneg n)
    rw [hprod] at htB
    have hin := innerLoop64_row fabs hfabs estate m b y fuelX t cur hw1 hw2 hfx hy1 hle hm ht0
      (by omega) hc0 hc31
    have hrow := innerLoop_row estate m b y fuelX t cur (by omega) hfx
    have hb := row_bounds estate m y cur hw1 hy1 hle hm hc0 hc31
    have hy64 : wrap64 (y + 1) = y + 1 := by apply wrap64_id <;> omega
    simp only [outerLoop64, outerLoop, hle, if_true, htm, hin, hrow, hy64]
    unfold flowOf
    cases hfo : firstOver b (rowSteps m y (rowXs estate.Width y) cur) t with
    | some p => rfl
    | none =>
      simp only []
      have ht64 : wrap64 (t + costSum (rowSteps m y (rowXs estate.Width y) cur) + 10) =
          t + costSum (rowSteps m y (rowXs estate.Width y) cur) + 10 := by
        apply wrap64_id <;> omega
      have ih1 := ih f (y + 1) (t + costSum (rowSteps m y (rowXs estate.Width y) cur))
        (rowHeight m y (rowXs estate.Width y) cur) (by omega) hnext (by omega) (by omega)
        (by omega) hb.2.2.1 hb.2.2.2
      have ih2 := ih f (y + 1) (t + costSum (rowSteps m y (rowXs estate.Width y) cur) + 10)
        (rowHeight m y (rowXs estate.Width y) cur) (by omega) hnext (by omega) (by omega)
        (by omega) hb.2.2.1 hb.2.2.2
      simp only [ht64, ih1, ih2]

theorem planDistance_bounds (estate : Estate) (m : TreeMap)
    (hw : 1 ≤ estate.Width) (hl : 1 ≤ estate.Length)
    (hm : ∀ c, inGrid estate c → 0 ≤ (lookupTree m c).Height ∧ (lookupTree m c).Height ≤ 30) :
    0 ≤ costSum (planSteps estate m) ∧ 1 ≤ finalHeight estate m ∧
      costSum (planSteps estate m) + finalHeight estate m ≤
        40 * estate.Width * estate.Length + 22 := by
  have hw0 : 0 ≤ estate.Width := by omega
  have hl0 : 0 ≤ estate.Length := by omega
  have hlen := length_clearances estate m hw0 hl0
  have hpos : 1 ≤ estate.Width * estate.Length := one_le_mul_of_one_le_of_one_le hw hl
  have hall : ∀ t ∈ clearances estate m, 1 ≤ t ∧ t ≤ 31 := by
    intro t ht
    obtain ⟨c, hc, rfl⟩ := (mem_clearances estate m hw0 hl0 t).1 ht
    have := hm c hc
    omega
  have hne : clearances estate m ≠ [] := by
    intro h
    rw [h] at hlen
    simp at hlen
    omega
  have hd := serpentineDistance_le (clearances estate m) hall hne
  rw [hlen] at hd
  refine ⟨costSum_nonneg _ (planSteps_cost_nonneg estate m), ?_, ?_⟩
  · rw [finalHeight_eq estate m hw0]
    exact hd.2
  · rw [planDistance_eq estate m hw hl, mul_assoc]
    exact hd.1

theorem dronePlanRun64_eq (fabs : Int → Int)
    (hfabs : ∀ d : Int, -31 ≤ d → d ≤ 31 → fabs d = absInt d)
    (fuel : Nat) (estate : Estate) (m : TreeMap) (b : Option Int)
    (hw1 : 1 ≤ estate.Width) (hw2 : estate.Width ≤ 50000)
    (hl1 : 1 ≤ estate.Length) (hl2 : estate.Length ≤ 50000)
    (hfw : estate.Width < fuel) (hfl : estate.Length < fuel)
    (hm : ∀ c, inGrid estate c → 0 ≤ (lookupTree m c).Height ∧ (lookupTree m c).Height ≤ 30) :
    dronePlanRun64 fabs fuel estate m b = dronePlanRun fuel estate m b := by
  have hkl := Int.toNat_of_nonneg (show 0 ≤ estate.Length by omega)
  have hprod : (41 * estate.Width + 10) * (estate.Length.toNat : Int) ≤ 2050010 * 50000 :=
    mul_le_mul (by omega) (by omega) (by omega) (by omega)
  have hwl : estate.Width * estate.Length ≤ 50000 * 50000 :=
    mul_le_mul hw2 hl2 (by omega) (by omega)
  have hout := outerLoop64_eq fabs hfabs estate m b fuel hw1 hw2 hfw hl2 hm
    estate.Length.toNat fuel 1 0 0 (by omega) (by omega) (le_refl 1) (le_refl 0) (by omega)
    (le_refl 0) (by omega)
  have hlog := outerLoop_eq estate m b fuel (by omega) hfw estate.Length.toNat fuel 1 0 0
    (by omega) (by omega)
  have hbd := planDistance_bounds estate m hw1 hl1 hm
  rw [mul_assoc] at hbd
  unfold dronePlanRun64 dronePlanRun
  rw [hout, hlog]
  unfold flowOf
  cases firstOver b (stepsFrom estate m estate.Length.toNat 1 0) 0 with
  | some p => rfl
  | none =>
    have h64 : wrap64 (0 + costSum (stepsFrom estate m estate.Length.toNat 1 0) +
        heightFrom estate m estate.Length.toNat 1 0) =
        0 + costSum (stepsFrom estate m estate.Length.toNat 1 0) +
          heightFrom estate m estate.Length.toNat 1 0 := by
      have h1 : costSum (stepsFrom estate m estate.Length.toNat 1 0) =
          costSum (planSteps estate m) := rfl
      have h2 : heightFrom estate m estate.Length.toNat 1 0 = finalHeight estate m := rfl
      rw [h1, h2]
      apply wrap64_id <;> omega
    simp only [h64]

theorem lookupTree_mapOfList_range (l : List (CoordinatePoint × EstateTree)) (lo hi : Int)
    (h0 : lo ≤ 0 ∧ 0 ≤ hi) (h : ∀ e ∈ l, lo ≤ e.2.Height ∧ e.2.Height ≤ hi)
    (p : CoordinatePoint) :
    lo ≤ (lookupTree (mapOfList l) p).Height ∧ (lookupTree (mapOfList l) p).Height ≤ hi := by
  unfold lookupTree mapOfList
  cases hf : l.find? (fun e => decide (e.1 = p)) with
  | none => simpa [zeroTree] using h0
  | some e =>
    simp only [Option.map_some', Option.getD_some]
    exact h e (List.mem_of_find?_eq_some hf)

/-- Claim C24: for every plot (width, length >= 1) and every height map whose heights in the
grid lie in [0, 30], every accumulated total and every returned distance lies between 0 and
`40 * width * length + 22`; so for width, length <= 50000 all of them are below 2^63, and the
loops run on 64-bit integers, with any conversion through float64 that is exact up to 2^53,
return what the loops on unbounded integers return: nothing wraps. -/
theorem dronePlan_upper_bound (fuel : Nat) (estate : Estate) (m : TreeMap)
    (hw : 1 ≤ estate.Width) (hl : 1 ≤ estate.Length)
    (hfw : estate.Width < fuel) (hfl : estate.Length < fuel)
    (hm : ∀ c, inGrid estate c → 0 ≤ (lookupTree m c).Height ∧ (lookupTree m c).Height ≤ 30) :
    (∀ k, 0 ≤ accumulated (planSteps estate m) k ∧
        accumulated (planSteps estate m) k ≤ 40 * estate.Width * estate.Length + 22) ∧
      (∀ b : Option Int, ∃ r, GetEstateIdDronePlan fuel estate m b = some r ∧
        0 ≤ r.Distance ∧ r.Distance ≤ 40 * estate.Width * estate.Length + 22) ∧
      (estate.Width ≤ 50000 → estate.Length ≤ 50000 →
        40 * estate.Width * estate.Length + 22 < 9223372036854775808 ∧
        ∀ (fabs : Int → Int),
          (∀ d : Int, -9007199254740992 ≤ d → d ≤ 9007199254740992 → fabs d = absInt d) →
          ∀ b : Option Int,
            dronePlanRun64 fabs fuel estate m b = dronePlanRun fuel estate m b) := by
  have hbd := planDistance_bounds estate m hw hl hm
  have hc := planSteps_cost_nonneg estate m
  refine ⟨fun k => ⟨accumulated_nonneg _ hc k, ?_⟩, fun b => ?_, fun hw2 hl2 => ⟨?_, ?_⟩⟩
  · have := accumulated_le_costSum (planSteps estate m) hc k
    omega
  · refine ⟨_, GetEstateIdDronePlan_eq fuel estate m b hw hl hfw hfl, ?_⟩
    cases b with
    | none =>
      rw [planOutcome_none]
      simp only
      omega
    | some v =>
      cases hfo : firstOver (some v) (planSteps estate m) 0 with
      | none =>
        rw [planOutcome_not_over estate m v hfo]
        simp only [setResponseMaxDistance]
        omega
      | some p =>
        obtain ⟨s, d⟩ := p
        rw [planOutcome_over estate m v s d hfo]
        have h1 := firstOver_le_total v _ hc 0 s d hfo
        have h2 := firstOver_ge_start v _ hc 0 s d hfo
        simp only [setResponseMaxDistance]
        omega
  · have hwl : estate.Width * estate.Length ≤ 50000 * 50000 :=
      mul_le_mul hw2 hl2 (by omega) (by omega)
    rw [mul_assoc]
    omega
  · intro fabs hfabs b
    exact dronePlanRun64_eq fabs (fun d h1 h2 => hfabs d (by omega) (by omega)) fuel estate m b
      hw hw2 hl hl2 hfw hfl hm

/-- Witness of C24: the 6 x 3 test plot, whose heights are at most 30: the distance 312 is
at most 742, and the 64-bit run with budget 100 returns what the unbounded one returns. -/
theorem dronePlan_upper_bound_witness :
    (∃ r, GetEstateIdDronePlan 7 ⟨"", 6, 3⟩ testMap312 none = some r ∧
        0 ≤ r.Distance ∧ r.Distance ≤ 40 * 6 * 3 + 22) ∧
      (40 * 6 * 3 + 22 : Int) < 9223372036854775808 ∧
      dronePlanRun64 absInt 7 ⟨"", 6, 3⟩ testMap312 (some 100) =
        dronePlanRun 7 ⟨"", 6, 3⟩ testMap312 (some 100) ∧
      dronePlanRun64 absInt 7 ⟨"", 6, 3⟩ testMap312 (some 100) =
        some (Exit.checkA, { Distance := 105, Rest := some ⟨6, 2⟩ }) := by
  have h := dronePlan_upper_bound 7 ⟨"", 6, 3⟩ testMap312 (by decide) (by decide) (by decide)
    (by decide) (fun c _ => lookupTree_mapOfList_range _ 0 30 (by decide) (by decide) c)
  have h3 := h.2.2 (by decide) (by decide)
  exact ⟨h.2.1 none, h3.1, h3.2 absInt (fun _ _ _ => rfl) (some 100), by decide⟩

/-! ## The conversion through float64 -/

theorem float64Abs_exact (d : Int) (h1 : -9007199254740992 ≤ d) (h2 : d ≤ 9007199254740992) :
    float64Abs d = absInt d := by
  rw [absInt_eq_natAbs]
  by_cases hlt : d.natAbs < 9007199254740992
  · have hs : float64Shift 11 d.natAbs = 0 := by simp [float64Shift, hlt]
    have hr : float64Round d.natAbs = d.natAbs := by
      simp [float64Round, hs, Nat.mod_one]
    rw [float64Abs, hr]
    unfold wrap64
    omega
  · have hd : d = 9007199254740992 ∨ d = -9007199254740992 := by omega
    rcases hd with rfl | rfl <;> decide

/-! ## The 64-bit run that reaches the final return -/

theorem innerLoop64_ret_exit (fabs : Int → Int) (m : TreeMap) (b : Option Int)
    (xEnd s y : Int) :
    ∀ (fuel : Nat) (x t cur : Int) (e : Exit) (r : EstateDronePlanResponse),
      innerLoop64 fabs m b xEnd s y fuel x t cur = some (Flow.ret e r) → e ≠ Exit.final := by
  intro fuel
  induction fuel with
  | zero => intro x t cur e r h; simp [innerLoop64] at h
  | succ f ih =>
    intro x t cur e r h
    simp only [innerLoop64] at h
    split_ifs at h with h1 h2 h3 h4
    · simp only [Option.some.injEq, Flow.ret.injEq] at h
      rw [← h.1]
      decide
    · simp only [Option.some.injEq, Flow.ret.injEq] at h
      rw [← h.1]
      decide
    · exact ih _ _ _ e r h
    · exact ih _ _ _ e r h
    · simp at h

theorem outerLoop64_ret_exit (fabs : Int → Int) (estate : Estate) (m : TreeMap)
    (b : Option Int) (fuelX : Nat) :
    ∀ (fuel : Nat) (y t cur : Int) (e : Exit) (r : EstateDronePlanResponse),
      outerLoop64 fabs estate m b fuelX fuel y t cur = some (Flow.ret e r) →
        e ≠ Exit.final := by
  intro fuel
  induction fuel with
  | zero => intro y t cur e r h; simp [outerLoop64] at h
  | succ f ih =>
    intro y t cur e r h
    by_cases h1 : y ≤ estate.Length
    · simp only [outerLoop64, h1, if_true] at h
      cases hin : innerLoop64 fabs m b (if Int.tmod y 2 = 1 then estate.Width else 1)
          (if Int.tmod y 2 = 1 then 1 else -1) y fuelX
          (if Int.tmod y 2 = 1 then 1 else estate.Width) t cur with
      | none => simp [hin] at h
      | some fl =>
        cases fl with
        | ret e2 r2 =>
          simp only [hin, Option.some.injEq, Flow.ret.injEq] at h
          have := innerLoop64_ret_exit fabs m b _ _ _ _ _ _ _ e2 r2 hin
          rw [← h.1]
          exact this
        | next t2 c2 =>
          simp only [hin] at h
          by_cases h2 : y = estate.Length
          · simp only [h2, ne_eq, not_true_eq_false, if_false] at h
            exact ih _ _ _ e r h
          · simp only [ne_eq, h2, not_false_eq_true, if_true] at h
            by_cases h3 : overBudget b (wrap64 (t2 + 10)) = true
            · simp only [h3, if_true, Option.some.injEq, Flow.ret.injEq] at h
              rw [← h.1]
              decide
            · simp only [h3, if_false] at h
              exact ih _ _ _ e r h
    · simp [outerLoop64, h1] at h

theorem innerLoop64_next_none (fabs : Int → Int) (m : TreeMap) (b : Option Int)
    (xEnd s y : Int) :
    ∀ (fuel : Nat) (x t cur t2 c2 : Int),
      innerLoop64 fabs m b xEnd s y fuel x t cur = some (Flow.next t2 c2) →
        innerLoop64 fabs m none xEnd s y fuel x t cur = some (Flow.next t2 c2) := by
  intro fuel
  induction fuel with
  | zero => intro x t cur t2 c2 h; simp [innerLoop64] at h
  | succ f ih =>
    intro x t cur t2 c2 h
    simp only [innerLoop64] at h ⊢
    split_ifs at h with h1 h2 h3 h4
    · simp at h
    · simp at h
    · have := ih _ _ _ t2 c2 h
      simp only [h1, h3, overBudget, if_true, ne_eq, not_false_eq_true, Bool.false_eq_true,
        if_false]
      exact this
    · have := ih _ _ _ t2 c2 h
      simp only [h1, h3, overBudget, if_true, ne_eq, not_false_eq_true, Bool.false_eq_true,
        if_false]
      exact this
    · simp only [h1, if_false]
      exact h

theorem outerLoop64_next_none (fabs : Int → Int) (estate : Estate) (m : TreeMap)
    (b : Option Int) (fuelX : Nat) :
    ∀ (fuel : Nat) (y t cur t2 c2 : Int),
      outerLoop64 fabs estate m b fuelX fuel y t cur = some (Flow.next t2 c2) →
        outerLoop64 fabs estate m none fuelX fuel y t cur = some (Flow.next t2 c2) := by
  intro fuel
  induction fuel with
  | zero => intro y t cur t2 c2 h; simp [outerLoop64] at h
  | succ f ih =>
    intro y t cur t2 c2 h
    by_cases h1 : y ≤ estate.Length
    · simp only [outerLoop64, h1, if_true] at h ⊢
      cases hin : innerLoop64 fabs m b (if Int.tmod y 2 = 1 then estate.Width else 1)
          (if Int.tmod y 2 = 1 then 1 else -1) y fuelX
          (if Int.tmod y 2 = 1 then 1 else estate.Width) t cur with
      | none => simp [hin] at h
      | some fl =>
        cases fl with
        | ret e2 r2 => simp [hin] at h
        | next t3 c3 =>
          simp only [hin] at h
          rw [innerLoop64_next_none fabs m b _ _ _ _ _ _ _ t3 c3 hin]
          by_cases h2 : y = estate.Length
          · simp only [h2, ne_eq, not_true_eq_false, if_false] at h ⊢
            exact ih _ _ _ t2 c2 h
          · simp only [ne_eq, h2, not_false_eq_true, if_true] at h ⊢
            by_cases h3 : overBudget b (wrap64 (t3 + 10)) = true
            · simp [h3] at h
            · simp only [h3, if_false] at h
              simp only [overBudget, Bool.false_eq_true, if_false]
              exact ih _ _ _ t2 c2 h
    · simp only [outerLoop64, h1, if_false] at h ⊢
      exact h

theorem dronePlanRun64_final (fabs : Int → Int) (fuel : Nat) (estate : Estate) (m : TreeMap)
    (b : Int) (r : EstateDronePlanResponse)
    (h : dronePlanRun64 fabs fuel estate m (some b) = some (Exit.final, r)) :
    r.Rest = some ⟨estate.Width, estate.Length⟩ ∧
      dronePlanRun64 fabs fuel estate m none =
        some (Exit.final, { Distance := r.Distance, Rest := none }) := by
  unfold dronePlanRun64 at h ⊢
  cases hout : outerLoop64 fabs estate m (some b) fuel fuel 1 0 0 with
  | none => simp [hout] at h
  | some fl =>
    cases fl with
    | ret e2 r2 =>
      simp only [hout, Option.some.injEq, Prod.mk.injEq] at h
      exact absurd h.1 (outerLoop64_ret_exit fabs estate m (some b) fuel fuel _ _ _ e2 r2 hout)
    | next t2 c2 =>
      simp only [hout, Option.some.injEq, Prod.mk.injEq, true_and] at h
      rw [outerLoop64_next_none fabs estate m (some b) fuel fuel _ _ _ t2 c2 hout, ← h]
      exact ⟨rfl, rfl⟩

/-! ## The cell at which the serpentine scan ends -/

theorem getLast?_serpentineRow (w : Nat) (y : Int) :
    (serpentineRow (w + 1) y).getLast? =
      some (if y % 2 = 1 then ⟨(w : Int) + 1, y⟩ else ⟨1, y⟩) := by
  unfold serpentineRow
  by_cases h : y % 2 = 1
  · simp only [h, if_true, List.range_succ, List.map_append, List.map_cons, List.map_nil]
    simp
  · simp only [h, if_false, List.range_succ_eq_map, List.map_cons, List.reverse_cons,
      List.map_append, List.map_nil]
    simp

theorem getLast?_cellsFrom (w : Nat) :
    ∀ (n : Nat) (y : Int),
      (cellsFrom (w + 1) (n + 1) y).getLast? = (serpentineRow (w + 1) (y + n)).getLast? := by
  intro n
  induction n with
  | zero =>
    intro y
    rw [cellsFrom_succ]
    simp [cellsFrom]
  | succ n ih =>
    intro y
    have hy : y + 1 + (n : Int) = y + ((n + 1 : Nat) : Int) := by
      simp only [Nat.cast_add, Nat.cast_one]
      omega
    rw [cellsFrom_succ, List.getLast?_append, ih (y + 1), hy, getLast?_serpentineRow]
    rfl

theorem getLast?_serpentine (estate : Estate) (hw : 1 ≤ estate.Width)
    (hl : 1 ≤ estate.Length) :
    (serpentine estate.Width.toNat estate.Length.toNat).getLast? =
      some (if estate.Length % 2 = 1 then ⟨estate.Width, estate.Length⟩
        else ⟨1, estate.Length⟩) := by
  obtain ⟨w, hw2⟩ : ∃ w, estate.Width.toNat = w + 1 := ⟨estate.Width.toNat - 1, by omega⟩
  obtain ⟨n, hn⟩ : ∃ n, estate.Length.toNat = n + 1 := ⟨estate.Length.toNat - 1, by omega⟩
  have hW : estate.Width = (w : Int) + 1 := by omega
  have hL : estate.Length = 1 + (n : Int) := by omega
  rw [serpentine_eq_cellsFrom, hw2, hn, getLast?_cellsFrom, getLast?_serpentineRow, ← hW, ← hL]

/-! ## The program on the plots and heights the handlers admit -/

theorem dronePlanRun64_exact (fabs : Int → Int)
    (hfabs : ∀ d : Int, -9007199254740992 ≤ d → d ≤ 9007199254740992 → fabs d = absInt d)
    (fuel : Nat) (estate : Estate) (m : TreeMap) (b : Option Int)
    (hw1 : 1 ≤ estate.Width) (hw2 : estate.Width ≤ 50000)
    (hl1 : 1 ≤ estate.Length) (hl2 : estate.Length ≤ 50000)
    (hfw : estate.Width < fuel) (hfl : estate.Length < fuel)
    (hm : ∀ c, inGrid estate c → 0 ≤ (lookupTree m c).Height ∧ (lookupTree m c).Height ≤ 30) :
    dronePlanRun64 fabs fuel estate m b = some (planOutcome estate m b) := by
  rw [dronePlanRun64_eq fabs (fun d h1 h2 => hfabs d (by omega) (by omega)) fuel estate m b
    hw1 hw2 hl1 hl2 hfw hfl hm]
  exact dronePlanRun_eq fuel estate m b (by omega) (by omega) hfw hfl

theorem GetEstateIdDronePlan64_exact (fabs : Int → Int)
    (hfabs : ∀ d : Int, -9007199254740992 ≤ d → d ≤ 9007199254740992 → fabs d = absInt d)
    (fuel : Nat) (estate : Estate) (m : TreeMap) (b : Option Int)
    (hw1 : 1 ≤ estate.Width) (hw2 : estate.Width ≤ 50000)
    (hl1 : 1 ≤ estate.Length) (hl2 : estate.Length ≤ 50000)
    (hfw : estate.Width < fuel) (hfl : estate.Length < fuel)
    (hm : ∀ c, inGrid estate c → 0 ≤ (lookupTree m c).Height ∧ (lookupTree m c).Height ≤ 30) :
    GetEstateIdDronePlan64 fabs fuel estate m b = GetEstateIdDronePlan fuel estate m b := by
  unfold GetEstateIdDronePlan64 GetEstateIdDronePlan
  rw [dronePlanRun64_eq fabs (fun d h1 h2 => hfabs d (by omega) (by omega)) fuel estate m b
    hw1 hw2 hl1 hl2 hfw hfl hm]

theorem clearances_head_nonneg (estate : Estate) (m : TreeMap)
    (hw : 0 ≤ estate.Width) (hl : 0 ≤ estate.Length)
    (hm : ∀ c, inGrid estate c → 0 ≤ (lookupTree m c).Height) :
    0 ≤ (clearances estate m).headD 0 := by
  have hall : ∀ t ∈ clearances estate m, 0 ≤ t := by
    intro t ht
    obtain ⟨c, hc, rfl⟩ := (mem_clearances estate m hw hl t).1 ht
    have := hm c hc
    omega
  cases hcl : clearances estate m with
  | nil => simp
  | cons t r =>
    rw [hcl] at hall
    simpa using hall t (by simp)

/-- Claim C1, as amended: for every plot with sides from 1 to 50000 and every height map whose
heights in the grid lie in [0, 30] (the ranges the handlers admit), the planner on 64-bit
integers, with no budget, returns distance
`T_1 + sum over i = 2..n of (10 + |T_i - T_(i-1)|) + T_n` and no resting coordinate, the
`T_i` being the `n = width * length` clearances in serpentine order. -/
theorem dronePlan64_distance_formula (fabs : Int → Int) (fuel : Nat) (estate : Estate)
    (m : TreeMap)
    (hfabs : ∀ d : Int, -9007199254740992 ≤ d → d ≤ 9007199254740992 → fabs d = absInt d)
    (hw1 : 1 ≤ estate.Width) (hw2 : estate.Width ≤ 50000)
    (hl1 : 1 ≤ estate.Length) (hl2 : estate.Length ≤ 50000)
    (hfw : estate.Width < fuel) (hfl : estate.Length < fuel)
    (hm : ∀ c, inGrid estate c → 0 ≤ (lookupTree m c).Height ∧ (lookupTree m c).Height ≤ 30) :
    GetEstateIdDronePlan64 fabs fuel estate m none =
        some { Distance := claimedDistance (clearances estate m), Rest := none } ∧
      ((clearances estate m).length : Int) = estate.Width * estate.Length := by
  refine ⟨?_, length_clearances estate m (by omega) (by omega)⟩
  rw [GetEstateIdDronePlan64_exact fabs hfabs fuel estate m none hw1 hw2 hl1 hl2 hfw hfl hm]
  exact (dronePlan_serpentine_distance fuel estate m hw1 hl1 hfw hfl).2
    (clearances_head_nonneg estate m (by omega) (by omega) (fun c hc => (hm c hc).1))

/-- Witness of C1: the 5 x 1 test plot with trees (2,1)=5, (3,1)=3, (4,1)=4, with the
float64 conversion of the program: the distance is 54. -/
theorem dronePlan64_distance_formula_witness :
    GetEstateIdDronePlan64 float64Abs 6 ⟨"", 5, 1⟩ testMap54 none =
        some { Distance := claimedDistance (clearances ⟨"", 5, 1⟩ testMap54), Rest := none } ∧
      claimedDistance (clearances ⟨"", 5, 1⟩ testMap54) = 54 :=
  ⟨(dronePlan64_distance_formula float64Abs 6 ⟨"", 5, 1⟩ testMap54 float64Abs_exact (by decide)
    (by decide) (by decide) (by decide) (by decide) (by decide)
    (fun c _ => lookupTree_mapOfList_range _ 0 30 (by decide) (by decide) c)).1, by decide⟩

/-- Counterexample to C1 as stated: on a 1 x 1 plot whose cell holds a tree of height `2^53`
the first climb, `2^53 + 1`, is rounded to `2^53` by the conversion through float64; the
planner returns `2^54 + 1`, while `T_1 + T_n` is `2^54 + 2`. -/
theorem dronePlan64_distance_formula_rounds :
    GetEstateIdDronePlan64 float64Abs 2 ⟨"", 1, 1⟩ testMapTall none =
        some { Distance := 18014398509481985, Rest := none } ∧
      claimedDistance (clearances ⟨"", 1, 1⟩ testMapTall) = 18014398509481986 := by
  decide

/-- Claim C9, as amended: for every plot with sides from 1 to 50000, every height map whose
heights in the grid lie in [0, 30] and every budget, the distance the planner on 64-bit
integers returns with the budget is at most the distance it returns without one. -/
theorem dronePlan64_budget_le_full (fabs : Int → Int) (fuel : Nat) (estate : Estate)
    (m : TreeMap) (b : Int)
    (hfabs : ∀ d : Int, -9007199254740992 ≤ d → d ≤ 9007199254740992 → fabs d = absInt d)
    (hw1 : 1 ≤ estate.Width) (hw2 : estate.Width ≤ 50000)
    (hl1 : 1 ≤ estate.Length) (hl2 : estate.Length ≤ 50000)
    (hfw : estate.Width < fuel) (hfl : estate.Length < fuel)
    (hm : ∀ c, inGrid estate c → 0 ≤ (lookupTree m c).Height ∧ (lookupTree m c).Height ≤ 30) :
    ∃ r0 rb, GetEstateIdDronePlan64 fabs fuel estate m none = some r0 ∧
      GetEstateIdDronePlan64 fabs fuel estate m (some b) = some rb ∧
      rb.Distance ≤ r0.Distance := by
  rw [GetEstateIdDronePlan64_exact fabs hfabs fuel estate m none hw1 hw2 hl1 hl2 hfw hfl hm,
    GetEstateIdDronePlan64_exact fabs hfabs fuel estate m (some b) hw1 hw2 hl1 hl2 hfw hfl hm]
  have hh := (planDistance_bounds estate m hw1 hl1 hm).2.1
  exact dronePlan_budget_le_full fuel estate m b hw1 hl1 hfw hfl (by omega)

/-- Witness of C9: the 6 x 3 test plot with budget 100 returns 105, at most the 312 it
returns without a budget. -/
theorem dronePlan64_budget_le_full_witness :
    ∃ r0 rb, GetEstateIdDronePlan64 float64Abs 7 ⟨"", 6, 3⟩ testMap312 none = some r0 ∧
      GetEstateIdDronePlan64 float64Abs 7 ⟨"", 6, 3⟩ testMap312 (some 100) = some rb ∧
      rb.Distance ≤ r0.Distance :=
  dronePlan64_budget_le_full float64Abs 7 ⟨"", 6, 3⟩ testMap312 100 float64Abs_exact (by decide)
    (by decide) (by decide) (by decide) (by decide) (by decide)
    (fun c _ => lookupTree_mapOfList_range _ 0 30 (by decide) (by decide) c)

/-- Counterexample to C9 as stated: on a 2 x 1 plot with a tree of height `2^62` at (1, 1)
the total passes `2^63` in the second cell and wraps; without a budget the planner returns
`-9223372036854775797`, with budget 0 it stops in the first cell and returns `2^62`. -/
theorem dronePlan64_budget_le_full_wraps :
    GetEstateIdDronePlan64 float64Abs 3 ⟨"", 2, 1⟩ testMapHuge none =
        some { Distance := -9223372036854775797, Rest := none } ∧
      GetEstateIdDronePlan64 float64Abs 3 ⟨"", 2, 1⟩ testMapHuge (some 0) =
        some { Distance := 4611686018427387904, Rest := some ⟨1, 1⟩ } ∧
      ¬ ((4611686018427387904 : Int) ≤ -9223372036854775797) ∧
      (∀ c, 0 ≤ (lookupTree testMapHuge c).Height) :=
  ⟨by decide, by decide, by decide,
    fun c => (lookupTree_mapOfList_range _ 0 4611686018427387904 (by decide) (by decide) c).1⟩

/-- Claim C10, as amended: for every plot with sides from 1 to 50000, every height map whose
heights in the grid lie in [0, 30] and all budgets `b1 <= b2`, the distance the planner on
64-bit integers returns with budget `b1` is at most the distance it returns with budget
`b2`. -/
theorem dronePlan64_budget_mono (fabs : Int → Int) (fuel : Nat) (estate : Estate)
    (m : TreeMap) (b1 b2 : Int)
    (hfabs : ∀ d : Int, -9007199254740992 ≤ d → d ≤ 9007199254740992 → fabs d = absInt d)
    (hw1 : 1 ≤ estate.Width) (hw2 : estate.Width ≤ 50000)
    (hl1 : 1 ≤ estate.Length) (hl2 : estate.Length ≤ 50000)
    (hfw : estate.Width < fuel) (hfl : estate.Length < fuel)
    (hm : ∀ c, inGrid estate c → 0 ≤ (lookupTree m c).Height ∧ (lookupTree m c).Height ≤ 30)
    (hb : b1 ≤ b2) :
    ∃ r1 r2, GetEstateIdDronePlan64 fabs fuel estate m (some b1) = some r1 ∧
      GetEstateIdDronePlan64 fabs fuel estate m (some b2) = some r2 ∧
      r1.Distance ≤ r2.Distance := by
  rw [GetEstateIdDronePlan64_exact fabs hfabs fuel estate m (some b1) hw1 hw2 hl1 hl2 hfw hfl hm,
    GetEstateIdDronePlan64_exact fabs hfabs fuel estate m (some b2) hw1 hw2 hl1 hl2 hfw hfl hm]
  have hh := (planDistance_bounds estate m hw1 hl1 hm).2.1
  exact dronePlan_budget_mono fuel estate m b1 b2 hw1 hl1 hfw hfl (by omega) hb

/-- Witness of C10: on the 6 x 3 test plot budget 80 returns 81 and budget 100 returns
105. -/
theorem dronePlan64_budget_mono_witness :
    ∃ r1 r2, GetEstateIdDronePlan64 float64Abs 7 ⟨"", 6, 3⟩ testMap312 (some 80) = some r1 ∧
      GetEstateIdDronePlan64 float64Abs 7 ⟨"", 6, 3⟩ testMap312 (some 100) = some r2 ∧
      r1.Distance ≤ r2.Distance :=
  dronePlan64_budget_mono float64Abs 7 ⟨"", 6, 3⟩ testMap312 80 100 float64Abs_exact (by decide)
    (by decide) (by decide) (by decide) (by decide) (by decide)
    (fun c _ => lookupTree_mapOfList_range _ 0 30 (by decide) (by decide) c) (by decide)

/-- Counterexample to C10 as stated: on a 2 x 1 plot with a tree of height `2^62` at (1, 1),
budget 0 returns `2^62` and the larger budget `2^63 - 1`, never exceeded, returns the
wrapped total `-9223372036854775797`. -/
theorem dronePlan64_budget_mono_wraps :
    GetEstateIdDronePlan64 float64Abs 3 ⟨"", 2, 1⟩ testMapHuge (some 0) =
        some { Distance := 4611686018427387904, Rest := some ⟨1, 1⟩ } ∧
      GetEstateIdDronePlan64 float64Abs 3 ⟨"", 2, 1⟩ testMapHuge (some 9223372036854775807) =
        some { Distance := -9223372036854775797, Rest := some ⟨2, 1⟩ } ∧
      (0 : Int) ≤ 9223372036854775807 ∧
      ¬ ((4611686018427387904 : Int) ≤ -9223372036854775797) ∧
      (∀ c, 0 ≤ (lookupTree testMapHuge c).Height) :=
  ⟨by decide, by decide, by decide, by decide,
    fun c => (lookupTree_mapOfList_range _ 0 4611686018427387904 (by decide) (by decide) c).1⟩

/-- Claim C21, as amended: for every plot with sides from 1 to 50000 and every height map whose
heights in the grid lie in [0, 30], the distance the planner on 64-bit integers returns
without a budget is at least `10 * (width * length - 1) + 2 * (H + 1)`, `H` being the
maximum height over the cells of the grid. -/
theorem dronePlan64_lower_bound (fabs : Int → Int) (fuel : Nat) (estate : Estate)
    (m : TreeMap)
    (hfabs : ∀ d : Int, -9007199254740992 ≤ d → d ≤ 9007199254740992 → fabs d = absInt d)
    (hw1 : 1 ≤ estate.Width) (hw2 : estate.Width ≤ 50000)
    (hl1 : 1 ≤ estate.Length) (hl2 : estate.Length ≤ 50000)
    (hfw : estate.Width < fuel) (hfl : estate.Length < fuel)
    (hm : ∀ c, inGrid estate c → 0 ≤ (lookupTree m c).Height ∧ (lookupTree m c).Height ≤ 30) :
    ∃ d, GetEstateIdDronePlan64 fabs fuel estate m none =
        some { Distance := d, Rest := none } ∧
      10 * (estate.Width * estate.Length - 1) + 2 * (maxHeight estate m + 1) ≤ d ∧
      (∀ c, inGrid estate c → (lookupTree m c).Height ≤ maxHeight estate m) := by
  rw [GetEstateIdDronePlan64_exact fabs hfabs fuel estate m none hw1 hw2 hl1 hl2 hfw hfl hm]
  exact dronePlan_lower_bound fuel estate m hw1 hl1 hfw hfl (fun c hc => (hm c hc).1)

/-- Witness of C21: the 6 x 3 test plot, where `H = 30`: the distance 312 is at least
`10 * 17 + 2 * 31 = 232`. -/
theorem dronePlan64_lower_bound_witness :
    ∃ d, GetEstateIdDronePlan64 float64Abs 7 ⟨"", 6, 3⟩ testMap312 none =
        some { Distance := d, Rest := none } ∧
      10 * (6 * 3 - 1) + 2 * (maxHeight ⟨"", 6, 3⟩ testMap312 + 1) ≤ d ∧
      (∀ c, inGrid ⟨"", 6, 3⟩ c →
        (lookupTree testMap312 c).Height ≤ maxHeight ⟨"", 6, 3⟩ testMap312) :=
  dronePlan64_lower_bound float64Abs 7 ⟨"", 6, 3⟩ testMap312 float64Abs_exact (by decide)
    (by decide) (by decide) (by decide) (by decide) (by decide)
    (fun c _ => lookupTree_mapOfList_range _ 0 30 (by decide) (by decide) c)

/-- Counterexample to C21 as stated: on a 1 x 1 plot whose cell holds a tree of height
`H = 2^53` the planner returns `2^54 + 1`, below `10 * 0 + 2 * (H + 1) = 2^54 + 2`. -/
theorem dronePlan64_lower_bound_rounds :
    GetEstateIdDronePlan64 float64Abs 2 ⟨"", 1, 1⟩ testMapTall none =
        some { Distance := 18014398509481985, Rest := none } ∧
      maxHeight ⟨"", 1, 1⟩ testMapTall = 9007199254740992 ∧
      ¬ (10 * (1 * 1 - 1) + 2 * (maxHeight ⟨"", 1, 1⟩ testMapTall + 1) ≤
        (18014398509481985 : Int)) := by
  decide

/-- Claim C17, as amended: for every plot (width, length >= 1, the width a 64-bit integer) and
every height map whose height at (1, 1) is at least 0 and below `2^53`, the planner on
64-bit integers called with budget 0 stops at check A in the first cell and returns distance
`height(1,1) + 1` with resting coordinate (1, 1). -/
theorem dronePlan64_budget_zero (fabs : Int → Int) (fuel : Nat) (estate : Estate)
    (m : TreeMap)
    (hfabs : ∀ d : Int, -9007199254740992 ≤ d → d ≤ 9007199254740992 → fabs d = absInt d)
    (hw : 1 ≤ estate.Width) (hw2 : estate.Width < 9223372036854775808)
    (hl : 1 ≤ estate.Length) (hf : 0 < fuel)
    (h0 : 0 ≤ (lookupTree m ⟨1, 1⟩).Height)
    (h1 : (lookupTree m ⟨1, 1⟩).Height < 9007199254740992) :
    dronePlanRun64 fabs fuel estate m (some 0) =
        some (Exit.checkA,
          { Distance := (lookupTree m ⟨1, 1⟩).Height + 1, Rest := some ⟨1, 1⟩ }) ∧
      GetEstateIdDronePlan64 fabs fuel estate m (some 0) =
        some { Distance := (lookupTree m ⟨1, 1⟩).Height + 1, Rest := some ⟨1, 1⟩ } := by
  obtain ⟨f, rfl⟩ : ∃ f, fuel = f + 1 := ⟨fuel - 1, by omega⟩
  have hx : (1 : Int) ≠ wrap64 (estate.Width + 1) := by
    unfold wrap64
    omega
  have htarget : wrap64 ((lookupTree m ⟨1, 1⟩).Height + 1) = (lookupTree m ⟨1, 1⟩).Height + 1 :=
    wrap64_id _ (by omega) (by omega)
  have habs : fabs ((lookupTree m ⟨1, 1⟩).Height + 1) = (lookupTree m ⟨1, 1⟩).Height + 1 := by
    rw [hfabs _ (by omega) (by omega)]
    unfold absInt
    split <;> omega
  have hover : overBudget (some 0) ((lookupTree m ⟨1, 1⟩).Height + 1) = true := by
    simp only [overBudget, decide_eq_true_eq]
    omega
  have hmod : Int.tmod 1 2 = 1 := by decide
  have hrun : dronePlanRun64 fabs (f + 1) estate m (some 0) =
      some (Exit.checkA,
        { Distance := (lookupTree m ⟨1, 1⟩).Height + 1, Rest := some ⟨1, 1⟩ }) := by
    simp [dronePlanRun64, outerLoop64, innerLoop64, hl, hx, hmod, htarget, habs, hover,
      setResponseMaxDistance]
  exact ⟨hrun, by simp [GetEstateIdDronePlan64, hrun]⟩

/-- Witness of C17: a 2 x 2 plot with a tree of height 7 at (1, 1) and budget 0: the planner
stops in the first cell with distance 8. -/
theorem dronePlan64_budget_zero_witness :
    dronePlanRun64 float64Abs 3 ⟨"", 2, 2⟩ (mapOfList [treeAt 1 1 7]) (some 0) =
        some (Exit.checkA, { Distance := 8, Rest := some ⟨1, 1⟩ }) ∧
      GetEstateIdDronePlan64 float64Abs 3 ⟨"", 2, 2⟩ (mapOfList [treeAt 1 1 7]) (some 0) =
        some { Distance := 8, Rest := some ⟨1, 1⟩ } :=
  dronePlan64_budget_zero float64Abs 3 ⟨"", 2, 2⟩ (mapOfList [treeAt 1 1 7]) float64Abs_exact
    (by decide) (by decide) (by decide) (by decide) (by decide) (by decide)

/-- Counterexample to C17 as stated: on a 1 x 1 plot whose cell holds a tree of height
`2^53` the planner called with budget 0 stops in the first cell with distance `2^53`, the
climb `2^53 + 1` rounded by the conversion through float64, not `height(1,1) + 1`. -/
theorem dronePlan64_budget_zero_rounds :
    dronePlanRun64 float64Abs 2 ⟨"", 1, 1⟩ testMapTall (some 0) =
        some (Exit.checkA, { Distance := 9007199254740992, Rest := some ⟨1, 1⟩ }) ∧
      (lookupTree testMapTall ⟨1, 1⟩).Height + 1 = 9007199254740993 := by
  decide

theorem exitOf_ne_final (k : StepKind) : exitOf k ≠ Exit.final := by
  cases k <;> decide

theorem planOutcome_final_iff (estate : Estate) (m : TreeMap) (b : Int) :
    (∃ r, planOutcome estate m (some b) = (Exit.final, r)) ↔
      ∀ j, 1 ≤ j → j ≤ (planSteps estate m).length → accumulated (planSteps estate m) j ≤ b := by
  have hiff := firstOver_none_iff b (planSteps estate m) 0
  simp only [zero_add] at hiff
  rw [← hiff]
  constructor
  · rintro ⟨r, hr⟩
    cases hfo : firstOver (some b) (planSteps estate m) 0 with
    | none => rfl
    | some p =>
      obtain ⟨s, d⟩ := p
      rw [planOutcome_over estate m b s d hfo] at hr
      exact absurd (congrArg Prod.fst hr) (exitOf_ne_final s.kind)
  · intro hfo
    exact ⟨_, planOutcome_not_over estate m b hfo⟩

/-- Claim C6, as amended: for every plot, height map and budget `b`, when the planner on 64-bit
integers passes every budget check and reaches its final return (no accumulated total before
the final descent exceeds `b`), it returns the distance it returns without a budget, with
resting coordinate (width, length).  For sides from 1 to 50000 and heights in the grid in
[0, 30] the final return is reached exactly when no accumulated total of the step log
exceeds `b`, and in particular for every `b` at least the no-budget distance. -/
theorem dronePlan64_budget_not_exceeded (fabs : Int → Int) (fuel : Nat) (estate : Estate)
    (m : TreeMap) (b : Int) :
    (∀ r, dronePlanRun64 fabs fuel estate m (some b) = some (Exit.final, r) →
        r.Rest = some ⟨estate.Width, estate.Length⟩ ∧
          GetEstateIdDronePlan64 fabs fuel estate m none =
            some { Distance := r.Distance, Rest := none }) ∧
      ((∀ d : Int, -9007199254740992 ≤ d → d ≤ 9007199254740992 → fabs d = absInt d) →
        1 ≤ estate.Width → estate.Width ≤ 50000 → 1 ≤ estate.Length → estate.Length ≤ 50000 →
        estate.Width < fuel → estate.Length < fuel →
        (∀ c, inGrid estate c →
          0 ≤ (lookupTree m c).Height ∧ (lookupTree m c).Height ≤ 30) →
        ((∃ r, dronePlanRun64 fabs fuel estate m (some b) = some (Exit.final, r)) ↔
          ∀ j, 1 ≤ j → j ≤ (planSteps estate m).length →
            accumulated (planSteps estate m) j ≤ b) ∧
        (∀ d, GetEstateIdDronePlan64 fabs fuel estate m none =
            some { Distance := d, Rest := none } → d ≤ b →
          dronePlanRun64 fabs fuel estate m (some b) =
            some (Exit.final,
              { Distance := d, Rest := some ⟨estate.Width, estate.Length⟩ }))) := by
  refine ⟨fun r h => ?_, fun hfabs hw1 hw2 hl1 hl2 hfw hfl hm => ⟨?_, fun d hd hdb => ?_⟩⟩
  · have hfin := dronePlanRun64_final fabs fuel estate m b r h
    refine ⟨hfin.1, ?_⟩
    unfold GetEstateIdDronePlan64
    rw [hfin.2]
    rfl
  · rw [dronePlanRun64_exact fabs hfabs fuel estate m (some b) hw1 hw2 hl1 hl2 hfw hfl hm,
      ← planOutcome_final_iff]
    simp only [Option.some.injEq]
  · rw [GetEstateIdDronePlan64_exact fabs hfabs fuel estate m none hw1 hw2 hl1 hl2 hfw hfl hm,
      GetEstateIdDronePlan_eq fuel estate m none hw1 hl1 hfw hfl, planOutcome_none] at hd
    have hdd : costSum (planSteps estate m) + finalHeight estate m = d := by
      simpa using hd
    have hh := (planDistance_bounds estate m hw1 hl1 hm).2.1
    have hfo : firstOver (some b) (planSteps estate m) 0 = none := by
      refine (firstOver_none_iff b (planSteps estate m) 0).2 (fun j _ _ => ?_)
      have h1 := accumulated_le_costSum (planSteps estate m) (planSteps_cost_nonneg estate m) j
      omega
    rw [dronePlanRun64_exact fabs hfabs fuel estate m (some b) hw1 hw2 hl1 hl2 hfw hfl hm,
      planOutcome_not_over estate m b hfo, ← hdd]
    rfl

/-- Witness of C6: on the 5 x 1 test plot the distance without a budget is 54, and with
budget 54 the planner reaches its final return with distance 54 and resting coordinate
(5, 1). -/
theorem dronePlan64_budget_not_exceeded_witness :
    GetEstateIdDronePlan64 float64Abs 6 ⟨"", 5, 1⟩ testMap54 none =
        some { Distance := 54, Rest := none } ∧
      dronePlanRun64 float64Abs 6 ⟨"", 5, 1⟩ testMap54 (some 54) =
        some (Exit.final, { Distance := 54, Rest := some ⟨5, 1⟩ }) :=
  ⟨by decide,
    ((dronePlan64_budget_not_exceeded float64Abs 6 ⟨"", 5, 1⟩ testMap54 54).2
      float64Abs_exact (by decide) (by decide) (by decide) (by decide) (by decide) (by decide)
      (fun c _ => lookupTree_mapOfList_range _ 0 30 (by decide) (by decide) c)).2 54
      (by decide) (by decide)⟩

/-- Counterexample to C6 as stated: on a 2 x 1 plot with a tree of height `2^62` at (1, 1)
the distance without a budget has wrapped to `-9223372036854775797`; the budget 0 is at
least that distance, yet with budget 0 the planner stops at check A in the first cell with
distance `2^62` and resting coordinate (1, 1). -/
theorem dronePlan64_budget_at_full_distance_wraps :
    GetEstateIdDronePlan64 float64Abs 3 ⟨"", 2, 1⟩ testMapHuge none =
        some { Distance := -9223372036854775797, Rest := none } ∧
      (-9223372036854775797 : Int) ≤ 0 ∧
      dronePlanRun64 float64Abs 3 ⟨"", 2, 1⟩ testMapHuge (some 0) =
        some (Exit.checkA, { Distance := 4611686018427387904, Rest := some ⟨1, 1⟩ }) := by
  decide

/-- Claim C7, as amended: for every plot (width, length >= 1) and height map, when a budget is
supplied and never exceeded, so that the planner on 64-bit integers reaches its final
return, the reported resting coordinate is (width, length).  The serpentine scan ends at
(width, length) when length is odd and at (1, length) when length is even, so the reported
coordinate is the last cell visited if and only if length is odd or width is 1. -/
theorem dronePlan64_final_rest (fabs : Int → Int) (fuel : Nat) (estate : Estate)
    (m : TreeMap) (b : Int) (r : EstateDronePlanResponse)
    (hw : 1 ≤ estate.Width) (hl : 1 ≤ estate.Length)
    (h : dronePlanRun64 fabs fuel estate m (some b) = some (Exit.final, r)) :
    r.Rest = some ⟨estate.Width, estate.Length⟩ ∧
      (serpentine estate.Width.toNat estate.Length.toNat).getLast? =
        some (if estate.Length % 2 = 1 then ⟨estate.Width, estate.Length⟩
          else ⟨1, estate.Length⟩) ∧
      ((serpentine estate.Width.toNat estate.Length.toNat).getLast? =
          some ⟨estate.Width, estate.Length⟩ ↔
        (estate.Length % 2 = 1 ∨ estate.Width = 1)) := by
  refine ⟨(dronePlanRun64_final fabs fuel estate m b r h).1,
    getLast?_serpentine estate hw hl, ?_⟩
  rw [getLast?_serpentine estate hw hl]
  by_cases hodd : estate.Length % 2 = 1
  · simp [hodd]
  · simp only [hodd, if_false, false_or, Option.some.injEq, CoordinatePoint.mk.injEq, and_true]
    exact eq_comm

/-- Witness of C7: on a 2 x 3 plot with a tree of height 4 at (2, 2) budget 1000 is never
exceeded; the planner reports (2, 3), where the scan of the three rows ends. -/
theorem dronePlan64_final_rest_witness :
    dronePlanRun64 float64Abs 4 ⟨"", 2, 3⟩ (mapOfList [treeAt 2 2 4]) (some 1000) =
        some (Exit.final, { Distance := 60, Rest := some ⟨2, 3⟩ }) ∧
      (serpentine 2 3).getLast? = some ⟨2, 3⟩ :=
  ⟨by decide,
    (dronePlan64_final_rest float64Abs 4 ⟨"", 2, 3⟩ (mapOfList [treeAt 2 2 4]) 1000
      { Distance := 60, Rest := some ⟨2, 3⟩ } (by decide) (by decide) (by decide)).2.1⟩

/-- Counterexample to C7 as stated: on a bare 2 x 2 plot with budget 1000 the budget is never
exceeded and the planner, on 64-bit as on unbounded integers, reports (2, 2), while the
serpentine scan (1,1), (2,1), (2,2), (1,2) ends at (1, 2). -/
theorem dronePlan_final_rest_even_length :
    dronePlanRun64 float64Abs 3 ⟨"", 2, 2⟩ (mapOfList []) (some 1000) =
        some (Exit.final, { Distance := 32, Rest := some ⟨2, 2⟩ }) ∧
      dronePlanRun 3 ⟨"", 2, 2⟩ (mapOfList []) (some 1000) =
        some (Exit.final, { Distance := 32, Rest := some ⟨2, 2⟩ }) ∧
      serpentine 2 2 = [⟨1, 1⟩, ⟨2, 1⟩, ⟨2, 2⟩, ⟨1, 2⟩] ∧
      (serpentine 2 2).getLast? = some ⟨1, 2⟩ := by
  decide

/-! ## The query of `FindAllMapEstateTree` and the rows it reads -/

theorem setFilterEstateTree_eq (baseQuery : String) (filter : FilterEstateTree) :
    setFilterEstateTree baseQuery filter =
      (describedQuery baseQuery filter, (activeFields filter).map Prod.snd) := by
  by_cases h1 : filter.ID = "" <;> by_cases h2 : filter.EstateID = "" <;>
    by_cases h3 : filter.X = 0 <;> by_cases h4 : filter.Y = 0 <;>
    simp [setFilterEstateTree, describedQuery, activeFields, placeholderConditions, h1, h2, h3,
      h4, Itoa] <;> intro h <;> exact absurd h (by decide)

theorem FindAllMapEstateTreeQuery_eq (filter : FilterEstateTree) :
    FindAllMapEstateTreeQuery filter =
      describedFindAllQuery filter (wrap64 (wrap64 (filter.Page - 1) * filter.Limit)) := by
  have hsp : ∀ x : String, " " ++ ("LIMIT $" ++ x) = " LIMIT $" ++ x := by
    intro x
    rw [← String.append_assoc]
    rfl
  unfold FindAllMapEstateTreeQuery describedFindAllQuery
  rw [setFilterEstateTree_eq]
  by_cases ho : filter.OrderBy = "" <;>
    by_cases hc : filter.Limit > 0 ∨ filter.ShowAll = false <;>
    simp only [ho, hc, ne_eq, not_true_eq_false, not_false_eq_true, if_true, if_false,
      List.length_map, Itoa, Filter.CalculateOffset, String.append_assoc, hsp]

theorem scanRows_ok (trees : List EstateTree) :
    ∀ m0 : TreeMap, ∃ result, scanRows (trees.map Except.ok) m0 = Except.ok result ∧
      (∀ c : CoordinatePoint, (∃ t ∈ trees, c = ⟨t.X, t.Y⟩) →
        ∃ t2 ∈ trees, result c = some t2 ∧ c = ⟨t2.X, t2.Y⟩) ∧
      (∀ c : CoordinatePoint, (¬ ∃ t ∈ trees, c = ⟨t.X, t.Y⟩) → result c = m0 c) := by
  induction trees with
  | nil =>
    intro m0
    exact ⟨m0, rfl, fun c h => by simp at h, fun c _ => rfl⟩
  | cons t ts ih =>
    intro m0
    obtain ⟨result, hres, ha, hb⟩ := ih (insertTree m0 ⟨t.X, t.Y⟩ t)
    refine ⟨result, ?_, ?_, ?_⟩
    · simp only [List.map_cons, scanRows]
      exact hres
    · intro c hc
      by_cases hts : ∃ t3 ∈ ts, c = ⟨t3.X, t3.Y⟩
      · obtain ⟨t2, ht2, h2⟩ := ha c hts
        exact ⟨t2, List.mem_cons_of_mem _ ht2, h2⟩
      · obtain ⟨t3, ht3, hc3⟩ := hc
        have ht : c = ⟨t.X, t.Y⟩ := by
          rcases List.mem_cons.1 ht3 with rfl | h
          · exact hc3
          · exact absurd ⟨t3, h, hc3⟩ hts
        refine ⟨t, List.mem_cons_self _ _, ?_, ht⟩
        rw [hb c hts, ht]
        simp [insertTree]
    · intro c hc
      have hts : ¬ ∃ t3 ∈ ts, c = ⟨t3.X, t3.Y⟩ := by
        rintro ⟨t3, ht3, hc3⟩
        exact hc ⟨t3, List.mem_cons_of_mem _ ht3, hc3⟩
      have hne : c ≠ ⟨t.X, t.Y⟩ := fun h => hc ⟨t, List.mem_cons_self _ _, h⟩
      rw [hb c hts]
      simp [insertTree, hne]

/-- Claim C19: for every filter, `FindAllMapEstateTree` passes the database the WHERE query,
followed by the ORDER BY clause when `OrderBy` is set, and appends
` LIMIT $(n+1) OFFSET $(n+2)` with the parameters `Limit` and `(Page - 1) * Limit` (the
product of 64-bit `int`s, which is the exact product whenever `Page - 1` and the product fit
in 64 bits), `n` being the number of WHERE parameters, if and only if `Limit > 0` or
`ShowAll` is false.  So the filter of the drone-plan handler (Page 1, ShowAll true, Limit 0,
no OrderBy) yields the WHERE query alone, without ORDER BY, LIMIT or OFFSET, and the height
map holds a tree at the coordinate of every row the database returns for that query, and
nothing else. -/
theorem FindAllMapEstateTree_limit (filter : FilterEstateTree) :
    FindAllMapEstateTreeQuery filter =
        describedFindAllQuery filter (wrap64 (wrap64 (filter.Page - 1) * filter.Limit)) ∧
      (-9223372036854775808 ≤ filter.Page - 1 → filter.Page - 1 < 9223372036854775808 →
        -9223372036854775808 ≤ (filter.Page - 1) * filter.Limit →
        (filter.Page - 1) * filter.Limit < 9223372036854775808 →
        FindAllMapEstateTreeQuery filter =
          describedFindAllQuery filter ((filter.Page - 1) * filter.Limit)) ∧
      (setFilterEstateTree GetEstateTreeQuery filter).2.length = (activeFields filter).length ∧
      ((FindAllMapEstateTreeQuery filter).2.length = (activeFields filter).length + 2 ↔
        (filter.Limit > 0 ∨ filter.ShowAll = false)) ∧
      ((FindAllMapEstateTreeQuery filter).2.length = (activeFields filter).length ↔
        ¬ (filter.Limit > 0 ∨ filter.ShowAll = false)) ∧
      (∀ estateID : String, estateID ≠ "" →
        FindAllMapEstateTreeQuery (dronePlanFilter estateID) =
            ("SELECT id, estate_id, created_at, updated_at, deleted_at, x, y, height FROM estate_trees WHERE estate_id = $1 AND deleted_at IS NULL",
              [SqlArg.str estateID]) ∧
          ∀ (db : String → List SqlArg → Except String QueryRows) (trees : List EstateTree),
            db "SELECT id, estate_id, created_at, updated_at, deleted_at, x, y, height FROM estate_trees WHERE estate_id = $1 AND deleted_at IS NULL"
                [SqlArg.str estateID] = Except.ok ⟨trees.map Except.ok, none⟩ →
            ∃ result, FindAllMapEstateTree db (dronePlanFilter estateID) = Except.ok result ∧
              (∀ t ∈ trees, ∃ t2 ∈ trees,
                result ⟨t.X, t.Y⟩ = some t2 ∧ t2.X = t.X ∧ t2.Y = t.Y) ∧
              (∀ c t, result c = some t → t ∈ trees ∧ c = ⟨t.X, t.Y⟩)) := by
  have hq := FindAllMapEstateTreeQuery_eq filter
  refine ⟨hq, fun h1 h2 h3 h4 => ?_, ?_, ?_, ?_, fun estateID hne => ?_⟩
  · rw [hq, wrap64_id _ h1 h2, wrap64_id _ h3 h4]
  · rw [setFilterEstateTree_eq, List.length_map]
  · rw [hq]
    unfold describedFindAllQuery
    by_cases hc : filter.Limit > 0 ∨ filter.ShowAll = false
    · simp [hc]
    · simp [hc]
  · rw [hq]
    unfold describedFindAllQuery
    by_cases hc : filter.Limit > 0 ∨ filter.ShowAll = false
    · simp [hc]
    · simp [hc]
  · have hquery : FindAllMapEstateTreeQuery (dronePlanFilter estateID) =
        ("SELECT id, estate_id, created_at, updated_at, deleted_at, x, y, height FROM estate_trees WHERE estate_id = $1 AND deleted_at IS NULL",
          [SqlArg.str estateID]) := by
      rw [FindAllMapEstateTreeQuery_eq]
      simp only [describedFindAllQuery, describedQuery, activeFields, dronePlanFilter, hne,
        ne_eq, not_true_eq_false, not_false_eq_true, if_true, if_false, List.nil_append,
        List.append_nil, List.map_cons, List.map_nil, placeholderConditions,
        List.singleton_append, gt_iff_lt, lt_self_iff_false, Bool.true_eq_false, or_self]
      refine Prod.ext ?_ rfl
      simp only [GetEstateTreeQuery]
      decide
    refine ⟨hquery, fun db trees hdb => ?_⟩
    obtain ⟨result, hres, ha, hb⟩ := scanRows_ok trees (fun _ => none)
    refine ⟨result, ?_, fun t ht => ?_, fun c t hct => ?_⟩
    · unfold FindAllMapEstateTree
      rw [hquery]
      simp only [hdb, hres]
    · obtain ⟨t2, ht2, hr, hc⟩ := ha ⟨t.X, t.Y⟩ ⟨t, ht, rfl⟩
      simp only [CoordinatePoint.mk.injEq] at hc
      exact ⟨t2, ht2, hr, hc.1.symm, hc.2.symm⟩
    · by_cases hex : ∃ t3 ∈ trees, c = ⟨t3.X, t3.Y⟩
      · obtain ⟨t2, ht2, hr, hc⟩ := ha c hex
        rw [hr] at hct
        simp only [Option.some.injEq] at hct
        subst hct
        exact ⟨ht2, hc⟩
      · rw [hb c hex] at hct
        simp at hct

/-- Witness of C19: the filter of the repository test (Page 1, Limit 10, OrderBy id, Sort
ASC) gives the query ending in `ORDER BY id ASC LIMIT $2 OFFSET $3` with the arguments
(e1, 10, 0); for the filter of the drone-plan handler a database that answers the WHERE
query with the trees at (1, 1) and (2, 1) gives a height map holding both. -/
theorem FindAllMapEstateTree_limit_witness :
    FindAllMapEstateTreeQuery
        { Page := 1, Limit := 10, OrderBy := "id", SortOrder := "ASC", EstateID := "e1" } =
      ("SELECT id, estate_id, created_at, updated_at, deleted_at, x, y, height FROM estate_trees WHERE estate_id = $1 AND deleted_at IS NULL ORDER BY id ASC LIMIT $2 OFFSET $3",
        [SqlArg.str "e1", SqlArg.int 10, SqlArg.int 0]) ∧
      ∃ result,
        FindAllMapEstateTree
            (fun _ _ => Except.ok
              ⟨[(⟨"t1", "e1", 1, 1, 5⟩ : EstateTree), ⟨"t2", "e1", 2, 1, 9⟩].map Except.ok, none⟩)
            (dronePlanFilter "e1") = Except.ok result ∧
          (∀ t ∈ [(⟨"t1", "e1", 1, 1, 5⟩ : EstateTree), ⟨"t2", "e1", 2, 1, 9⟩],
            ∃ t2 ∈ [(⟨"t1", "e1", 1, 1, 5⟩ : EstateTree), ⟨"t2", "e1", 2, 1, 9⟩],
              result ⟨t.X, t.Y⟩ = some t2 ∧ t2.X = t.X ∧ t2.Y = t.Y) ∧
          (∀ c t, result c = some t →
            t ∈ [(⟨"t1", "e1", 1, 1, 5⟩ : EstateTree), ⟨"t2", "e1", 2, 1, 9⟩] ∧
              c = ⟨t.X, t.Y⟩) := by
  refine ⟨?_, ((FindAllMapEstateTree_limit (dronePlanFilter "e1")).2.2.2.2.2 "e1"
    (by decide)).2 _ _ rfl⟩
  rw [(FindAllMapEstateTree_limit
    { Page := 1, Limit := 10, OrderBy := "id", SortOrder := "ASC", EstateID := "e1" }).2.1
    (by decide) (by decide) (by decide) (by decide)]
  rfl

end DroneSawit
